import Mathlib

/-!
# NvDrmRenderer: buffer lifecycle and frame pacing

A shallow embedding of `samples/common/classes/NvDrmRenderer.cpp`.

* The renderer object is the record `NvDrmRenderer`; every member function is a
  function from the old record to the new one (and the returned `int`).
* Calls into libdrm / NvBufSurface are external.  Their results are read from a
  record `HwEnv` that is passed to every step, and every call is appended to the
  field `trace`, in program order.
* The two threads are modelled by interleaving atomic steps (`Action`): one call of
  `enqueBuffer`, the first fetch of the presenter thread, one run of
  `page_flip_handler`.
* `int`, `time_t`, `long` are `Int`; `uint32_t`, `uint64_t` are `Nat`; arithmetic
  on the 64-bit clock fields wraps explicitly (`toU64`, `toI64`).
* `float fps` is a rational number that is a binary32 value (`isF32`); the single
  float division in `setFPS` is rounded by the parameter `rnd`, which for the
  program is `roundF32` (IEEE 754 round to nearest, ties to even).
-/

namespace NvDrm

/-! ## Data model -/

/-- The record `struct timespec`: both fields are signed 64-bit integers. -/
structure Timespec where
  tv_sec : Int
  tv_nsec : Int
deriving DecidableEq

/-- The record `struct timeval`, as filled in by `gettimeofday`. -/
structure Timeval where
  tv_sec : Int
  tv_usec : Int
deriving DecidableEq

/-- Colour formats of `nvbufsurface.h` that `NvBufGetDrmParams` names; every other
enumerator of the header is `other tag`. -/
inductive NvBufSurfaceColorFormat where
  | NVBUF_COLOR_FORMAT_INVALID
  | NVBUF_COLOR_FORMAT_YUV420
  | NVBUF_COLOR_FORMAT_YVU420
  | NVBUF_COLOR_FORMAT_NV12
  | NVBUF_COLOR_FORMAT_NV21
  | NVBUF_COLOR_FORMAT_UYVY
  | NVBUF_COLOR_FORMAT_NV12_10LE_2020
  | NVBUF_COLOR_FORMAT_NV12_10LE_709
  | NVBUF_COLOR_FORMAT_NV12_10LE
  | other (tag : Nat)
deriving DecidableEq

/-- The DRM fourcc codes that `NvBufGetDrmParams` can store. -/
inductive DrmFormat where
  | DRM_FORMAT_YUV420
  | DRM_FORMAT_YVU420
  | DRM_FORMAT_NV12
  | DRM_FORMAT_NV21
  | DRM_FORMAT_UYVY
  | DRM_FORMAT_TEGRA_P010_2020
  | DRM_FORMAT_TEGRA_P010_709
  | DRM_FORMAT_P010
deriving DecidableEq

/-- The part of `nvbuf_surface->surfaceList[0]` that the renderer reads. -/
structure NvBufSurface where
  num_planes : Nat
  pitch : List Nat
  offset : List Nat
  colorFormat : NvBufSurfaceColorFormat
deriving DecidableEq

/-- The record `struct NvBufDrmParams`; `pixel_format = none` is the zero left by
`memset`. -/
structure NvBufDrmParams where
  num_planes : Nat
  pitch : List Nat
  offset : List Nat
  pixel_format : Option DrmFormat
deriving DecidableEq

/-- What `drmModeGetPlane` returns for one plane. -/
structure DrmPlane where
  plane_id : Nat
  possible_crtcs : Nat
deriving DecidableEq

/-- One entry of the log of a run: the calls into the display driver in program
order, together with the assignments to `flippedFd` and `activeFd`. -/
inductive Event where
  | renderCall (fd : Int)
  | primeFDToHandle (fd : Int) (ret : Int)
  | setTiling (handle : Nat) (ret : Int)
  | addFB2 (fb : Nat) (ret : Int)
  | addFB2WithModifiers (fb : Nat) (ret : Int)
  | setPlane (plane_id : Nat) (fb : Nat) (ret : Int)
  | timedWait (deadline : Timespec)
  | pageFlip (fb : Nat) (ret : Int)
  | closeGemBo (handle : Nat)
  | rmFB (fb : Nat)
  | setCrtcZero (ret : Int)
  | flipped (fd : Int)
  | active (fd : Int)
deriving DecidableEq

/-- Where the presenter thread is: before its first fetch, in its event loop, or
returned. -/
inductive ThreadPhase where
  | waiting
  | running
  | exited
deriving DecidableEq

/-- Results of the external calls made during one step. -/
structure HwEnv where
  /-- Result of `NvBufSurfaceFromFd(fd, ..)`: `none` is the null surface. -/
  NvBufSurfaceFromFd : Int → Option NvBufSurface
  /-- Return code of `drmPrimeFDToHandle` for plane `i`. -/
  primeRet : Nat → Int
  /-- The handle `drmPrimeFDToHandle` delivers for plane `i`. -/
  primeHandle : Nat → Nat
  /-- Return code of the `DRM_IOCTL_TEGRA_GEM_SET_TILING` ioctl for plane `i`. -/
  tilingRet : Nat → Int
  /-- Return code of `drmModeAddFB2` / `drmModeAddFB2WithModifiers`. -/
  addFbRet : Int
  /-- The framebuffer id written by `drmModeAddFB2`. -/
  addFbId : Nat
  /-- Result of `drmModeGetPlaneResources` and of `drmModeGetPlane` per plane. -/
  planeRes : Option (List (Option DrmPlane))
  /-- Return code of `drmModeSetPlane`. -/
  setPlaneRet : Int
  /-- Result of `gettimeofday`. -/
  now : Timeval
  /-- Return code of `drmModePageFlip`. -/
  flipRet : Int
  /-- Return code of `drmModeSetCrtc(.., ZERO_FD, ..)`. -/
  setCrtcRet : Int
  /-- Content of the uninitialised `dParams.num_planes` when the handle is found
  in `map_list`. -/
  staleNumPlanes : Nat

/-- The fields of class `NvDrmRenderer` used by the buffer lifecycle and the frame
pacer, followed by three fields that are not in the class: `trace` (the log),
`inFlight` (page-flip events requested with success and not yet delivered) and
`thread` (position of the presenter thread).  The two queues hold `int` handles,
`is_in_error` is the 0/1 flag of `NvElement`, the frame duration is a pair of
`uint64_t`, `last_render_time` a `struct timespec`. -/
structure NvDrmRenderer where
  pendingBuffers : List Int
  freeBuffers : List Int
  activeFd : Int
  flippedFd : Int
  flipPending : Bool
  renderingStarted : Bool
  stop_thread : Bool
  is_in_error : Bool
  is_nvidia_drm : Bool
  last_fb : Nat
  map_list : List (Int × Nat)
  last_render_time : Timespec
  fps : ℚ
  render_time_sec : Nat
  render_time_nsec : Nat
  trace : List Event
  inFlight : Nat
  thread : ThreadPhase
deriving DecidableEq

/-! ## Machine arithmetic -/

/-- Conversion of a signed 64-bit value to `unsigned long`. -/
def toU64 (x : Int) : Nat := (x % 18446744073709551616).toNat

/-- Conversion of an `unsigned long` value back to a signed 64-bit field. -/
def toI64 (n : Nat) : Int :=
  if n % 18446744073709551616 < 9223372036854775808 then ((n % 18446744073709551616 : Nat) : Int)
  else ((n % 18446744073709551616 : Nat) : Int) - 18446744073709551616

/-- Conversion of a float value to `uint64_t`: the fraction is dropped.  C++ leaves
the result undefined when the truncated value does not fit; the AArch64
conversion instruction of the Jetson saturates, which is what is modelled. -/
def floatToU64 (q : ℚ) : Nat :=
  if q < 0 then 0 else min (Int.toNat (Int.floor q)) 18446744073709551615

/-- Rounding of a rational to the nearest integer, ties to the even one. -/
def roundEven (x : ℚ) : Int :=
  if x - Int.floor x < 1 / 2 then Int.floor x
  else if 1 / 2 < x - Int.floor x then Int.floor x + 1
  else if Int.floor x % 2 = 0 then Int.floor x else Int.floor x + 1

/-- The result of a `float` operation whose exact value is `x` (IEEE 754 binary32,
round to nearest, ties to even): 24 significant bits, with exponent
`floor(log2 |x|)` but not below -126, where the subnormal numbers of step
`2^-149` begin.  A rounded magnitude of `2^128` or more is an infinity; it is
represented by `2^128`, which `floatToU64` treats like every value that does not
fit. -/
def roundF32 (x : ℚ) : ℚ :=
  if x = 0 then 0
  else
    let e : Int := max (Int.log 2 |x|) (-126)
    let ulp : ℚ := 2 ^ (e - 23)
    let r : ℚ := min ((roundEven (|x| / ulp) : ℚ) * ulp) (2 ^ 128)
    if x < 0 then -r else r

/-- The rational `x` is a finite `float` value. -/
def isF32 (x : ℚ) : Prop := |x| < 2 ^ 128 ∧ roundF32 x = x

instance (x : ℚ) : Decidable (isF32 x) := by
  unfold isF32
  infer_instance

/-! ## NvBufGetDrmParams -/

/-- The array `a`, read at `i` (0 outside the list). -/
def arr (a : List Nat) (i : Nat) : Nat := a.getD i 0

/-- The function `NvBufGetDrmParams`.  A null pointer is `none`.  The result is the
return code and the new content of `*dParams`.  The four-element arrays are
lists of length 4. -/
def NvBufGetDrmParams (nvbuf_surface : Option NvBufSurface)
    (dParams : Option NvBufDrmParams) : Int × Option NvBufDrmParams :=
  match nvbuf_surface, dParams with
  | none, d => (-1, d)
  | some _, none => (-1, none)
  | some surf, some _ =>
    let d0 : NvBufDrmParams :=
      { num_planes := surf.num_planes
        pitch := (List.range 4).map (fun i => if i < surf.num_planes then arr surf.pitch i else 0)
        offset := (List.range 4).map (fun i => if i < surf.num_planes then arr surf.offset i else 0)
        pixel_format := none }
    match surf.colorFormat with
    | .NVBUF_COLOR_FORMAT_YUV420 => (0, some { d0 with pixel_format := some .DRM_FORMAT_YUV420 })
    | .NVBUF_COLOR_FORMAT_YVU420 => (0, some { d0 with pixel_format := some .DRM_FORMAT_YVU420 })
    | .NVBUF_COLOR_FORMAT_NV12 => (0, some { d0 with pixel_format := some .DRM_FORMAT_NV12 })
    | .NVBUF_COLOR_FORMAT_NV21 => (0, some { d0 with pixel_format := some .DRM_FORMAT_NV21 })
    | .NVBUF_COLOR_FORMAT_UYVY => (0, some { d0 with pixel_format := some .DRM_FORMAT_UYVY })
    | .NVBUF_COLOR_FORMAT_NV12_10LE_2020 =>
        (0, some { d0 with pixel_format := some .DRM_FORMAT_TEGRA_P010_2020 })
    | .NVBUF_COLOR_FORMAT_NV12_10LE_709 =>
        (0, some { d0 with pixel_format := some .DRM_FORMAT_TEGRA_P010_709 })
    | .NVBUF_COLOR_FORMAT_NV12_10LE => (0, some { d0 with pixel_format := some .DRM_FORMAT_P010 })
    | .NVBUF_COLOR_FORMAT_INVALID => (-1, some d0)
    | .other _ => (-1, some d0)

/-! ## renderInternal -/

/-- The function `NvDrmRenderer::setPlane`: return code and the driver calls made. -/
def setPlane (env : HwEnv) (pl_index : Nat) (fb_id : Nat) : Int × List Event :=
  match env.planeRes with
  | none => (-1, [])
  | some planes =>
    if pl_index < planes.length then
      match planes.getD pl_index none with
      | some plane => (env.setPlaneRet, [Event.setPlane plane.plane_id fb_id env.setPlaneRet])
      | none => (-1, [])
    else (-22, [])

/-- The loop `for (i = 0; i < dParams.num_planes; i++)` of `renderInternal` that
imports the buffer once per plane: `k` iterations remain, `i` is the loop
variable.  Result: whether the loop ran to its end, `bo_handles`, the calls. -/
def importPlanes (env : HwEnv) (nvidia : Bool) (fd : Int) :
    Nat → Nat → List Nat → List Event → Bool × List Nat × List Event
  | 0, _, bo, evs => (true, bo, evs)
  | k + 1, i, bo, evs =>
    let evs1 := evs ++ [Event.primeFDToHandle fd (env.primeRet i)]
    if env.primeRet i ≠ 0 then (false, bo, evs1)
    else if nvidia then importPlanes env nvidia fd k (i + 1) (bo.set i (env.primeHandle i)) evs1
    else
      let evs2 := evs1 ++ [Event.setTiling (env.primeHandle i) (env.tilingRet i)]
      if env.tilingRet i < 0 then (false, bo, evs2)
      else importPlanes env nvidia fd k (i + 1) (bo.set i (env.primeHandle i)) evs2

/-- First part of `renderInternal` (up to the comment `Don't do mapping until we can
resolve that`): find the framebuffer of `fd` in `map_list` or create one.
`none` is `goto error`.  On success: `fb`, `dParams.num_planes`, `bo_handles`.
`NvBufGetDrmParams` is called with the address of a local, so its `none` result
for `dParams` cannot occur.  Nothing is ever inserted into `map_list`: the
`insert` is commented out in the source. -/
def acquireFB (env : HwEnv) (s : NvDrmRenderer) (fd : Int) :
    Option (Nat × Nat × List Nat) × List Event :=
  match s.map_list.lookup fd with
  | some fb => (some (fb, env.staleNumPlanes, [0, 0, 0, 0]), [])
  | none =>
    match env.NvBufSurfaceFromFd fd with
    | none => (none, [])
    | some surf =>
      match NvBufGetDrmParams (some surf) (some ⟨0, [], [], none⟩) with
      | (_, none) => (none, [])
      | (ret, some dParams) =>
        if ret < 0 then (none, [])
        else
          match importPlanes env s.is_nvidia_drm fd dParams.num_planes 0 [0, 0, 0, 0] [] with
          | (false, _, evs) => (none, evs)
          | (true, bo_handles, evs) =>
            let evs1 := evs ++ [if s.is_nvidia_drm then Event.addFB2WithModifiers env.addFbId env.addFbRet
                                else Event.addFB2 env.addFbId env.addFbRet]
            if env.addFbRet ≠ 0 then (none, evs1)
            else
              match setPlane env 0 env.addFbId with
              | (pret, evs2) =>
                if pret ≠ 0 then (none, evs1 ++ evs2)
                else (some (env.addFbId, dParams.num_planes, bo_handles), evs1 ++ evs2)

/-- Append entries to the log. -/
def NvDrmRenderer.log (s : NvDrmRenderer) (evs : List Event) : NvDrmRenderer :=
  { s with trace := s.trace ++ evs }

/-- The four statements that move `last_render_time` one frame duration ahead.  The
operands are converted to `unsigned long`, so sums wrap at `2^64` and the
division and remainder are unsigned. -/
def advanceDeadline (t : Timespec) (render_time_sec render_time_nsec : Nat) : Timespec :=
  let sec1 := toI64 (toU64 t.tv_sec + render_time_sec)
  let nsec1 := toI64 (toU64 t.tv_nsec + render_time_nsec)
  let sec2 := toI64 (toU64 sec1 + toU64 nsec1 / 1000000000)
  let nsec2 := toI64 (toU64 nsec1 % 1000000000)
  ⟨sec2, nsec2⟩

/-- The pacing block of `renderInternal` (`if (last_render_time.tv_sec != 0)`): an
armed clock is advanced and waited for with `pthread_cond_timedwait`; an unarmed
clock takes the current time as baseline.  The lateness flag only feeds the
profiler and is left out. -/
def pace (env : HwEnv) (s : NvDrmRenderer) : NvDrmRenderer :=
  if s.last_render_time.tv_sec ≠ 0 then
    let t := advanceDeadline s.last_render_time s.render_time_sec s.render_time_nsec
    { s with last_render_time := t, trace := s.trace ++ [Event.timedWait t] }
  else
    { s with last_render_time := ⟨env.now.tv_sec, toI64 (toU64 (env.now.tv_usec * 1000))⟩ }

/-- Last part of `renderInternal`, from `flippedFd = fd` to the end: the flip request,
the release of the imported handles and the removal of the previous framebuffer. -/
def flipStage (env : HwEnv) (fd : Int) (fb num_planes : Nat) (bo_handles : List Nat)
    (s : NvDrmRenderer) : Int × NvDrmRenderer :=
  let s3 := { s with flippedFd := fd, flipPending := true, trace := s.trace ++ [Event.flipped fd] }
  if s3.is_nvidia_drm = false ∧ env.flipRet ≠ 0 then
    (-1, { s3 with flipPending := false, trace := s3.trace ++ [Event.pageFlip fb env.flipRet] })
  else
    let s4 := if s3.is_nvidia_drm then s3
              else { s3 with trace := s3.trace ++ [Event.pageFlip fb env.flipRet],
                             inFlight := s3.inFlight + 1 }
    (0, { s4 with
            trace := s4.trace
              ++ (List.range num_planes).map (fun i => Event.closeGemBo (arr bo_handles i))
              ++ (if s4.last_fb ≠ 0 then [Event.rmFB s4.last_fb] else [])
            last_fb := fb })

/-- The function `NvDrmRenderer::renderInternal`: framebuffer set-up, pacing, flip.
The call `profiler.finishProcessing` only records statistics and is left out. -/
def renderInternal (env : HwEnv) (fd : Int) (s : NvDrmRenderer) : Int × NvDrmRenderer :=
  match acquireFB env s fd with
  | (none, evs) => (-1, s.log (Event.renderCall fd :: evs))
  | (some (fb, num_planes, bo_handles), evs) =>
    flipStage env fd fb num_planes bo_handles (pace env (s.log (Event.renderCall fd :: evs)))

/-! ## Queue operations -/

/-- First critical section of `page_flip_handler` (under `dequeue_lock`): the handle
that was active goes to the free pool unless it is -1, and the flipped handle
becomes the active one. -/
def retireActive (s : NvDrmRenderer) : NvDrmRenderer :=
  let s1 := if s.activeFd ≠ -1 then { s with freeBuffers := s.freeBuffers ++ [s.activeFd] } else s
  { s1 with activeFd := s1.flippedFd, trace := s1.trace ++ [Event.active s1.flippedFd] }

/-- The function `NvDrmRenderer::page_flip_handler`. -/
def page_flip_handler (env : HwEnv) (s : NvDrmRenderer) : NvDrmRenderer :=
  let s2 := retireActive s
  match s2.pendingBuffers with
  | [] => { s2 with flipPending := false }
  | fd :: rest =>
    let s3 := { s2 with pendingBuffers := rest }
    if fd = -1 then
      let s4 := s3.log [Event.setCrtcZero env.setCrtcRet]
      if env.setCrtcRet ≠ 0 then s4
      else { s4 with stop_thread := true, freeBuffers := s4.freeBuffers ++ [s4.activeFd],
                     flipPending := false }
    else (renderInternal env fd s3).2

/-- The function `NvDrmRenderer::enqueBuffer`.  The branch for an empty queue after
the push cannot be taken; it is there because `front()` needs an element. -/
def enqueBuffer (env : HwEnv) (fd : Int) (s : NvDrmRenderer) : Int × NvDrmRenderer :=
  if s.is_in_error then (-1, s)
  else
    let s1 := { s with pendingBuffers := s.pendingBuffers ++ [fd] }
    if s1.renderingStarted ∧ s1.flipPending = false then
      match s1.pendingBuffers with
      | [] => (-1, s1)
      | tmpFd :: rest =>
        let s2 := { s1 with pendingBuffers := rest }
        if tmpFd = -1 then
          let s3 := s2.log [Event.setCrtcZero env.setCrtcRet]
          if env.setCrtcRet ≠ 0 then (env.setCrtcRet, s3)
          else
            (0, { s3 with stop_thread := true,
                          freeBuffers := if s3.activeFd ≠ -1 then s3.freeBuffers ++ [s3.activeFd]
                                         else s3.freeBuffers })
        else renderInternal env tmpFd s2
    else (0, s1)

/-- The function `NvDrmRenderer::setFPS`.  `rnd` is the rounding of the float
quotient `1000000L / fps`: the constant 1000000 is a `float` value, so the
division is one correctly rounded operation and the program is
`setFPS roundF32`, called with a `float` value `fps`. -/
def setFPS (rnd : ℚ → ℚ) (fps : ℚ) (s : NvDrmRenderer) : Int × NvDrmRenderer :=
  if fps = 0 then (-1, s)
  else
    let render_time_usec := floatToU64 (rnd (1000000 / fps))
    (0, { s with fps := fps
                 render_time_sec := render_time_usec / 1000000
                 render_time_nsec := (render_time_usec % 1000000) * 1000 % 18446744073709551616 })

/-! ## The presenter thread and runs -/

/-- The start of `renderThread` and of `renderThreadOrin`, which are the same text:
take the first pending handle and present it.  `none`: the queue is empty. -/
def renderThreadFetch (env : HwEnv) (s : NvDrmRenderer) : Option NvDrmRenderer :=
  match s.pendingBuffers with
  | [] => none
  | fd :: rest =>
    match renderInternal env fd { s with pendingBuffers := rest } with
    | (ret, s1) =>
      if ret < 0 then some { s1 with is_in_error := true, thread := ThreadPhase.exited }
      else some { s1 with renderingStarted := true, thread := ThreadPhase.running }

/-- The atomic steps of a run. -/
inductive Action where
  | enque (fd : Int) (env : HwEnv)
  | fetch (env : HwEnv)
  | flipDone (env : HwEnv)

/-- One step.  `fetch` needs the thread before its first fetch and a pending handle.
`flipDone` needs the thread in its loop; in `renderThread` the handler runs when
`drmHandleEvent` delivers a page-flip event, in `renderThreadOrin` it runs
whenever `stop_thread` is not set. -/
def step (s : NvDrmRenderer) : Action → Option NvDrmRenderer
  | .enque fd env => some (enqueBuffer env fd s).2
  | .fetch env => if s.thread = ThreadPhase.waiting then renderThreadFetch env s else none
  | .flipDone env =>
    if s.thread = ThreadPhase.running then
      if s.is_nvidia_drm then
        if s.stop_thread then none else some (page_flip_handler env s)
      else if 0 < s.inFlight then some (page_flip_handler env { s with inFlight := s.inFlight - 1 })
      else none
    else none

/-- A run: the steps in order; `none` when a step is not enabled. -/
def run (s : NvDrmRenderer) : List Action → Option NvDrmRenderer
  | [] => some s
  | a :: as =>
    match step s a with
    | none => none
    | some s1 => run s1 as

/-- The renderer as the constructor leaves it (after `setFPS(30)`): `nvidia` tells
whether the driver is `nvidia-drm`. -/
def init (nvidia : Bool) : NvDrmRenderer :=
  { pendingBuffers := []
    freeBuffers := []
    activeFd := -1
    flippedFd := -1
    flipPending := false
    renderingStarted := false
    stop_thread := false
    is_in_error := false
    is_nvidia_drm := nvidia
    last_fb := 0
    map_list := []
    last_render_time := ⟨0, 0⟩
    fps := 30
    render_time_sec := 0
    render_time_nsec := 33333000
    trace := []
    inFlight := 0
    thread := ThreadPhase.waiting }

/-! ## Projections of a run -/

/-- The handles passed to `enqueBuffer`, in call order. -/
def submitted : List Action → List Int
  | [] => []
  | .enque fd _ :: as => fd :: submitted as
  | _ :: as => submitted as

/-- The handles passed to `renderInternal`, in call order. -/
def rendered (tr : List Event) : List Int :=
  tr.filterMap (fun e => match e with | .renderCall fd => some fd | _ => none)

/-- The values assigned to `flippedFd`, in order. -/
def flippedSeq (tr : List Event) : List Int :=
  tr.filterMap (fun e => match e with | .flipped fd => some fd | _ => none)

/-- The values assigned to `activeFd`, in order. -/
def activeSeq (tr : List Event) : List Int :=
  tr.filterMap (fun e => match e with | .active fd => some fd | _ => none)

/-- An environment in which every external call succeeds and `fb` is the new
framebuffer id. -/
def okEnv (fb : Nat) : HwEnv :=
  { NvBufSurfaceFromFd := fun _ => some ⟨2, [1920, 1920], [0, 2073600], .NVBUF_COLOR_FORMAT_NV12⟩
    primeRet := fun _ => 0
    primeHandle := fun i => 100 + i
    tilingRet := fun _ => 0
    addFbRet := 0
    addFbId := fb
    planeRes := some [some ⟨40, 1⟩]
    setPlaneRet := 0
    now := ⟨1000, 0⟩
    flipRet := 0
    setCrtcRet := 0
    staleNumPlanes := 0 }

/-! ## Definitions that follow the wording of the specification -/

/-- The frame duration as the specification words it: with `u = floor(1000000 / fps)`
microseconds, whole seconds `u div 1000000` and nanoseconds `(u mod 1000000) * 1000`. -/
def frameDurationSpec (fps : ℚ) : Nat × Nat :=
  ((Int.toNat (Int.floor (1000000 / fps))) / 1000000,
   ((Int.toNat (Int.floor (1000000 / fps))) % 1000000) * 1000)

/-- The `float` literal `3.2f`, that is `13421773 / 2^22`. -/
def rate32 : ℚ := 13421773 / 4194304

/-! ## Auxiliary definitions for the proofs -/

/-- Entries of the log written while a framebuffer is set up. -/
def Event.isSetupCall : Event → Bool
  | .primeFDToHandle _ _ => true
  | .setTiling _ _ => true
  | .addFB2 _ _ => true
  | .addFB2WithModifiers _ _ => true
  | .setPlane _ _ _ => true
  | _ => false

/-- The invariant of the flip-pending flag: at most one page-flip event is awaited,
an awaited event has `flipPending` set, nothing is awaited and rendering has not
started unless the presenter thread is in its loop, and `renderThreadOrin`
(driver `nvidia-drm`) never awaits an event. -/
def InvFlight (s : NvDrmRenderer) : Prop :=
  s.inFlight ≤ 1 ∧ (s.inFlight = 1 → s.flipPending = true) ∧
  (s.thread ≠ ThreadPhase.running → s.renderingStarted = false ∧ s.inFlight = 0) ∧
  (s.is_nvidia_drm = true → s.inFlight = 0)

/-- The queue invariant for handles `sub` submitted so far, none of them -1: the
handles presented followed by the pending ones are a prefix of `sub`, all of
`sub` unless the renderer is in error, and no -1 is pending. -/
def InvFifo (sub : List Int) (s : NvDrmRenderer) : Prop :=
  (rendered s.trace ++ s.pendingBuffers) <+: sub ∧
  (s.is_in_error = false → rendered s.trace ++ s.pendingBuffers = sub) ∧
  (-1 : Int) ∉ s.pendingBuffers

/-- Order of the slots: the values of `flippedFd` are a subsequence of the handles
presented; with page-flip events (`is_nvidia_drm` false) the values of `activeFd`
are a subsequence of the values of `flippedFd`, the awaited one excluded. -/
def InvOrder (s : NvDrmRenderer) : Prop :=
  (flippedSeq s.trace).Sublist (rendered s.trace) ∧
  (s.is_nvidia_drm = false →
    (s.inFlight = 0 → (activeSeq s.trace).Sublist (flippedSeq s.trace)) ∧
    (s.inFlight = 1 → ∃ pre, flippedSeq s.trace = pre ++ [s.flippedFd] ∧
        (activeSeq s.trace).Sublist pre))

/-- The requests `drmModePageFlip` of a log, successful or not. -/
def pageFlips (tr : List Event) : List Event :=
  tr.filter (fun e => match e with | .pageFlip _ _ => true | _ => false)

/-- A clock value as one count of nanoseconds. -/
def totalNs (t : Timespec) : Int := t.tv_sec * 1000000000 + t.tv_nsec

/-- Consecutive calls of `renderInternal`, each with its environment and handle. -/
def presentAll (s : NvDrmRenderer) (calls : List (HwEnv × Int)) : NvDrmRenderer :=
  calls.foldl (fun st c => (renderInternal c.1 c.2 st).2) s

/-- The fields that `renderInternal` never writes agree in `s` and `t`. -/
def sameQueues (s t : NvDrmRenderer) : Prop :=
  t.pendingBuffers = s.pendingBuffers ∧ t.freeBuffers = s.freeBuffers ∧
  t.activeFd = s.activeFd ∧ t.renderingStarted = s.renderingStarted ∧
  t.stop_thread = s.stop_thread ∧ t.is_in_error = s.is_in_error ∧
  t.is_nvidia_drm = s.is_nvidia_drm ∧ t.map_list = s.map_list ∧ t.thread = s.thread ∧
  t.fps = s.fps ∧ t.render_time_sec = s.render_time_sec ∧
  t.render_time_nsec = s.render_time_nsec

/-- A sample run with page-flip events: two handles are submitted, the thread
presents the first, its flip is confirmed (which presents the second). -/
def demoRun : List Action :=
  [Action.enque 1 (okEnv 7), Action.enque 2 (okEnv 8), Action.fetch (okEnv 7),
   Action.flipDone (okEnv 8)]

/-- The state reached by `demoRun`. -/
def demoState : NvDrmRenderer := (run (init false) demoRun).getD (init false)

/-- As `okEnv`, with the wall clock reading `sec` seconds and `usec` microseconds. -/
def okEnvAt (fb : Nat) (sec usec : Int) : HwEnv :=
  { okEnv fb with now := ⟨sec, usec⟩ }

/-- The constructed renderer with a frame duration of exactly one second. -/
def oneSecond : NvDrmRenderer :=
  { init false with render_time_sec := 1, render_time_nsec := 0 }

/-- The environment of a step. -/
def Action.env : Action → HwEnv
  | .enque _ e => e
  | .fetch e => e
  | .flipDone e => e

/-- Every external request of the step succeeds when the handle presented is
`fd`: the surface is found and has a supported colour format, the imports, the
tiling ioctl, framebuffer creation, `setPlane`, the page flip and the blanking
`drmModeSetCrtc` all return success. -/
def HwEnv.succeedsOn (env : HwEnv) (fd : Int) : Prop :=
  (∃ surf, env.NvBufSurfaceFromFd fd = some surf ∧
      (NvBufGetDrmParams (some surf) (some ⟨0, [], [], none⟩)).1 = 0) ∧
  (∀ i, env.primeRet i = 0) ∧ (∀ i, 0 ≤ env.tilingRet i) ∧ env.addFbRet = 0 ∧
  (setPlane env 0 env.addFbId).1 = 0 ∧ env.flipRet = 0 ∧ env.setCrtcRet = 0

/-- The invariant of a run in which handles `hs` and then -1 are submitted and every
request succeeds; `sub` is what has been submitted so far.  The four cases:
before the first fetch; a flip is awaited (`x` flipped, `pre` shown before it);
idle after the last confirmation; stopped by the end-of-stream handle. -/
def InvDrain (hs sub : List Int) (s : NvDrmRenderer) : Prop :=
  s.is_nvidia_drm = false ∧ s.map_list = [] ∧ s.is_in_error = false ∧
  ((s.thread = ThreadPhase.waiting ∧ s.pendingBuffers = sub ∧ rendered s.trace = [] ∧
      activeSeq s.trace = [] ∧ s.freeBuffers = [] ∧ s.activeFd = -1 ∧
      s.flipPending = false ∧ s.inFlight = 0 ∧ s.renderingStarted = false ∧
      s.stop_thread = false) ∨
   (∃ pre x, s.thread = ThreadPhase.running ∧ s.renderingStarted = true ∧
      s.stop_thread = false ∧ s.inFlight = 1 ∧ s.flipPending = true ∧
      rendered s.trace = pre ++ [x] ∧ (pre ++ [x]) <+: hs ∧
      sub = pre ++ [x] ++ s.pendingBuffers ∧ s.flippedFd = x ∧ activeSeq s.trace = pre ∧
      s.freeBuffers = pre.dropLast ∧ s.activeFd = pre.getLastD (-1)) ∨
   (∃ pre x, s.thread = ThreadPhase.running ∧ s.renderingStarted = true ∧
      s.stop_thread = false ∧ s.inFlight = 0 ∧ s.flipPending = false ∧
      s.pendingBuffers = [] ∧ rendered s.trace = pre ++ [x] ∧ (pre ++ [x]) <+: hs ∧
      sub = pre ++ [x] ∧ s.flippedFd = x ∧ activeSeq s.trace = pre ++ [x] ∧
      s.freeBuffers = pre ∧ s.activeFd = x) ∨
   (∃ pre x, s.thread = ThreadPhase.running ∧ s.stop_thread = true ∧ s.inFlight = 0 ∧
      s.pendingBuffers = [] ∧ rendered s.trace = pre ++ [x] ∧ (pre ++ [x]) <+: hs ∧
      sub = pre ++ [x] ++ [-1] ∧ activeSeq s.trace = pre ++ [x] ∧
      s.freeBuffers = pre ++ [x] ∧ s.trace.getLast? = some (Event.setCrtcZero 0)))

/-- A run of `renderThreadOrin` (driver `nvidia-drm`): one handle is submitted and
presented, then the loop `while (!stop_thread) page_flip_handler(..)` turns three
times. -/
def pollRun : List Action :=
  [Action.enque 1 (okEnv 7), Action.fetch (okEnv 7), Action.flipDone (okEnv 7),
   Action.flipDone (okEnv 7), Action.flipDone (okEnv 7)]

/-- The state reached by `pollRun`. -/
def pollState : NvDrmRenderer := (run (init true) pollRun).getD (init true)

/-- A run with page-flip events in which handle 1 is shown and the end-of-stream
handle is then processed by `enqueBuffer`. -/
def eosRun : List Action :=
  [Action.enque 1 (okEnv 7), Action.fetch (okEnv 7), Action.flipDone (okEnv 7),
   Action.enque (-1) (okEnv 7)]

/-- The state reached by `eosRun`. -/
def eosState : NvDrmRenderer := (run (init false) eosRun).getD (init false)

/-! ## getPlaneIndex -/

/-- Conversion of a `uint32_t` value to `int32_t`. -/
def toI32 (n : Nat) : Int :=
  if n % 4294967296 < 2147483648 then ((n % 4294967296 : Nat) : Int)
  else ((n % 4294967296 : Nat) : Int) - 4294967296

/-- The test `plane->possible_crtcs & (1 << crtc_index)` on a plane that was found.
A shift count of 32 or more is undefined in C++; the shift instruction takes the
count modulo 32. -/
def crtcBitSet (plane : DrmPlane) (crtc_index : Nat) : Bool :=
  plane.possible_crtcs &&& (1 <<< (crtc_index % 32)) ≠ 0

/-- The loop of `getPlaneIndex` over the planes still to visit: `i` is the loop
variable, `count` the number of entries written so far.  Each turn stores -1 at
`i`, then, for a plane that is found and can serve the crtc, stores `i`
(converted to `int32_t`) at `count`. -/
def planeLoop (crtc_index : Nat) :
    List (Option DrmPlane) → Nat → Nat → List Int → Nat × List Int
  | [], _, count, plane_index => (count, plane_index)
  | p :: ps, i, count, plane_index =>
    let idx1 := plane_index.set i (-1)
    match p with
    | none => planeLoop crtc_index ps (i + 1) count idx1
    | some plane =>
      if crtcBitSet plane crtc_index then
        planeLoop crtc_index ps (i + 1) (count + 1) (idx1.set count (toI32 i))
      else planeLoop crtc_index ps (i + 1) count idx1

/-- The function `NvDrmRenderer::getPlaneIndex`: the returned `int32_t` and the new
content of the array `plane_index` (`none` is the null pointer). -/
def getPlaneIndex (env : HwEnv) (crtc_index : Nat) (plane_index : Option (List Int)) :
    Int × Option (List Int) :=
  match plane_index with
  | none => (0, none)
  | some idx =>
    match env.planeRes with
    | none => (toI32 0, some idx)
    | some planes =>
      match planeLoop crtc_index planes 0 0 idx with
      | (count, idx1) => (toI32 count, some idx1)

/-- The colour formats that the specification lists as translatable. -/
def supportedColorFormats : List NvBufSurfaceColorFormat :=
  [.NVBUF_COLOR_FORMAT_YUV420, .NVBUF_COLOR_FORMAT_YVU420, .NVBUF_COLOR_FORMAT_NV12,
   .NVBUF_COLOR_FORMAT_NV21, .NVBUF_COLOR_FORMAT_UYVY, .NVBUF_COLOR_FORMAT_NV12_10LE_2020,
   .NVBUF_COLOR_FORMAT_NV12_10LE_709, .NVBUF_COLOR_FORMAT_NV12_10LE]

/-- The DRM format that matches a colour format, by name. -/
def drmFormatOf : NvBufSurfaceColorFormat → Option DrmFormat
  | .NVBUF_COLOR_FORMAT_YUV420 => some .DRM_FORMAT_YUV420
  | .NVBUF_COLOR_FORMAT_YVU420 => some .DRM_FORMAT_YVU420
  | .NVBUF_COLOR_FORMAT_NV12 => some .DRM_FORMAT_NV12
  | .NVBUF_COLOR_FORMAT_NV21 => some .DRM_FORMAT_NV21
  | .NVBUF_COLOR_FORMAT_UYVY => some .DRM_FORMAT_UYVY
  | .NVBUF_COLOR_FORMAT_NV12_10LE_2020 => some .DRM_FORMAT_TEGRA_P010_2020
  | .NVBUF_COLOR_FORMAT_NV12_10LE_709 => some .DRM_FORMAT_TEGRA_P010_709
  | .NVBUF_COLOR_FORMAT_NV12_10LE => some .DRM_FORMAT_P010
  | _ => none

/-- As the specification words it: plane `i` of the list is one whose lookup
succeeds and whose `possible_crtcs` has bit `crtc_index` set. -/
def planeServes (planes : List (Option DrmPlane)) (crtc_index i : Nat) : Bool :=
  match planes.getD i none with
  | some plane => plane.possible_crtcs.testBit crtc_index
  | none => false

/-- As `okEnv`, with `planes` as the result of the plane queries. -/
def okEnvPlanes (planes : List (Option DrmPlane)) : HwEnv :=
  { okEnv 7 with planeRes := some planes }

/-- The indices stored by `planeLoop`, in the order in which it stores them. -/
def matchFrom (crtc_index : Nat) : List (Option DrmPlane) → Nat → List Nat
  | [], _ => []
  | none :: ps, i => matchFrom crtc_index ps (i + 1)
  | some plane :: ps, i =>
    if crtcBitSet plane crtc_index then i :: matchFrom crtc_index ps (i + 1)
    else matchFrom crtc_index ps (i + 1)

/-- A plane list of `2^31 + 1` entries: only the last lookup succeeds, and that
plane can serve crtc 0. -/
def manyPlanes : List (Option DrmPlane) :=
  List.replicate 2147483648 none ++ [some ⟨5, 1⟩]

/-- Three planes: the first and the third can serve crtc 1, the lookup of the second
fails. -/
def threePlanes : List (Option DrmPlane) := [some ⟨40, 3⟩, none, some ⟨42, 2⟩]

/-! ## Projections of the log used for the error paths and the driver calls -/

/-- The calls `drmUtilCloseGemBo` at the end of `renderInternal`. -/
def closeEvents (num_planes : Nat) (bo_handles : List Nat) : List Event :=
  (List.range num_planes).map (fun i => Event.closeGemBo (arr bo_handles i))

/-- What the pacing block appends to the log: the wait, when the clock is armed. -/
def paceEvents (s : NvDrmRenderer) : List Event :=
  if s.last_render_time.tv_sec ≠ 0 then
    [Event.timedWait (advanceDeadline s.last_render_time s.render_time_sec s.render_time_nsec)]
  else []

/-- What `flipStage` appends to the log after the assignment to `flippedFd`. -/
def flipEvents (env : HwEnv) (fb num_planes : Nat) (bo_handles : List Nat)
    (s : NvDrmRenderer) : List Event :=
  if s.is_nvidia_drm = false ∧ env.flipRet ≠ 0 then [Event.pageFlip fb env.flipRet]
  else
    (if s.is_nvidia_drm then [] else [Event.pageFlip fb env.flipRet])
      ++ closeEvents num_planes bo_handles
      ++ (if s.last_fb ≠ 0 then [Event.rmFB s.last_fb] else [])

/-- Entries of the log that are calls into the display driver or pacing waits; the
other entries record the call of `renderInternal` and the two assignments. -/
def Event.isOperation : Event → Bool
  | .renderCall _ => false
  | .flipped _ => false
  | .active _ => false
  | _ => true

/-- The driver calls and pacing waits of a log. -/
def operations (tr : List Event) : List Event := tr.filter Event.isOperation

/-- The calls `drmModeRmFB` of a log. -/
def removals (tr : List Event) : List Event :=
  tr.filter (fun e => match e with | .rmFB _ => true | _ => false)

/-- The calls that create a framebuffer object. -/
def creations (tr : List Event) : List Event :=
  tr.filter (fun e => match e with
    | .addFB2 _ _ => true
    | .addFB2WithModifiers _ _ => true
    | _ => false)

/-- Presenting `fd` fails in the translation to a plane layout: the handle is not in
`map_list` and either `NvBufSurfaceFromFd` yields no surface or
`NvBufGetDrmParams` fails on it. -/
def translationFails (env : HwEnv) (s : NvDrmRenderer) (fd : Int) : Prop :=
  s.map_list.lookup fd = none ∧
  (env.NvBufSurfaceFromFd fd = none ∨
   ∃ surf, env.NvBufSurfaceFromFd fd = some surf ∧
     (NvBufGetDrmParams (some surf) (some ⟨0, [], [], none⟩)).1 < 0)

/-- As the specification words it: on the log, no framebuffer is removed while a
flip that was requested with success awaits its confirmation (`awaited`). -/
def removalsAfterConfirm : List Event → Bool → Bool
  | [], _ => true
  | Event.pageFlip _ ret :: tr, awaited =>
    removalsAfterConfirm tr (if ret = 0 then true else awaited)
  | Event.active _ :: tr, _ => removalsAfterConfirm tr false
  | Event.rmFB _ :: tr, awaited => !awaited && removalsAfterConfirm tr awaited
  | _ :: tr, awaited => removalsAfterConfirm tr awaited

/-- As `okEnv`, but no surface is found for the handle -1 nor for the handle 13. -/
def strictEnv (fb : Nat) : HwEnv :=
  { okEnv fb with
    NvBufSurfaceFromFd := fun fd =>
      if fd = -1 ∨ fd = 13 then none
      else some ⟨2, [1920, 1920], [0, 2073600], .NVBUF_COLOR_FORMAT_NV12⟩ }

/-- As `okEnv`, but the page-flip request is rejected with code -16. -/
def rejectEnv (fb : Nat) : HwEnv :=
  { okEnv fb with flipRet := -16 }

/-- The state after handle 1 has been shown and its flip confirmed: rendering has
started and no flip is pending. -/
def idleState : NvDrmRenderer :=
  (run (init false) [Action.enque 1 (okEnv 7), Action.fetch (okEnv 7),
    Action.flipDone (okEnv 7)]).getD (init false)

/-- The state after handle 1 has been presented and its flip is still awaited, with
handle 13 pending. -/
def awaitingState : NvDrmRenderer :=
  (run (init false) [Action.enque 1 (okEnv 7), Action.fetch (okEnv 7),
    Action.enque 13 (okEnv 8)]).getD (init false)

/-- The state after handle 1 has been presented and its flip is still awaited, with
the end-of-stream handle -1 pending. -/
def eosWaitState : NvDrmRenderer :=
  (run (init false) [Action.enque 1 (okEnv 7), Action.fetch (okEnv 7),
    Action.enque (-1) (okEnv 8)]).getD (init false)

/-- End of stream as the very first submission, with no surface behind the
handle -1: the thread then makes its first fetch. -/
def sentinelFirstRun : List Action :=
  [Action.enque (-1) (strictEnv 7), Action.fetch (strictEnv 7)]

/-- The state reached by `sentinelFirstRun`. -/
def sentinelFirstState : NvDrmRenderer :=
  (run (init false) sentinelFirstRun).getD (init false)

/-- As `sentinelFirstRun`, with `NvBufSurfaceFromFd` finding a surface for every
handle. -/
def sentinelShownRun : List Action :=
  [Action.enque (-1) (okEnv 7), Action.fetch (okEnv 7)]

/-- The state reached by `sentinelShownRun`. -/
def sentinelShownState : NvDrmRenderer :=
  (run (init false) sentinelShownRun).getD (init false)

/-- The first submitted handle, 13, has no surface behind it; the thread makes its
first fetch. -/
def brokenFirstRun : List Action :=
  [Action.enque 13 (strictEnv 7), Action.fetch (strictEnv 7)]

/-- The state reached by `brokenFirstRun`. -/
def brokenFirstState : NvDrmRenderer :=
  (run (init false) brokenFirstRun).getD (init false)

/-- Handle 1 is shown and confirmed; handle 13, with no surface behind it, is
submitted next and dropped by its presentation; handle 2 follows and is shown and
confirmed. -/
def skipRun : List Action :=
  [Action.enque 1 (okEnv 7), Action.fetch (okEnv 7), Action.flipDone (okEnv 7),
   Action.enque 13 (strictEnv 8), Action.enque 2 (okEnv 9), Action.flipDone (okEnv 9)]

/-- The state reached by `skipRun`. -/
def skipState : NvDrmRenderer := (run (init false) skipRun).getD (init false)

theorem floatToU64_exact (q : ℚ) (h0 : 0 ≤ q) (h : q < 18446744073709551616) :
    floatToU64 q = Int.toNat (Int.floor q) := by
  have hq : ¬ q < 0 := not_lt.mpr h0
  have hfl : Int.floor q < 18446744073709551616 := by
    rw [Int.floor_lt]
    exact_mod_cast h
  have hnn : 0 ≤ Int.floor q := Int.floor_nonneg.mpr h0
  unfold floatToU64
  rw [if_neg hq]
  omega

/-- C7. `setFPS` rejects exactly the zero rate. -/
theorem setFPS_zero_iff (rnd : ℚ → ℚ) (fps : ℚ) (s : NvDrmRenderer) :
    ((setFPS rnd fps s).1 = -1 ↔ fps = 0) ∧
    (fps = 0 → (setFPS rnd fps s).2 = s) ∧
    (fps ≠ 0 → (setFPS rnd fps s).1 = 0) := by
  by_cases h : fps = 0
  · simp [setFPS, h]
  · simp [setFPS, h]

/-! ### The float division of `setFPS` -/

theorem roundEven_near (y : ℚ) : |((roundEven y : Int) : ℚ) - y| ≤ 1 / 2 := by
  have h1 : ((Int.floor y : Int) : ℚ) ≤ y := Int.floor_le y
  have h2 : y < (Int.floor y : Int) + 1 := Int.lt_floor_add_one y
  unfold roundEven
  split
  · rw [abs_le]; constructor <;> linarith
  · split
    · push_cast
      rw [abs_le]; constructor <;> linarith
    · have h3 : y - (Int.floor y : Int) = 1 / 2 := by
        rename_i h4 h5
        linarith [not_lt.mp h4, not_lt.mp h5]
      split
      · rw [abs_le]; constructor <;> linarith
      · push_cast
        rw [abs_le]; constructor <;> linarith

theorem roundEven_eq (y : ℚ) (m : Int) (h : |y - m| < 1 / 2) : roundEven y = m := by
  have h1 := roundEven_near y
  rw [abs_le] at h1
  rw [abs_lt] at h
  have h3 : ((roundEven y : Int) : ℚ) < (m : ℚ) + 1 := by linarith
  have h4 : (m : ℚ) - 1 < ((roundEven y : Int) : ℚ) := by linarith
  have h5 : roundEven y < m + 1 := by exact_mod_cast h3
  have h6 : m - 1 < roundEven y := by exact_mod_cast h4
  omega

theorem roundEven_ge (y : ℚ) (n : Int) (h : (n : ℚ) ≤ y) : n ≤ roundEven y := by
  have h1 := roundEven_near y
  rw [abs_le] at h1
  have h4 : (n : ℚ) - 1 < ((roundEven y : Int) : ℚ) := by linarith
  have h6 : n - 1 < roundEven y := by exact_mod_cast h4
  omega

theorem log_two_bounds (x : ℚ) (hx : 0 < x) :
    (2 : ℚ) ^ (Int.log 2 x) ≤ x ∧ x < (2 : ℚ) ^ (Int.log 2 x + 1) := by
  have h1 := Int.zpow_log_le_self (b := 2) (r := x) (by norm_num) hx
  have h2 := Int.lt_zpow_succ_log_self (b := 2) (by norm_num) x
  simp only [Nat.cast_ofNat] at h1 h2
  exact ⟨h1, h2⟩

theorem log_two_eq (x : ℚ) (e : Int) (hx : 0 < x) (h1 : (2 : ℚ) ^ e ≤ x)
    (h2 : x < (2 : ℚ) ^ (e + 1)) : Int.log 2 x = e := by
  obtain ⟨b1, b2⟩ := log_two_bounds x hx
  have h3 : (2 : ℚ) ^ e < (2 : ℚ) ^ (Int.log 2 x + 1) := lt_of_le_of_lt h1 b2
  have h4 : (2 : ℚ) ^ (Int.log 2 x) < (2 : ℚ) ^ (e + 1) := lt_of_le_of_lt b1 h2
  have h5 := (zpow_lt_zpow_iff_right₀ (by norm_num : (1 : ℚ) < 2)).mp h3
  have h6 := (zpow_lt_zpow_iff_right₀ (by norm_num : (1 : ℚ) < 2)).mp h4
  omega


theorem roundF32_pos_eq (x : ℚ) (hx : 0 < x) (hn : (2 : ℚ) ^ (-126 : Int) ≤ x) :
    roundF32 x
      = min ((roundEven (x / 2 ^ (Int.log 2 x - 23)) : ℚ) * 2 ^ (Int.log 2 x - 23)) (2 ^ 128) := by
  have hne : x ≠ 0 := ne_of_gt hx
  have hlog : (-126 : Int) ≤ Int.log 2 x := by
    have := (Int.zpow_le_iff_le_log (b := 2) (by norm_num) hx (x := -126)).mp
      (by simpa using hn)
    exact this
  unfold roundF32
  rw [if_neg hne, abs_of_pos hx]
  simp only [max_eq_left hlog, if_neg (not_lt.mpr (le_of_lt hx))]

theorem roundF32_eval (x : ℚ) (e m : Int) (hx : 0 < x) (he : -126 ≤ e)
    (h1 : (2 : ℚ) ^ e ≤ x) (h2 : x < (2 : ℚ) ^ (e + 1))
    (hm : |x / 2 ^ (e - 23) - m| < 1 / 2) (hfin : (m : ℚ) * 2 ^ (e - 23) ≤ 2 ^ 128) :
    roundF32 x = m * 2 ^ (e - 23) := by
  have hlog := log_two_eq x e hx h1 h2
  have hn : (2 : ℚ) ^ (-126 : Int) ≤ x :=
    le_trans (zpow_le_zpow_right₀ (by norm_num) he) h1
  rw [roundF32_pos_eq x hx hn, hlog, roundEven_eq _ m hm]
  exact min_eq_left hfin

theorem roundF32_rel (x : ℚ) (hn : (2 : ℚ) ^ (-126 : Int) ≤ x)
    (hfin : roundF32 x < 2 ^ 128) :
    x * (1 - 1 / 2 ^ 24) ≤ roundF32 x ∧ roundF32 x ≤ x * (1 + 1 / 2 ^ 24) := by
  have hx : 0 < x := lt_of_lt_of_le (by positivity) hn
  obtain ⟨b1, -⟩ := log_two_bounds x hx
  have heq := roundF32_pos_eq x hx hn
  have hu : (0 : ℚ) < 2 ^ (Int.log 2 x - 23) := by positivity
  have hsplit : (2 : ℚ) ^ (Int.log 2 x - 23) = 2 ^ (Int.log 2 x) / 2 ^ 23 := by
    rw [zpow_sub₀ (by norm_num : (2 : ℚ) ≠ 0)]
    norm_num
  have hnear := roundEven_near (x / 2 ^ (Int.log 2 x - 23))
  rw [heq] at hfin ⊢
  have hmin : min ((roundEven (x / 2 ^ (Int.log 2 x - 23)) : ℚ) * 2 ^ (Int.log 2 x - 23))
      (2 ^ 128) = (roundEven (x / 2 ^ (Int.log 2 x - 23)) : ℚ) * 2 ^ (Int.log 2 x - 23) := by
    apply min_eq_left
    by_contra hc
    rw [min_eq_right (le_of_lt (not_le.mp hc))] at hfin
    exact lt_irrefl _ hfin
  rw [hmin]
  generalize (roundEven (x / 2 ^ (Int.log 2 x - 23)) : ℚ) = r at *
  generalize hU : (2 : ℚ) ^ (Int.log 2 x - 23) = u at *
  generalize (2 : ℚ) ^ (Int.log 2 x) = p at *
  rw [abs_le] at hnear
  have hxu : x / u * u = x := div_mul_cancel₀ x (ne_of_gt hu)
  have h1 : r * u - x ≤ u / 2 := by
    have : (r - x / u) * u ≤ 1 / 2 * u := mul_le_mul_of_nonneg_right hnear.2 (le_of_lt hu)
    nlinarith
  have h2 : - (u / 2) ≤ r * u - x := by
    have : (-(1 / 2)) * u ≤ (r - x / u) * u := mul_le_mul_of_nonneg_right hnear.1 (le_of_lt hu)
    nlinarith
  have h3 : u / 2 ≤ x * (1 / 2 ^ 24) := by
    rw [hsplit]
    have : p / 2 ^ 23 / 2 = p * (1 / 2 ^ 24) := by ring
    rw [this]
    exact mul_le_mul_of_nonneg_right b1 (by positivity)
  constructor <;> linarith

theorem roundF32_ge_one (x : ℚ) (h1 : 1 ≤ x) : 1 ≤ roundF32 x := by
  have hx : 0 < x := lt_of_lt_of_le one_pos h1
  have hn : (2 : ℚ) ^ (-126 : Int) ≤ x :=
    le_trans (zpow_le_one_of_nonpos₀ (by norm_num) (by norm_num)) h1
  obtain ⟨b1, -⟩ := log_two_bounds x hx
  have hlog : (0 : Int) ≤ Int.log 2 x := by
    have := (Int.zpow_le_iff_le_log (b := 2) (by norm_num) hx (x := 0)).mp (by simpa using h1)
    exact this
  have hu : (0 : ℚ) < 2 ^ (Int.log 2 x - 23) := by positivity
  have hsplit : (2 : ℚ) ^ (Int.log 2 x - 23) = 2 ^ (Int.log 2 x) / 2 ^ 23 := by
    rw [zpow_sub₀ (by norm_num : (2 : ℚ) ≠ 0)]
    norm_num
  have hp1 : (1 : ℚ) ≤ 2 ^ (Int.log 2 x) := one_le_zpow₀ (by norm_num) hlog
  rw [roundF32_pos_eq x hx hn]
  apply le_min _ (by norm_num)
  have hy : ((8388608 : Int) : ℚ) ≤ x / 2 ^ (Int.log 2 x - 23) := by
    rw [le_div_iff₀ hu, hsplit]
    push_cast
    have : (8388608 : ℚ) * (2 ^ (Int.log 2 x) / 2 ^ 23) = 2 ^ (Int.log 2 x) := by
      ring
    rw [this]
    exact b1
  have hr := roundEven_ge _ _ hy
  have hr2 : (8388608 : ℚ) ≤ (roundEven (x / 2 ^ (Int.log 2 x - 23)) : ℚ) := by
    exact_mod_cast hr
  rw [hsplit]
  have : (8388608 : ℚ) * (2 ^ (Int.log 2 x) / 2 ^ 23)
      ≤ (roundEven (x / 2 ^ (Int.log 2 x - 23)) : ℚ) * (2 ^ (Int.log 2 x) / 2 ^ 23) :=
    mul_le_mul_of_nonneg_right hr2 (by positivity)
  have h8 : (8388608 : ℚ) * (2 ^ (Int.log 2 x) / 2 ^ 23) = 2 ^ (Int.log 2 x) := by
    ring
  rw [hsplit] at this
  linarith

theorem roundF32_thirty : roundF32 (1000000 / 30) = 8533333 / 256 := by
  have h := roundF32_eval (1000000 / 30) 15 8533333 (by norm_num) (by norm_num) (by norm_num)
    (by norm_num) (by rw [abs_lt]; constructor <;> norm_num) (by norm_num)
  rw [h]
  norm_num

theorem isF32_thirty : isF32 30 := by
  refine ⟨by rw [abs_lt]; constructor <;> norm_num, ?_⟩
  have h := roundF32_eval 30 4 15728640 (by norm_num) (by norm_num) (by norm_num)
    (by norm_num) (by rw [abs_lt]; constructor <;> norm_num) (by norm_num)
  rw [h]
  norm_num

theorem floor_thirty : Int.floor (roundF32 (1000000 / 30)) = 33333 := by
  rw [roundF32_thirty, Int.floor_eq_iff]
  norm_num

theorem isF32_rate32 : isF32 rate32 := by
  unfold rate32
  refine ⟨by rw [abs_lt]; constructor <;> norm_num, ?_⟩
  have h := roundF32_eval (13421773 / 4194304) 1 13421773 (by norm_num) (by norm_num)
    (by norm_num) (by norm_num) (by rw [abs_lt]; constructor <;> norm_num) (by norm_num)
  rw [h]
  norm_num

theorem roundF32_rate32 : roundF32 (1000000 / rate32) = 312500 := by
  unfold rate32
  have h := roundF32_eval (1000000 / (13421773 / 4194304)) 18 10000000 (by norm_num)
    (by norm_num) (by norm_num) (by norm_num) (by rw [abs_lt]; constructor <;> norm_num)
    (by norm_num)
  rw [h]
  norm_num

theorem quotient_normal (fps : ℚ) (hF : isF32 fps) (hpos : 0 < fps) :
    (2 : ℚ) ^ (-126 : Int) ≤ 1000000 / fps := by
  have hlt : fps < 2 ^ 128 := by
    have := hF.1
    rw [abs_of_pos hpos] at this
    exact this
  rw [le_div_iff₀ hpos]
  have h1 : (2 : ℚ) ^ (-126 : Int) * fps ≤ (2 : ℚ) ^ (-126 : Int) * 2 ^ 128 :=
    mul_le_mul_of_nonneg_left (le_of_lt hlt) (by positivity)
  have h2 : (2 : ℚ) ^ (-126 : Int) * 2 ^ 128 = 4 := by
    rw [zpow_neg]
    norm_num
  linarith

theorem quotient_bounds (fps : ℚ) (hF : isF32 fps) (hpos : 0 < fps)
    (hfit : roundF32 (1000000 / fps) < 18446744073709551616) :
    0 ≤ roundF32 (1000000 / fps) ∧
    1000000 / fps * (1 - 1 / 2 ^ 24) - 1
      < ((Int.toNat (Int.floor (roundF32 (1000000 / fps))) : Nat) : ℚ) ∧
    ((Int.toNat (Int.floor (roundF32 (1000000 / fps))) : Nat) : ℚ)
      ≤ 1000000 / fps * (1 + 1 / 2 ^ 24) := by
  have hn := quotient_normal fps hF hpos
  have hfin : roundF32 (1000000 / fps) < 2 ^ 128 := lt_trans hfit (by norm_num)
  obtain ⟨r1, r2⟩ := roundF32_rel (1000000 / fps) hn hfin
  have hx : (0 : ℚ) < 1000000 / fps := by positivity
  have h0 : 0 ≤ roundF32 (1000000 / fps) := by
    have : (0 : ℚ) ≤ 1000000 / fps * (1 - 1 / 2 ^ 24) :=
      mul_nonneg (le_of_lt hx) (by norm_num)
    linarith
  have hnn : 0 ≤ Int.floor (roundF32 (1000000 / fps)) := Int.floor_nonneg.mpr h0
  have hcast : ((Int.toNat (Int.floor (roundF32 (1000000 / fps))) : Nat) : ℚ)
      = ((Int.floor (roundF32 (1000000 / fps)) : Int) : ℚ) := by
    have := Int.toNat_of_nonneg hnn
    exact_mod_cast this
  have hle : ((Int.floor (roundF32 (1000000 / fps)) : Int) : ℚ) ≤ roundF32 (1000000 / fps) :=
    Int.floor_le _
  have hgt : roundF32 (1000000 / fps) < (Int.floor (roundF32 (1000000 / fps)) : Int) + 1 :=
    Int.lt_floor_add_one _
  rw [hcast]
  refine ⟨h0, by linarith, by linarith⟩

theorem setFPS_fields (rnd : ℚ → ℚ) (fps : ℚ) (s : NvDrmRenderer) (hne : fps ≠ 0)
    (h0 : 0 ≤ rnd (1000000 / fps)) (hfit : rnd (1000000 / fps) < 18446744073709551616) :
    (setFPS rnd fps s).2.render_time_sec
      = (Int.toNat (Int.floor (rnd (1000000 / fps)))) / 1000000 ∧
    (setFPS rnd fps s).2.render_time_nsec
      = ((Int.toNat (Int.floor (rnd (1000000 / fps)))) % 1000000) * 1000 := by
  have hu := floatToU64_exact (rnd (1000000 / fps)) h0 hfit
  simp only [setFPS, if_neg hne, hu]
  constructor
  · trivial
  · omega

/-- C8 (as amended). Frame duration computed by `setFPS`, for every `float` rate
`fps > 0` whose rounded quotient fits the 64-bit variable: with `q` the `float`
quotient `1000000 / fps` (rounded to nearest, ties to even) and `u = floor(q)`
microseconds, the seconds are `u div 1000000` and the nanoseconds
`(u mod 1000000) * 1000`; the nanoseconds are below `10^9`, the pair recomposes
to `u`, the duration is positive for `fps <= 1000000`, and `u` lies between
`(1000000 / fps) (1 - 2^-24) - 1` and `(1000000 / fps) (1 + 2^-24)`. -/
theorem setFPS_frame_duration (fps : ℚ) (s : NvDrmRenderer) (hF : isF32 fps) (hpos : 0 < fps)
    (hfit : roundF32 (1000000 / fps) < 18446744073709551616) :
    (setFPS roundF32 fps s).2.render_time_sec
        = Int.toNat (Int.floor (roundF32 (1000000 / fps))) / 1000000 ∧
    (setFPS roundF32 fps s).2.render_time_nsec
        = Int.toNat (Int.floor (roundF32 (1000000 / fps))) % 1000000 * 1000 ∧
    (setFPS roundF32 fps s).2.render_time_nsec < 1000000000 ∧
    (setFPS roundF32 fps s).2.render_time_sec * 1000000
        + (setFPS roundF32 fps s).2.render_time_nsec / 1000
        = Int.toNat (Int.floor (roundF32 (1000000 / fps))) ∧
    (fps ≤ 1000000 →
        0 < (setFPS roundF32 fps s).2.render_time_sec * 1000000000
              + (setFPS roundF32 fps s).2.render_time_nsec) ∧
    1000000 / fps * (1 - 1 / 2 ^ 24) - 1
      < ((Int.toNat (Int.floor (roundF32 (1000000 / fps))) : Nat) : ℚ) ∧
    ((Int.toNat (Int.floor (roundF32 (1000000 / fps))) : Nat) : ℚ)
      ≤ 1000000 / fps * (1 + 1 / 2 ^ 24) := by
  obtain ⟨h0, b1, b2⟩ := quotient_bounds fps hF hpos hfit
  obtain ⟨h1, h2⟩ := setFPS_fields roundF32 fps s (ne_of_gt hpos) h0 hfit
  rw [h1, h2]
  refine ⟨rfl, rfl, by omega, by omega, ?_, b1, b2⟩
  intro hle
  have hge : (1 : ℚ) ≤ 1000000 / fps := by
    rw [le_div_iff₀ hpos]
    linarith
  have hq := roundF32_ge_one _ hge
  have hfl : (1 : Int) ≤ Int.floor (roundF32 (1000000 / fps)) := by
    rw [Int.le_floor]
    exact_mod_cast hq
  omega

/-- Witness of C8: the rate 30 gives 0 s and 33333000 ns. -/
theorem setFPS_frame_duration_witness :
    ((setFPS roundF32 30 (init false)).2.render_time_sec
        = Int.toNat (Int.floor (roundF32 (1000000 / 30))) / 1000000 ∧
    (setFPS roundF32 30 (init false)).2.render_time_nsec
        = Int.toNat (Int.floor (roundF32 (1000000 / 30))) % 1000000 * 1000 ∧
    (setFPS roundF32 30 (init false)).2.render_time_nsec < 1000000000 ∧
    (setFPS roundF32 30 (init false)).2.render_time_sec * 1000000
        + (setFPS roundF32 30 (init false)).2.render_time_nsec / 1000
        = Int.toNat (Int.floor (roundF32 (1000000 / 30))) ∧
    ((30 : ℚ) ≤ 1000000 →
        0 < (setFPS roundF32 30 (init false)).2.render_time_sec * 1000000000
              + (setFPS roundF32 30 (init false)).2.render_time_nsec) ∧
    1000000 / 30 * (1 - 1 / 2 ^ 24) - 1
      < ((Int.toNat (Int.floor (roundF32 (1000000 / 30))) : Nat) : ℚ) ∧
    ((Int.toNat (Int.floor (roundF32 (1000000 / 30))) : Nat) : ℚ)
      ≤ 1000000 / 30 * (1 + 1 / 2 ^ 24)) ∧
    Int.toNat (Int.floor (roundF32 (1000000 / 30))) = 33333 :=
  ⟨setFPS_frame_duration 30 (init false) isF32_thirty (by norm_num)
      (by rw [roundF32_thirty]; norm_num),
    by rw [floor_thirty]; rfl⟩

/-- C8, counterexample.  At the `float` rate `3.2f` the exact quotient is
312499.995 microseconds, so the formula of the claim gives 312499000 ns; the
`float` division rounds the quotient to 312500 and `setFPS` stores
312500000 ns. -/
theorem setFPS_binary32_counterexample :
    isF32 rate32 ∧ 0 < rate32 ∧
    (setFPS roundF32 rate32 (init false)).2.render_time_sec = 0 ∧
    (setFPS roundF32 rate32 (init false)).2.render_time_nsec = 312500000 ∧
    frameDurationSpec rate32 = (0, 312499000) := by
  have hne : rate32 ≠ 0 := by unfold rate32; norm_num
  have hfl : Int.floor (312500 : ℚ) = 312500 := by
    rw [Int.floor_eq_iff]; norm_num
  have hf : Int.floor ((1000000 : ℚ) / rate32) = 312499 := by
    unfold rate32
    rw [Int.floor_eq_iff]
    norm_num
  obtain ⟨h1, h2⟩ := setFPS_fields roundF32 rate32 (init false) hne
    (by rw [roundF32_rate32]; norm_num) (by rw [roundF32_rate32]; norm_num)
  refine ⟨isF32_rate32, by unfold rate32; norm_num, ?_, ?_, ?_⟩
  · rw [h1, roundF32_rate32, hfl]
    rfl
  · rw [h2, roundF32_rate32, hfl]
    rfl
  · unfold frameDurationSpec
    rw [hf]
    rfl

/-! ### Structure of `renderInternal` -/

theorem importPlanes_events (env : HwEnv) (nv : Bool) (fd : Int) :
    ∀ (k i : Nat) (bo : List Nat) (evs : List Event),
      ∀ e ∈ (importPlanes env nv fd k i bo evs).2.2, e ∈ evs ∨ e.isSetupCall = true := by
  intro k
  induction k with
  | zero =>
    intro i bo evs e he
    exact Or.inl he
  | succ k ih =>
    intro i bo evs e he
    unfold importPlanes at he
    by_cases h1 : env.primeRet i ≠ 0
    · simp only [if_pos h1] at he
      rcases List.mem_append.mp he with h | h
      · exact Or.inl h
      · simp at h
        subst h
        exact Or.inr rfl
    · simp only [if_neg h1] at he
      cases nv with
      | true =>
        simp only [if_true] at he
        rcases ih _ _ _ e he with h | h
        · rcases List.mem_append.mp h with h | h
          · exact Or.inl h
          · simp at h
            subst h
            exact Or.inr rfl
        · exact Or.inr h
      | false =>
        simp only [Bool.false_eq_true, if_false] at he
        by_cases h2 : env.tilingRet i < 0
        · simp only [if_pos h2] at he
          simp only [List.mem_append, List.mem_singleton] at he
          rcases he with (h | h) | h
          · exact Or.inl h
          · subst h; exact Or.inr rfl
          · subst h; exact Or.inr rfl
        · simp only [if_neg h2] at he
          rcases ih _ _ _ e he with h | h
          · simp only [List.mem_append, List.mem_singleton] at h
            rcases h with (h | h) | h
            · exact Or.inl h
            · subst h; exact Or.inr rfl
            · subst h; exact Or.inr rfl
          · exact Or.inr h

theorem setPlane_events (env : HwEnv) (i fb : Nat) :
    ∀ e ∈ (setPlane env i fb).2, e.isSetupCall = true := by
  intro e he
  unfold setPlane at he
  split at he
  · simp at he
  · split at he
    · split at he
      · simp at he
        subst he
        rfl
      · simp at he
    · simp at he

theorem acquireFB_events (env : HwEnv) (s : NvDrmRenderer) (fd : Int) :
    ∀ e ∈ (acquireFB env s fd).2, e.isSetupCall = true := by
  intro e he
  have himp := importPlanes_events env s.is_nvidia_drm fd
  have hsp := setPlane_events env 0 env.addFbId
  unfold acquireFB at he
  split at he
  · simp at he
  · split at he
    · simp at he
    · split at he
      · simp at he
      · split at he
        · simp at he
        · split at he
          · rename_i hi
            have := himp _ _ _ _ e (by rw [hi]; exact he)
            simpa using this
          · rename_i bo evs hi
            have hev : ∀ x ∈ evs, x.isSetupCall = true := by
              intro x hx
              have := himp _ _ _ _ x (by rw [hi]; exact hx)
              simpa using this
            have hadd : (if s.is_nvidia_drm = true
                then Event.addFB2WithModifiers env.addFbId env.addFbRet
                else Event.addFB2 env.addFbId env.addFbRet).isSetupCall = true := by
              split <;> rfl
            by_cases h1 : env.addFbRet ≠ 0
            · simp only [if_pos h1, List.mem_append, List.mem_singleton] at he
              rcases he with h | h
              · exact hev e h
              · subst h; exact hadd
            · simp only [if_neg h1] at he
              by_cases h2 : (setPlane env 0 env.addFbId).1 ≠ 0
              · simp only [if_pos h2, List.mem_append, List.mem_singleton] at he
                rcases he with (h | h) | h
                · exact hev e h
                · subst h; exact hadd
                · exact hsp e h
              · simp only [if_neg h2, List.mem_append, List.mem_singleton] at he
                rcases he with (h | h) | h
                · exact hev e h
                · subst h; exact hadd
                · exact hsp e h

theorem acquireFB_congr (env : HwEnv) (s t : NvDrmRenderer) (fd : Int)
    (h1 : t.map_list = s.map_list) (h2 : t.is_nvidia_drm = s.is_nvidia_drm) :
    acquireFB env t fd = acquireFB env s fd := by
  unfold acquireFB
  rw [h1, h2]

theorem rendered_setup (evs : List Event) (h : ∀ e ∈ evs, e.isSetupCall = true) :
    rendered evs = [] := by
  unfold rendered
  rw [List.filterMap_eq_nil_iff]
  intro e he
  have := h e he
  cases e <;> simp_all [Event.isSetupCall]

theorem flippedSeq_setup (evs : List Event) (h : ∀ e ∈ evs, e.isSetupCall = true) :
    flippedSeq evs = [] := by
  unfold flippedSeq
  rw [List.filterMap_eq_nil_iff]
  intro e he
  have := h e he
  cases e <;> simp_all [Event.isSetupCall]

theorem activeSeq_setup (evs : List Event) (h : ∀ e ∈ evs, e.isSetupCall = true) :
    activeSeq evs = [] := by
  unfold activeSeq
  rw [List.filterMap_eq_nil_iff]
  intro e he
  have := h e he
  cases e <;> simp_all [Event.isSetupCall]

theorem log_fields (s : NvDrmRenderer) (evs : List Event) :
    sameQueues s (s.log evs) ∧ (s.log evs).flippedFd = s.flippedFd ∧
    (s.log evs).flipPending = s.flipPending ∧ (s.log evs).inFlight = s.inFlight ∧
    (s.log evs).last_fb = s.last_fb ∧ (s.log evs).last_render_time = s.last_render_time ∧
    (s.log evs).trace = s.trace ++ evs := by
  simp [NvDrmRenderer.log, sameQueues]

theorem pace_fields (env : HwEnv) (s : NvDrmRenderer) :
    sameQueues s (pace env s) ∧ (pace env s).flippedFd = s.flippedFd ∧
    (pace env s).flipPending = s.flipPending ∧ (pace env s).inFlight = s.inFlight ∧
    (pace env s).last_fb = s.last_fb ∧
    rendered (pace env s).trace = rendered s.trace ∧
    flippedSeq (pace env s).trace = flippedSeq s.trace ∧
    activeSeq (pace env s).trace = activeSeq s.trace ∧
    pageFlips (pace env s).trace = pageFlips s.trace := by
  unfold pace
  by_cases h : s.last_render_time.tv_sec ≠ 0
  · simp [if_pos h, sameQueues, rendered, flippedSeq, activeSeq, pageFlips]
  · simp [if_neg h, sameQueues]

theorem pace_clock_congr (env : HwEnv) (s t : NvDrmRenderer)
    (h1 : t.last_render_time = s.last_render_time) (h2 : t.render_time_sec = s.render_time_sec)
    (h3 : t.render_time_nsec = s.render_time_nsec) :
    (pace env t).last_render_time = (pace env s).last_render_time := by
  unfold pace
  rw [h1, h2, h3]
  by_cases h : s.last_render_time.tv_sec ≠ 0
  · simp [if_pos h]
  · simp [if_neg h]

theorem sameQueues_trans {a b c : NvDrmRenderer} (h1 : sameQueues a b) (h2 : sameQueues b c) :
    sameQueues a c := by
  unfold sameQueues at *
  obtain ⟨a1, a2, a3, a4, a5, a6, a7, a8, a9, a10, a11, a12⟩ := h1
  obtain ⟨b1, b2, b3, b4, b5, b6, b7, b8, b9, b10, b11, b12⟩ := h2
  exact ⟨b1.trans a1, b2.trans a2, b3.trans a3, b4.trans a4, b5.trans a5, b6.trans a6,
    b7.trans a7, b8.trans a8, b9.trans a9, b10.trans a10, b11.trans a11, b12.trans a12⟩

theorem flipStage_outcome (env : HwEnv) (fd : Int) (fb n : Nat) (bo : List Nat)
    (s : NvDrmRenderer) :
    sameQueues s (flipStage env fd fb n bo s).2 ∧
    (flipStage env fd fb n bo s).2.flippedFd = fd ∧
    (flipStage env fd fb n bo s).2.last_render_time = s.last_render_time ∧
    rendered (flipStage env fd fb n bo s).2.trace = rendered s.trace ∧
    activeSeq (flipStage env fd fb n bo s).2.trace = activeSeq s.trace ∧
    flippedSeq (flipStage env fd fb n bo s).2.trace = flippedSeq s.trace ++ [fd] ∧
    (((flipStage env fd fb n bo s).1 = -1 ∧ s.is_nvidia_drm = false ∧ env.flipRet ≠ 0 ∧
        (flipStage env fd fb n bo s).2.flipPending = false ∧
        (flipStage env fd fb n bo s).2.inFlight = s.inFlight ∧
        (flipStage env fd fb n bo s).2.last_fb = s.last_fb) ∨
     ((flipStage env fd fb n bo s).1 = 0 ∧
        (flipStage env fd fb n bo s).2.flipPending = true ∧
        (flipStage env fd fb n bo s).2.inFlight = s.inFlight + (if s.is_nvidia_drm then 0 else 1) ∧
        (flipStage env fd fb n bo s).2.last_fb = fb ∧
        (s.is_nvidia_drm = false → env.flipRet = 0))) := by
  unfold flipStage
  by_cases hnvd : s.is_nvidia_drm = true
  · simp [hnvd, sameQueues, rendered, activeSeq, flippedSeq, List.filterMap_append]
  · have hnvf : s.is_nvidia_drm = false := by simpa using hnvd
    by_cases hflip : env.flipRet ≠ 0
    · simp [hnvf, hflip, sameQueues, rendered, activeSeq, flippedSeq, List.filterMap_append]
    · have hflip0 : env.flipRet = 0 := by simpa using hflip
      simp [hnvf, hflip0, sameQueues, rendered, activeSeq, flippedSeq, List.filterMap_append]
  
theorem renderInternal_frame (env : HwEnv) (fd : Int) (s : NvDrmRenderer) :
    sameQueues s (renderInternal env fd s).2 := by
  unfold renderInternal
  rcases acquireFB env s fd with ⟨_ | ⟨fb, n, bo⟩, evs⟩
  · exact (log_fields s _).1
  · exact sameQueues_trans (sameQueues_trans (log_fields s _).1 (pace_fields env _).1)
      (flipStage_outcome env fd fb n bo _).1

theorem renderInternal_outcome (env : HwEnv) (fd : Int) (s : NvDrmRenderer) :
    rendered (renderInternal env fd s).2.trace = rendered s.trace ++ [fd] ∧
    activeSeq (renderInternal env fd s).2.trace = activeSeq s.trace ∧
    (((renderInternal env fd s).1 = -1 ∧ (acquireFB env s fd).1 = none ∧
        (renderInternal env fd s).2.flippedFd = s.flippedFd ∧
        (renderInternal env fd s).2.flipPending = s.flipPending ∧
        (renderInternal env fd s).2.inFlight = s.inFlight ∧
        flippedSeq (renderInternal env fd s).2.trace = flippedSeq s.trace ∧
        (renderInternal env fd s).2.last_fb = s.last_fb ∧
        (renderInternal env fd s).2.last_render_time = s.last_render_time) ∨
     ((acquireFB env s fd).1 ≠ none ∧
        (renderInternal env fd s).2.flippedFd = fd ∧
        flippedSeq (renderInternal env fd s).2.trace = flippedSeq s.trace ++ [fd] ∧
        (renderInternal env fd s).2.last_render_time = (pace env s).last_render_time ∧
        (((renderInternal env fd s).1 = -1 ∧ s.is_nvidia_drm = false ∧ env.flipRet ≠ 0 ∧
            (renderInternal env fd s).2.flipPending = false ∧
            (renderInternal env fd s).2.inFlight = s.inFlight ∧
            (renderInternal env fd s).2.last_fb = s.last_fb) ∨
         ((renderInternal env fd s).1 = 0 ∧
            (renderInternal env fd s).2.flipPending = true ∧
            (renderInternal env fd s).2.inFlight = s.inFlight + (if s.is_nvidia_drm then 0 else 1) ∧
            (s.is_nvidia_drm = false → env.flipRet = 0))))) := by
  have hev := acquireFB_events env s fd
  unfold renderInternal
  rcases hacq : acquireFB env s fd with ⟨_ | ⟨fb, n, bo⟩, evs⟩
  · rw [hacq] at hev
    have h1 := rendered_setup evs hev
    have h2 := activeSeq_setup evs hev
    have h3 := flippedSeq_setup evs hev
    simp only [rendered, activeSeq, flippedSeq] at h1 h2 h3
    refine ⟨?_, ?_, Or.inl ?_⟩
    · simp [NvDrmRenderer.log, rendered, List.filterMap_append, h1, List.filterMap_cons]
    · simp [NvDrmRenderer.log, activeSeq, List.filterMap_append, h2, List.filterMap_cons]
    · simp [NvDrmRenderer.log, flippedSeq, List.filterMap_append, h3, List.filterMap_cons]
  · rw [hacq] at hev
    have h1 := rendered_setup evs hev
    have h2 := activeSeq_setup evs hev
    have h3 := flippedSeq_setup evs hev
    obtain ⟨lq, l1, l2, l3, l4, l5, l6⟩ := log_fields s (Event.renderCall fd :: evs)
    obtain ⟨pq, p1, p2, p3, p4, pr, pf, pa, -⟩ := pace_fields env (s.log (Event.renderCall fd :: evs))
    have hclk := pace_clock_congr env s (s.log (Event.renderCall fd :: evs)) l5 lq.2.2.2.2.2.2.2.2.2.2.1
      lq.2.2.2.2.2.2.2.2.2.2.2
    obtain ⟨fq, f1, f2, fr, fa, ff, fo⟩ := flipStage_outcome env fd fb n bo
      (pace env (s.log (Event.renderCall fd :: evs)))
    have hnv : (pace env (s.log (Event.renderCall fd :: evs))).is_nvidia_drm = s.is_nvidia_drm :=
      (pq.2.2.2.2.2.2.1).trans (lq.2.2.2.2.2.2.1)
    have hr : rendered (s.log (Event.renderCall fd :: evs)).trace = rendered s.trace ++ [fd] := by
      rw [l6]
      simp only [rendered] at h1 ⊢
      simp [List.filterMap_append, List.filterMap_cons, h1]
    have ha : activeSeq (s.log (Event.renderCall fd :: evs)).trace = activeSeq s.trace := by
      rw [l6]
      simp only [activeSeq] at h2 ⊢
      simp [List.filterMap_append, List.filterMap_cons, h2]
    have hf : flippedSeq (s.log (Event.renderCall fd :: evs)).trace = flippedSeq s.trace := by
      rw [l6]
      simp only [flippedSeq] at h3 ⊢
      simp [List.filterMap_append, List.filterMap_cons, h3]
    refine ⟨by rw [fr, pr, hr], by rw [fa, pa, ha], Or.inr ⟨by simp, f1, by rw [ff, pf, hf],
      by rw [f2, hclk], ?_⟩⟩
    rcases fo with ⟨o1, o2, o3, o4, o5, o6⟩ | ⟨o1, o2, o3, o4, o5⟩
    · exact Or.inl ⟨o1, by rw [← hnv]; exact o2, o3, o4, by rw [o5, p3, l3], by rw [o6, p4, l4]⟩
    · exact Or.inr ⟨o1, o2, by rw [o3, p3, l3, hnv], by rw [← hnv]; exact o5⟩

/-! ### The three steps, case by case -/

theorem retireActive_fields (s : NvDrmRenderer) :
    (retireActive s).pendingBuffers = s.pendingBuffers ∧
    (retireActive s).freeBuffers
      = (if s.activeFd ≠ -1 then s.freeBuffers ++ [s.activeFd] else s.freeBuffers) ∧
    (retireActive s).activeFd = s.flippedFd ∧
    (retireActive s).flippedFd = s.flippedFd ∧
    (retireActive s).flipPending = s.flipPending ∧
    (retireActive s).renderingStarted = s.renderingStarted ∧
    (retireActive s).stop_thread = s.stop_thread ∧
    (retireActive s).is_in_error = s.is_in_error ∧
    (retireActive s).is_nvidia_drm = s.is_nvidia_drm ∧
    (retireActive s).map_list = s.map_list ∧
    (retireActive s).inFlight = s.inFlight ∧
    (retireActive s).thread = s.thread ∧
    (retireActive s).trace = s.trace ++ [Event.active s.flippedFd] := by
  unfold retireActive
  by_cases h : s.activeFd ≠ -1
  · simp [if_pos h]
  · simp [if_neg h]

theorem handler_empty (env : HwEnv) (s : NvDrmRenderer) (h : s.pendingBuffers = []) :
    page_flip_handler env s = { retireActive s with flipPending := false } := by
  have hp := (retireActive_fields s).1
  unfold page_flip_handler
  simp only []
  rw [hp, h]

theorem handler_eos (env : HwEnv) (s : NvDrmRenderer) (rest : List Int)
    (h : s.pendingBuffers = -1 :: rest) :
    page_flip_handler env s =
      if env.setCrtcRet ≠ 0 then
        ({ retireActive s with pendingBuffers := rest }).log [Event.setCrtcZero env.setCrtcRet]
      else
        { ({ retireActive s with pendingBuffers := rest }).log [Event.setCrtcZero env.setCrtcRet]
          with stop_thread := true
               freeBuffers := (retireActive s).freeBuffers ++ [(retireActive s).activeFd]
               flipPending := false } := by
  have hp := (retireActive_fields s).1
  unfold page_flip_handler
  simp only []
  rw [hp, h]
  simp [NvDrmRenderer.log]

theorem handler_render (env : HwEnv) (s : NvDrmRenderer) (fd : Int) (rest : List Int)
    (h : s.pendingBuffers = fd :: rest) (hfd : fd ≠ -1) :
    page_flip_handler env s
      = (renderInternal env fd { retireActive s with pendingBuffers := rest }).2 := by
  have hp := (retireActive_fields s).1
  unfold page_flip_handler
  simp only []
  rw [hp, h]
  simp [hfd]

theorem enque_error (env : HwEnv) (fd : Int) (s : NvDrmRenderer) (h : s.is_in_error = true) :
    enqueBuffer env fd s = (-1, s) := by
  simp [enqueBuffer, h]

theorem enque_queued (env : HwEnv) (fd : Int) (s : NvDrmRenderer) (h : s.is_in_error = false)
    (h2 : ¬ (s.renderingStarted = true ∧ s.flipPending = false)) :
    enqueBuffer env fd s = (0, { s with pendingBuffers := s.pendingBuffers ++ [fd] }) := by
  unfold enqueBuffer
  simp only [h, Bool.false_eq_true, if_false]
  rw [if_neg h2]

theorem enque_eos (env : HwEnv) (fd : Int) (s : NvDrmRenderer) (rest : List Int)
    (h : s.is_in_error = false) (h2 : s.renderingStarted = true) (h3 : s.flipPending = false)
    (hq : s.pendingBuffers ++ [fd] = -1 :: rest) :
    enqueBuffer env fd s =
      if env.setCrtcRet ≠ 0 then
        (env.setCrtcRet, ({ s with pendingBuffers := rest }).log [Event.setCrtcZero env.setCrtcRet])
      else
        (0, { ({ s with pendingBuffers := rest }).log [Event.setCrtcZero env.setCrtcRet]
              with stop_thread := true
                   freeBuffers := if s.activeFd ≠ -1 then s.freeBuffers ++ [s.activeFd]
                                  else s.freeBuffers }) := by
  unfold enqueBuffer
  simp only [h, Bool.false_eq_true, if_false]
  rw [if_pos ⟨h2, h3⟩]
  simp only [hq]
  simp [NvDrmRenderer.log]

theorem enque_render (env : HwEnv) (fd : Int) (s : NvDrmRenderer) (tmpFd : Int)
    (rest : List Int) (h : s.is_in_error = false) (h2 : s.renderingStarted = true)
    (h3 : s.flipPending = false) (hq : s.pendingBuffers ++ [fd] = tmpFd :: rest)
    (hfd : tmpFd ≠ -1) :
    enqueBuffer env fd s = renderInternal env tmpFd { s with pendingBuffers := rest } := by
  unfold enqueBuffer
  simp only [h, Bool.false_eq_true, if_false]
  rw [if_pos ⟨h2, h3⟩]
  simp only [hq]
  simp [hfd]

theorem fetch_eq (env : HwEnv) (s : NvDrmRenderer) (fd : Int) (rest : List Int)
    (h : s.pendingBuffers = fd :: rest) :
    renderThreadFetch env s =
      if (renderInternal env fd { s with pendingBuffers := rest }).1 < 0 then
        some { (renderInternal env fd { s with pendingBuffers := rest }).2 with
                 is_in_error := true, thread := ThreadPhase.exited }
      else
        some { (renderInternal env fd { s with pendingBuffers := rest }).2 with
                 renderingStarted := true, thread := ThreadPhase.running } := by
  unfold renderThreadFetch
  rw [h]

theorem fetch_none (env : HwEnv) (s : NvDrmRenderer) (h : s.pendingBuffers = []) :
    renderThreadFetch env s = none := by
  unfold renderThreadFetch
  rw [h]

/-! ### The flip-pending invariant -/

theorem render_flight (env : HwEnv) (fd : Int) (t : NvDrmRenderer) (h0 : t.inFlight = 0) :
    (renderInternal env fd t).2.inFlight ≤ 1 ∧
    ((renderInternal env fd t).2.inFlight = 1 → (renderInternal env fd t).2.flipPending = true) ∧
    ((renderInternal env fd t).1 < 0 → (renderInternal env fd t).2.inFlight = 0) ∧
    (t.is_nvidia_drm = true → (renderInternal env fd t).2.inFlight = 0) := by
  obtain ⟨-, -, ho⟩ := renderInternal_outcome env fd t
  rcases ho with ⟨o1, -, -, -, o5, -⟩ | ⟨-, -, -, -, ⟨o1, -, -, o4, o5, -⟩ | ⟨o1, o2, o3, -⟩⟩
  · rw [o5, h0]; simp
  · rw [o5, h0]; simp
  · rw [o3, h0, o1, o2]
    by_cases hn : t.is_nvidia_drm = true
    · simp [hn]
    · simp [hn]

theorem InvFlight_render (env : HwEnv) (fd : Int) (t : NvDrmRenderer) (h0 : t.inFlight = 0)
    (hth : t.thread = ThreadPhase.running) : InvFlight (renderInternal env fd t).2 := by
  obtain ⟨r1, r2, -, r4⟩ := render_flight env fd t h0
  have hq := renderInternal_frame env fd t
  unfold sameQueues at hq
  refine ⟨r1, r2, ?_, ?_⟩
  · intro hne
    rw [hq.2.2.2.2.2.2.2.2.1, hth] at hne
    exact absurd rfl hne
  · intro hn
    rw [hq.2.2.2.2.2.2.1] at hn
    exact r4 hn

theorem InvFlight_handler (env : HwEnv) (t : NvDrmRenderer) (h0 : t.inFlight = 0)
    (hth : t.thread = ThreadPhase.running) : InvFlight (page_flip_handler env t) := by
  obtain ⟨f1, -, -, -, -, -, -, -, -, -, f11, f12, -⟩ := retireActive_fields t
  cases hp : t.pendingBuffers with
  | nil =>
    rw [handler_empty env t hp]
    simp [InvFlight, f11, f12, h0, hth]
  | cons fd rest =>
    by_cases hfd : fd = -1
    · subst hfd
      rw [handler_eos env t rest hp]
      by_cases hc : env.setCrtcRet ≠ 0
      · simp [if_pos hc, InvFlight, NvDrmRenderer.log, f11, f12, h0, hth]
      · simp [if_neg hc, InvFlight, NvDrmRenderer.log, f11, f12, h0, hth]
    · rw [handler_render env t fd rest hp hfd]
      apply InvFlight_render
      · simp [f11, h0]
      · simp [f12, hth]

theorem InvFlight_enque (env : HwEnv) (fd : Int) (s : NvDrmRenderer) (h : InvFlight s) :
    InvFlight (enqueBuffer env fd s).2 := by
  obtain ⟨i1, i2, i3, i4⟩ := h
  by_cases he : s.is_in_error = true
  · rw [enque_error env fd s he]
    exact ⟨i1, i2, i3, i4⟩
  · have he0 : s.is_in_error = false := by simpa using he
    by_cases hrs : s.renderingStarted = true ∧ s.flipPending = false
    · obtain ⟨h2, h3⟩ := hrs
      have hth : s.thread = ThreadPhase.running := by
        by_contra hne
        have := (i3 hne).1
        rw [h2] at this
        exact absurd this (by decide)
      have h0 : s.inFlight = 0 := by
        have : s.inFlight ≠ 1 := by
          intro h1
          have := i2 h1
          rw [h3] at this
          exact absurd this (by decide)
        omega
      cases hq : s.pendingBuffers ++ [fd] with
      | nil => simp at hq
      | cons tmpFd rest =>
        by_cases hfd : tmpFd = -1
        · subst hfd
          rw [enque_eos env fd s rest he0 h2 h3 hq]
          by_cases hc : env.setCrtcRet ≠ 0
          · simp [if_pos hc, InvFlight, NvDrmRenderer.log, h0, hth]
          · simp [if_neg hc, InvFlight, NvDrmRenderer.log, h0, hth]
        · rw [enque_render env fd s tmpFd rest he0 h2 h3 hq hfd]
          exact InvFlight_render env tmpFd _ h0 hth
    · rw [enque_queued env fd s he0 hrs]
      exact ⟨i1, i2, i3, i4⟩

theorem InvFlight_fetch (env : HwEnv) (fd : Int) (t : NvDrmRenderer) (h0 : t.inFlight = 0)
    (hrs : t.renderingStarted = false) :
    InvFlight (if (renderInternal env fd t).1 < 0 then
        { (renderInternal env fd t).2 with is_in_error := true, thread := ThreadPhase.exited }
      else
        { (renderInternal env fd t).2 with renderingStarted := true,
                                           thread := ThreadPhase.running }) := by
  obtain ⟨r1, r2, r3, r4⟩ := render_flight env fd t h0
  have hq := renderInternal_frame env fd t
  unfold sameQueues at hq
  obtain ⟨-, -, -, q4, -, -, q7, -⟩ := hq
  generalize renderInternal env fd t = r at *
  by_cases hret : r.1 < 0
  · rw [if_pos hret]
    have h1 := r3 hret
    simp [InvFlight, h1, q4, hrs]
  · rw [if_neg hret]
    refine ⟨r1, r2, ?_, ?_⟩
    · intro hx
      exact absurd rfl hx
    · intro hn
      exact r4 (by rw [← q7]; exact hn)

theorem InvFlight_step (s s1 : NvDrmRenderer) (a : Action) (h : InvFlight s)
    (hs : step s a = some s1) : InvFlight s1 := by
  cases a with
  | enque fd env =>
    simp only [step, Option.some.injEq] at hs
    rw [← hs]
    exact InvFlight_enque env fd s h
  | fetch env =>
    simp only [step] at hs
    by_cases hw : s.thread = ThreadPhase.waiting
    · rw [if_pos hw] at hs
      obtain ⟨i1, i2, i3, i4⟩ := h
      have hne : s.thread ≠ ThreadPhase.running := by rw [hw]; decide
      obtain ⟨hrs, h0⟩ := i3 hne
      cases hp : s.pendingBuffers with
      | nil => rw [fetch_none env s hp] at hs; exact absurd hs (by simp)
      | cons fd rest =>
        rw [fetch_eq env s fd rest hp] at hs
        have key := InvFlight_fetch env fd { s with pendingBuffers := rest } h0 hrs
        split at hs
        · rename_i hret
          rw [if_pos hret] at key
          simp only [Option.some.injEq] at hs
          rw [← hs]; exact key
        · rename_i hret
          rw [if_neg hret] at key
          simp only [Option.some.injEq] at hs
          rw [← hs]; exact key
    · rw [if_neg hw] at hs
      exact absurd hs (by simp)
  | flipDone env =>
    simp only [step] at hs
    by_cases hr : s.thread = ThreadPhase.running
    · rw [if_pos hr] at hs
      by_cases hn : s.is_nvidia_drm = true
      · rw [if_pos hn] at hs
        by_cases hst : s.stop_thread = true
        · rw [if_pos hst] at hs; exact absurd hs (by simp)
        · rw [if_neg hst] at hs
          simp only [Option.some.injEq] at hs
          rw [← hs]
          exact InvFlight_handler env s (h.2.2.2 hn) hr
      · rw [if_neg hn] at hs
        by_cases hpos : 0 < s.inFlight
        · rw [if_pos hpos] at hs
          simp only [Option.some.injEq] at hs
          rw [← hs]
          apply InvFlight_handler
          · have := h.1
            show s.inFlight - 1 = 0
            omega
          · exact hr
        · rw [if_neg hpos] at hs; exact absurd hs (by simp)
    · rw [if_neg hr] at hs
      exact absurd hs (by simp)

theorem InvFlight_run (acts : List Action) :
    ∀ (s s1 : NvDrmRenderer), InvFlight s → run s acts = some s1 → InvFlight s1 := by
  induction acts with
  | nil =>
    intro s s1 h hr
    simp only [run, Option.some.injEq] at hr
    rw [← hr]; exact h
  | cons a as ih =>
    intro s s1 h hr
    simp only [run] at hr
    cases hst : step s a with
    | none => rw [hst] at hr; exact absurd hr (by simp)
    | some s2 =>
      rw [hst] at hr
      exact ih s2 s1 (InvFlight_step s s2 a h hst) hr

theorem InvFlight_init (nv : Bool) : InvFlight (init nv) := by
  simp [InvFlight, init]

/-! ### Order of presentation -/

theorem retireActive_seqs (s : NvDrmRenderer) :
    rendered (retireActive s).trace = rendered s.trace ∧
    flippedSeq (retireActive s).trace = flippedSeq s.trace ∧
    activeSeq (retireActive s).trace = activeSeq s.trace ++ [s.flippedFd] := by
  have h := (retireActive_fields s).2.2.2.2.2.2.2.2.2.2.2.2
  rw [h]
  simp [rendered, flippedSeq, activeSeq, List.filterMap_append]

theorem blank_seqs (tr : List Event) (ret : Int) :
    rendered (tr ++ [Event.setCrtcZero ret]) = rendered tr ∧
    flippedSeq (tr ++ [Event.setCrtcZero ret]) = flippedSeq tr ∧
    activeSeq (tr ++ [Event.setCrtcZero ret]) = activeSeq tr := by
  simp [rendered, flippedSeq, activeSeq, List.filterMap_append]

theorem InvFifo_congr (sub : List Int) (s t : NvDrmRenderer)
    (h1 : rendered t.trace = rendered s.trace) (h2 : t.pendingBuffers = s.pendingBuffers)
    (h3 : t.is_in_error = true ∨ t.is_in_error = s.is_in_error) (h : InvFifo sub s) :
    InvFifo sub t := by
  unfold InvFifo at *
  rw [h1, h2]
  refine ⟨h.1, ?_, h.2.2⟩
  intro he
  rcases h3 with h3 | h3
  · rw [h3] at he; exact absurd he (by decide)
  · rw [h3] at he; exact h.2.1 he

theorem InvFifo_render (env : HwEnv) (sub : List Int) (fd : Int) (rest : List Int)
    (t : NvDrmRenderer) (h1 : (rendered t.trace ++ fd :: rest) <+: sub)
    (h2 : t.is_in_error = false → rendered t.trace ++ fd :: rest = sub)
    (h3 : (-1 : Int) ∉ rest) (h4 : t.pendingBuffers = rest) :
    InvFifo sub (renderInternal env fd t).2 := by
  obtain ⟨hr, -, -⟩ := renderInternal_outcome env fd t
  have hq := renderInternal_frame env fd t
  unfold sameQueues at hq
  obtain ⟨q1, -, -, -, -, q6, -⟩ := hq
  unfold InvFifo
  rw [hr, q1, q6, h4, List.append_assoc]
  exact ⟨h1, h2, h3⟩

theorem InvFifo_handler (env : HwEnv) (sub : List Int) (s : NvDrmRenderer)
    (h : InvFifo sub s) : InvFifo sub (page_flip_handler env s) := by
  obtain ⟨f1, -, -, -, -, -, -, f8, -⟩ := retireActive_fields s
  obtain ⟨g1, -, -⟩ := retireActive_seqs s
  have hret : InvFifo sub (retireActive s) :=
    InvFifo_congr sub s _ g1 f1 (Or.inr f8) h
  cases hp : s.pendingBuffers with
  | nil =>
    rw [handler_empty env s hp]
    exact InvFifo_congr sub (retireActive s) _ rfl rfl (Or.inr rfl) hret
  | cons fd rest =>
    have hmem := h.2.2
    rw [hp] at hmem
    have hfd : fd ≠ -1 := by
      intro hx
      apply hmem
      rw [hx]
      exact List.mem_cons_self _ _
    have hrest : (-1 : Int) ∉ rest := fun hx => hmem (List.mem_cons_of_mem _ hx)
    rw [handler_render env s fd rest hp hfd]
    apply InvFifo_render env sub fd rest
    · show (rendered (retireActive s).trace ++ fd :: rest) <+: sub
      rw [g1, ← hp]; exact h.1
    · intro he
      show rendered (retireActive s).trace ++ fd :: rest = sub
      rw [g1, ← hp]
      exact h.2.1 (by rw [← f8]; exact he)
    · exact hrest
    · rfl

theorem InvFifo_enque (env : HwEnv) (sub : List Int) (fd : Int) (s : NvDrmRenderer)
    (h : InvFifo sub s) (hfd : fd ≠ -1) : InvFifo (sub ++ [fd]) (enqueBuffer env fd s).2 := by
  obtain ⟨i1, i2, i3⟩ := h
  have hmem : (-1 : Int) ∉ s.pendingBuffers ++ [fd] := by
    simp only [List.mem_append, List.mem_singleton, not_or]
    exact ⟨i3, fun hx => hfd hx.symm⟩
  by_cases he : s.is_in_error = true
  · rw [enque_error env fd s he]
    refine ⟨i1.trans (List.prefix_append _ _), ?_, i3⟩
    intro hx
    rw [he] at hx
    exact absurd hx (by decide)
  · have he0 : s.is_in_error = false := by simpa using he
    have heq := i2 he0
    by_cases hrs : s.renderingStarted = true ∧ s.flipPending = false
    · obtain ⟨h2, h3⟩ := hrs
      cases hq : s.pendingBuffers ++ [fd] with
      | nil => simp at hq
      | cons tmpFd rest =>
        rw [hq] at hmem
        have htmp : tmpFd ≠ -1 := by
          intro hx
          apply hmem
          rw [hx]
          exact List.mem_cons_self _ _
        have hrest : (-1 : Int) ∉ rest := fun hx => hmem (List.mem_cons_of_mem _ hx)
        rw [enque_render env fd s tmpFd rest he0 h2 h3 hq htmp]
        have hall : rendered s.trace ++ tmpFd :: rest = sub ++ [fd] := by
          rw [← hq, ← List.append_assoc, heq]
        apply InvFifo_render env (sub ++ [fd]) tmpFd rest
        · show (rendered s.trace ++ tmpFd :: rest) <+: sub ++ [fd]
          rw [hall]
        · intro _
          exact hall
        · exact hrest
        · rfl
    · rw [enque_queued env fd s he0 hrs]
      unfold InvFifo
      simp only []
      rw [← List.append_assoc, heq]
      exact ⟨List.prefix_refl _, fun _ => rfl, hmem⟩

theorem InvFifo_fetch (env : HwEnv) (sub : List Int) (s s1 : NvDrmRenderer)
    (h : InvFifo sub s) (hs : renderThreadFetch env s = some s1) : InvFifo sub s1 := by
  cases hp : s.pendingBuffers with
  | nil => rw [fetch_none env s hp] at hs; exact absurd hs (by simp)
  | cons fd rest =>
    rw [fetch_eq env s fd rest hp] at hs
    have hmem := h.2.2
    rw [hp] at hmem
    have hrest : (-1 : Int) ∉ rest := fun hx => hmem (List.mem_cons_of_mem _ hx)
    have key : InvFifo sub (renderInternal env fd { s with pendingBuffers := rest }).2 := by
      apply InvFifo_render env sub fd rest
      · show (rendered s.trace ++ fd :: rest) <+: sub
        rw [← hp]; exact h.1
      · intro he
        show rendered s.trace ++ fd :: rest = sub
        rw [← hp]; exact h.2.1 he
      · exact hrest
      · rfl
    generalize renderInternal env fd { s with pendingBuffers := rest } = r at *
    split at hs
    · simp only [Option.some.injEq] at hs
      rw [← hs]
      exact InvFifo_congr sub r.2 _ rfl rfl (Or.inl rfl) key
    · simp only [Option.some.injEq] at hs
      rw [← hs]
      exact InvFifo_congr sub r.2 _ rfl rfl (Or.inr rfl) key

theorem InvFifo_run (acts : List Action) :
    ∀ (sub : List Int) (s s1 : NvDrmRenderer), InvFifo sub s →
      (∀ h ∈ submitted acts, h ≠ -1) → run s acts = some s1 →
      InvFifo (sub ++ submitted acts) s1 := by
  induction acts with
  | nil =>
    intro sub s s1 h _ hr
    simp only [run, Option.some.injEq] at hr
    rw [← hr]
    simpa [submitted] using h
  | cons a as ih =>
    intro sub s s1 h hsub hr
    simp only [run] at hr
    cases hst : step s a with
    | none => rw [hst] at hr; exact absurd hr (by simp)
    | some s2 =>
      rw [hst] at hr
      cases a with
      | enque fd env =>
        simp only [step, Option.some.injEq] at hst
        have hfd : fd ≠ -1 := hsub fd (by simp [submitted])
        have h2 : InvFifo (sub ++ [fd]) s2 := by
          rw [← hst]; exact InvFifo_enque env sub fd s h hfd
        have := ih (sub ++ [fd]) s2 s1 h2
          (fun x hx => hsub x (by simp [submitted, hx])) hr
        simpa [submitted] using this
      | fetch env =>
        simp only [step] at hst
        split at hst
        · have h2 := InvFifo_fetch env sub s s2 h hst
          have := ih sub s2 s1 h2 (fun x hx => hsub x (by simpa [submitted] using hx)) hr
          simpa [submitted] using this
        · exact absurd hst (by simp)
      | flipDone env =>
        have h2 : InvFifo sub s2 := by
          simp only [step] at hst
          split at hst
          · split at hst
            · split at hst
              · exact absurd hst (by simp)
              · simp only [Option.some.injEq] at hst
                rw [← hst]; exact InvFifo_handler env sub s h
            · split at hst
              · simp only [Option.some.injEq] at hst
                rw [← hst]
                exact InvFifo_handler env sub _
                  (InvFifo_congr sub s _ rfl rfl (Or.inr rfl) h)
              · exact absurd hst (by simp)
          · exact absurd hst (by simp)
        have := ih sub s2 s1 h2 (fun x hx => hsub x (by simpa [submitted] using hx)) hr
        simpa [submitted] using this

theorem InvOrder_congr (s t : NvDrmRenderer) (h1 : t.trace = s.trace)
    (h2 : t.inFlight = s.inFlight) (h3 : t.flippedFd = s.flippedFd)
    (h4 : t.is_nvidia_drm = s.is_nvidia_drm) (h : InvOrder s) : InvOrder t := by
  unfold InvOrder at *
  rw [h1, h2, h3, h4]
  exact h

theorem InvOrder_render (env : HwEnv) (fd : Int) (t : NvDrmRenderer) (h0 : t.inFlight = 0)
    (h1 : (flippedSeq t.trace).Sublist (rendered t.trace))
    (h2 : t.is_nvidia_drm = false → (activeSeq t.trace).Sublist (flippedSeq t.trace)) :
    InvOrder (renderInternal env fd t).2 := by
  obtain ⟨hr, ha, ho⟩ := renderInternal_outcome env fd t
  have hq := renderInternal_frame env fd t
  unfold sameQueues at hq
  obtain ⟨-, -, -, -, -, -, q7, -⟩ := hq
  unfold InvOrder
  rw [hr, ha, q7]
  rcases ho with ⟨-, -, -, -, o5, o6, -⟩ | ⟨-, o2, o3, -, ⟨-, -, -, -, o5, -⟩ | ⟨-, -, o5, -⟩⟩
  · rw [o5, o6, h0]
    refine ⟨h1.trans (List.sublist_append_left _ _), fun hn => ⟨fun _ => h2 hn, ?_⟩⟩
    intro hx
    exact absurd hx (by decide)
  · rw [o5, o3, h0]
    refine ⟨List.Sublist.append h1 (List.Sublist.refl _), fun hn => ⟨fun _ => ?_, ?_⟩⟩
    · exact (h2 hn).trans (List.sublist_append_left _ _)
    · intro hx
      exact absurd hx (by decide)
  · rw [o5, o3, o2, h0]
    refine ⟨List.Sublist.append h1 (List.Sublist.refl _), fun hn => ?_⟩
    rw [hn]
    simp only [Bool.false_eq_true, if_false, Nat.zero_add]
    refine ⟨fun hx => absurd hx (by decide), fun _ => ⟨flippedSeq t.trace, rfl, h2 hn⟩⟩

theorem InvOrder_handler (env : HwEnv) (t : NvDrmRenderer) (h0 : t.inFlight = 0)
    (h1 : (flippedSeq t.trace).Sublist (rendered t.trace))
    (h2 : t.is_nvidia_drm = false →
      (activeSeq t.trace ++ [t.flippedFd]).Sublist (flippedSeq t.trace)) :
    InvOrder (page_flip_handler env t) := by
  obtain ⟨f1, -, -, f4, -, -, -, -, f9, -, f11, -, f13⟩ := retireActive_fields t
  obtain ⟨g1, g2, g3⟩ := retireActive_seqs t
  have hbase : InvOrder (retireActive t) := by
    unfold InvOrder
    rw [g1, g2, g3, f9, f11, h0]
    exact ⟨h1, fun hn => ⟨fun _ => h2 hn, fun hx => absurd hx (by decide)⟩⟩
  cases hp : t.pendingBuffers with
  | nil =>
    rw [handler_empty env t hp]
    exact InvOrder_congr (retireActive t) _ rfl rfl rfl rfl hbase
  | cons fd rest =>
    by_cases hfd : fd = -1
    · subst hfd
      rw [handler_eos env t rest hp]
      have hb := blank_seqs (retireActive t).trace env.setCrtcRet
      have hlog : InvOrder
          (({ retireActive t with pendingBuffers := rest }).log [Event.setCrtcZero env.setCrtcRet]) := by
        unfold InvOrder
        simp only [NvDrmRenderer.log]
        rw [hb.1, hb.2.1, hb.2.2]
        exact hbase
      split
      · exact hlog
      · exact InvOrder_congr _ _ rfl rfl rfl rfl hlog
    · rw [handler_render env t fd rest hp hfd]
      apply InvOrder_render
      · exact f11.trans h0
      · show (flippedSeq (retireActive t).trace).Sublist (rendered (retireActive t).trace)
        rw [g1, g2]; exact h1
      · intro hn
        show (activeSeq (retireActive t).trace).Sublist (flippedSeq (retireActive t).trace)
        rw [g2, g3]
        exact h2 (f9 ▸ hn)

theorem InvOrder_enque (env : HwEnv) (fd : Int) (s : NvDrmRenderer) (hf : InvFlight s)
    (h : InvOrder s) : InvOrder (enqueBuffer env fd s).2 := by
  by_cases he : s.is_in_error = true
  · rw [enque_error env fd s he]; exact h
  · have he0 : s.is_in_error = false := by simpa using he
    by_cases hrs : s.renderingStarted = true ∧ s.flipPending = false
    · obtain ⟨h2, h3⟩ := hrs
      have h0 : s.inFlight = 0 := by
        have : s.inFlight ≠ 1 := by
          intro h1
          have := hf.2.1 h1
          rw [h3] at this
          exact absurd this (by decide)
        have := hf.1
        omega
      cases hq : s.pendingBuffers ++ [fd] with
      | nil => simp at hq
      | cons tmpFd rest =>
        by_cases hfd : tmpFd = -1
        · subst hfd
          rw [enque_eos env fd s rest he0 h2 h3 hq]
          have hb := blank_seqs s.trace env.setCrtcRet
          have hlog : InvOrder
              (({ s with pendingBuffers := rest }).log [Event.setCrtcZero env.setCrtcRet]) := by
            unfold InvOrder
            simp only [NvDrmRenderer.log]
            rw [hb.1, hb.2.1, hb.2.2]
            exact h
          split
          · exact hlog
          · exact InvOrder_congr _ _ rfl rfl rfl rfl hlog
        · rw [enque_render env fd s tmpFd rest he0 h2 h3 hq hfd]
          apply InvOrder_render
          · exact h0
          · exact h.1
          · intro hn
            exact (h.2 hn).1 h0
    · rw [enque_queued env fd s he0 hrs]
      exact InvOrder_congr s _ rfl rfl rfl rfl h

theorem InvOrder_step (s s1 : NvDrmRenderer) (a : Action) (hf : InvFlight s) (h : InvOrder s)
    (hs : step s a = some s1) : InvOrder s1 := by
  cases a with
  | enque fd env =>
    simp only [step, Option.some.injEq] at hs
    rw [← hs]
    exact InvOrder_enque env fd s hf h
  | fetch env =>
    simp only [step] at hs
    split at hs
    · rename_i hw
      have hne : s.thread ≠ ThreadPhase.running := by rw [hw]; decide
      obtain ⟨-, h0⟩ := hf.2.2.1 hne
      cases hp : s.pendingBuffers with
      | nil => rw [fetch_none env s hp] at hs; exact absurd hs (by simp)
      | cons fd rest =>
        rw [fetch_eq env s fd rest hp] at hs
        have key : InvOrder (renderInternal env fd { s with pendingBuffers := rest }).2 :=
          InvOrder_render env fd _ h0 h.1 (fun hn => (h.2 hn).1 h0)
        generalize renderInternal env fd { s with pendingBuffers := rest } = r at *
        split at hs
        · simp only [Option.some.injEq] at hs
          rw [← hs]
          exact InvOrder_congr r.2 _ rfl rfl rfl rfl key
        · simp only [Option.some.injEq] at hs
          rw [← hs]
          exact InvOrder_congr r.2 _ rfl rfl rfl rfl key
    · exact absurd hs (by simp)
  | flipDone env =>
    simp only [step] at hs
    split at hs
    · split at hs
      · rename_i hn
        split at hs
        · exact absurd hs (by simp)
        · simp only [Option.some.injEq] at hs
          rw [← hs]
          apply InvOrder_handler env s (hf.2.2.2 hn) h.1
          intro hx
          rw [hn] at hx
          exact absurd hx (by decide)
      · rename_i hn
        split at hs
        · rename_i hpos
          simp only [Option.some.injEq] at hs
          rw [← hs]
          have h1 : s.inFlight = 1 := by
            have := hf.1
            omega
          apply InvOrder_handler
          · show s.inFlight - 1 = 0
            omega
          · exact h.1
          · intro hx
            obtain ⟨pre, hpre, hsub⟩ := (h.2 hx).2 h1
            show (activeSeq s.trace ++ [s.flippedFd]).Sublist (flippedSeq s.trace)
            rw [hpre]
            exact List.Sublist.append hsub (List.Sublist.refl _)
        · exact absurd hs (by simp)
    · exact absurd hs (by simp)

theorem InvOrder_run (acts : List Action) :
    ∀ (s s1 : NvDrmRenderer), InvFlight s → InvOrder s → run s acts = some s1 →
      InvOrder s1 := by
  induction acts with
  | nil =>
    intro s s1 _ h hr
    simp only [run, Option.some.injEq] at hr
    rw [← hr]; exact h
  | cons a as ih =>
    intro s s1 hf h hr
    simp only [run] at hr
    cases hst : step s a with
    | none => rw [hst] at hr; exact absurd hr (by simp)
    | some s2 =>
      rw [hst] at hr
      exact ih s2 s1 (InvFlight_step s s2 a hf hst) (InvOrder_step s s2 a hf h hst) hr

/-! ### Fields fixed at construction -/

theorem handler_static (env : HwEnv) (s : NvDrmRenderer) :
    (page_flip_handler env s).is_nvidia_drm = s.is_nvidia_drm ∧
    (page_flip_handler env s).map_list = s.map_list := by
  obtain ⟨-, -, -, -, -, -, -, -, f9, f10, -⟩ := retireActive_fields s
  cases hp : s.pendingBuffers with
  | nil =>
    rw [handler_empty env s hp]
    exact ⟨f9, f10⟩
  | cons fd rest =>
    by_cases hfd : fd = -1
    · subst hfd
      rw [handler_eos env s rest hp]
      split
      · exact ⟨f9, f10⟩
      · exact ⟨f9, f10⟩
    · rw [handler_render env s fd rest hp hfd]
      have hq := renderInternal_frame env fd { retireActive s with pendingBuffers := rest }
      unfold sameQueues at hq
      exact ⟨hq.2.2.2.2.2.2.1.trans f9, hq.2.2.2.2.2.2.2.1.trans f10⟩

theorem enque_static (env : HwEnv) (fd : Int) (s : NvDrmRenderer) :
    (enqueBuffer env fd s).2.is_nvidia_drm = s.is_nvidia_drm ∧
    (enqueBuffer env fd s).2.map_list = s.map_list := by
  by_cases he : s.is_in_error = true
  · rw [enque_error env fd s he]
    exact ⟨rfl, rfl⟩
  · have he0 : s.is_in_error = false := by simpa using he
    by_cases hrs : s.renderingStarted = true ∧ s.flipPending = false
    · obtain ⟨h2, h3⟩ := hrs
      cases hq : s.pendingBuffers ++ [fd] with
      | nil => simp at hq
      | cons tmpFd rest =>
        by_cases hfd : tmpFd = -1
        · subst hfd
          rw [enque_eos env fd s rest he0 h2 h3 hq]
          split
          · exact ⟨rfl, rfl⟩
          · exact ⟨rfl, rfl⟩
        · rw [enque_render env fd s tmpFd rest he0 h2 h3 hq hfd]
          have hq := renderInternal_frame env tmpFd { s with pendingBuffers := rest }
          unfold sameQueues at hq
          exact ⟨hq.2.2.2.2.2.2.1, hq.2.2.2.2.2.2.2.1⟩
    · rw [enque_queued env fd s he0 hrs]
      exact ⟨rfl, rfl⟩

theorem fetch_static (env : HwEnv) (s s1 : NvDrmRenderer)
    (hs : renderThreadFetch env s = some s1) :
    s1.is_nvidia_drm = s.is_nvidia_drm ∧ s1.map_list = s.map_list := by
  cases hp : s.pendingBuffers with
  | nil => rw [fetch_none env s hp] at hs; exact absurd hs (by simp)
  | cons fd rest =>
    rw [fetch_eq env s fd rest hp] at hs
    have hq := renderInternal_frame env fd { s with pendingBuffers := rest }
    unfold sameQueues at hq
    obtain ⟨-, -, -, -, -, -, q7, q8, -⟩ := hq
    generalize renderInternal env fd { s with pendingBuffers := rest } = r at *
    split at hs
    · simp only [Option.some.injEq] at hs
      rw [← hs]
      exact ⟨q7, q8⟩
    · simp only [Option.some.injEq] at hs
      rw [← hs]
      exact ⟨q7, q8⟩

theorem step_static (s s1 : NvDrmRenderer) (a : Action) (hs : step s a = some s1) :
    s1.is_nvidia_drm = s.is_nvidia_drm ∧ s1.map_list = s.map_list := by
  cases a with
  | enque fd env =>
    simp only [step, Option.some.injEq] at hs
    rw [← hs]
    exact enque_static env fd s
  | fetch env =>
    simp only [step] at hs
    split at hs
    · exact fetch_static env s s1 hs
    · exact absurd hs (by simp)
  | flipDone env =>
    simp only [step] at hs
    split at hs
    · split at hs
      · split at hs
        · exact absurd hs (by simp)
        · simp only [Option.some.injEq] at hs
          rw [← hs]
          exact handler_static env s
      · split at hs
        · simp only [Option.some.injEq] at hs
          rw [← hs]
          exact handler_static env _
        · exact absurd hs (by simp)
    · exact absurd hs (by simp)

theorem run_static (acts : List Action) :
    ∀ (s s1 : NvDrmRenderer), run s acts = some s1 →
      s1.is_nvidia_drm = s.is_nvidia_drm ∧ s1.map_list = s.map_list := by
  induction acts with
  | nil =>
    intro s s1 hr
    simp only [run, Option.some.injEq] at hr
    rw [← hr]; exact ⟨rfl, rfl⟩
  | cons a as ih =>
    intro s s1 hr
    simp only [run] at hr
    cases hst : step s a with
    | none => rw [hst] at hr; exact absurd hr (by simp)
    | some s2 =>
      rw [hst] at hr
      obtain ⟨h1, h2⟩ := step_static s s2 a hst
      obtain ⟨h3, h4⟩ := ih s2 s1 hr
      exact ⟨h3.trans h1, h4.trans h2⟩

/-! ### Order of presentation and the flip in flight: main results -/

theorem InvFifo_init (nv : Bool) : InvFifo [] (init nv) := by
  simp [InvFifo, init, rendered]

theorem InvOrder_init (nv : Bool) : InvOrder (init nv) := by
  simp [InvOrder, init, rendered, flippedSeq, activeSeq]

theorem demoRun_eq : run (init false) demoRun = some demoState := rfl

/-- C2. Single in-flight flip: in every state reached from the constructed renderer
with page-flip events (`is_nvidia_drm` false), at most one requested flip is
unconfirmed, `flipPending` is set whenever one is, and a call of `enqueBuffer`
that issues a flip request starts with `flipPending` false. -/
theorem single_in_flight_flip (acts : List Action) (s : NvDrmRenderer)
    (hr : run (init false) acts = some s) :
    s.inFlight ≤ 1 ∧ (0 < s.inFlight → s.flipPending = true) ∧
    (∀ (fd : Int) (env : HwEnv),
        pageFlips (enqueBuffer env fd s).2.trace ≠ pageFlips s.trace →
        s.flipPending = false) := by
  have hflight := InvFlight_run acts (init false) s (InvFlight_init false) hr
  refine ⟨hflight.1, ?_, ?_⟩
  · intro hpos
    exact hflight.2.1 (by have := hflight.1; omega)
  · intro fd env hne
    by_cases he : s.is_in_error = true
    · rw [enque_error env fd s he] at hne
      exact absurd rfl hne
    · have he0 : s.is_in_error = false := by simpa using he
      by_cases hrs : s.renderingStarted = true ∧ s.flipPending = false
      · exact hrs.2
      · rw [enque_queued env fd s he0 hrs] at hne
        exact absurd rfl hne

/-- Witness of C2 on the sample run. -/
theorem single_in_flight_flip_witness :
    (demoState.inFlight ≤ 1 ∧ (0 < demoState.inFlight → demoState.flipPending = true) ∧
    (∀ (fd : Int) (env : HwEnv),
        pageFlips (enqueBuffer env fd demoState).2.trace ≠ pageFlips demoState.trace →
        demoState.flipPending = false)) ∧
    demoState.inFlight = 1 ∧ demoState.flipPending = true :=
  ⟨single_in_flight_flip demoRun demoState demoRun_eq, by decide, by decide⟩

/-! ### The deadline clock -/

theorem advanceDeadline_ok (t : Timespec) (rsec rnsec : Nat) (h1 : 0 < t.tv_sec)
    (h2 : 0 ≤ t.tv_nsec) (h3 : t.tv_nsec < 1000000000) (h4 : rnsec < 1000000000)
    (h5 : t.tv_sec + rsec + 1 < 9223372036854775808) :
    totalNs (advanceDeadline t rsec rnsec) = totalNs t + rsec * 1000000000 + rnsec ∧
    0 ≤ (advanceDeadline t rsec rnsec).tv_nsec ∧
    (advanceDeadline t rsec rnsec).tv_nsec < 1000000000 ∧
    t.tv_sec ≤ (advanceDeadline t rsec rnsec).tv_sec ∧
    (advanceDeadline t rsec rnsec).tv_sec ≤ t.tv_sec + rsec + 1 := by
  obtain ⟨sec, nsec⟩ := t
  simp only at h1 h2 h3 h5
  have hs : toU64 sec = sec.toNat := by
    unfold toU64
    congr 1
    omega
  have hn : toU64 nsec = nsec.toNat := by
    unfold toU64
    congr 1
    omega
  have e1 : toI64 (sec.toNat + rsec) = sec + rsec := by
    unfold toI64
    split <;> omega
  have e2 : toI64 (nsec.toNat + rnsec) = nsec + rnsec := by
    unfold toI64
    split <;> omega
  have e3 : toU64 (sec + (rsec : Int)) = sec.toNat + rsec := by
    unfold toU64
    omega
  have e4 : toU64 (nsec + (rnsec : Int)) = nsec.toNat + rnsec := by
    unfold toU64
    omega
  have e5 : toI64 (sec.toNat + rsec + (nsec.toNat + rnsec) / 1000000000)
      = sec + rsec + ((nsec.toNat + rnsec) / 1000000000 : Nat) := by
    unfold toI64
    split <;> omega
  have e6 : toI64 ((nsec.toNat + rnsec) % 1000000000)
      = (((nsec.toNat + rnsec) % 1000000000 : Nat) : Int) := by
    unfold toI64
    split <;> omega
  simp only [advanceDeadline, totalNs, hs, hn, e1, e2, e3, e4, e5, e6]
  refine ⟨?_, ?_, ?_, ?_, ?_⟩ <;> omega

theorem present_clock (env : HwEnv) (fd : Int) (s : NvDrmRenderer)
    (hacq : (acquireFB env s fd).1 ≠ none) :
    (renderInternal env fd s).2.last_render_time = (pace env s).last_render_time := by
  obtain ⟨-, -, ho⟩ := renderInternal_outcome env fd s
  rcases ho with ⟨-, o2, -⟩ | ⟨-, -, -, o4, -⟩
  · exact absurd o2 hacq
  · exact o4

theorem pace_armed (env : HwEnv) (s : NvDrmRenderer) (h : s.last_render_time.tv_sec ≠ 0) :
    (pace env s).last_render_time
      = advanceDeadline s.last_render_time s.render_time_sec s.render_time_nsec := by
  unfold pace
  rw [if_pos h]

theorem pace_unarmed (env : HwEnv) (s : NvDrmRenderer) (h : s.last_render_time.tv_sec = 0)
    (h1 : 0 ≤ env.now.tv_usec) (h2 : env.now.tv_usec < 1000000) :
    (pace env s).last_render_time = ⟨env.now.tv_sec, env.now.tv_usec * 1000⟩ := by
  unfold pace
  have hne : ¬ s.last_render_time.tv_sec ≠ 0 := by simpa using h
  rw [if_neg hne]
  have : toI64 (toU64 (env.now.tv_usec * 1000)) = env.now.tv_usec * 1000 := by
    unfold toI64 toU64
    split <;> omega
  simp only [this]

theorem presentAll_cons (s : NvDrmRenderer) (c : HwEnv × Int) (cs : List (HwEnv × Int)) :
    presentAll s (c :: cs) = presentAll (renderInternal c.1 c.2 s).2 cs := by
  simp [presentAll]

theorem presentAll_armed (cs : List (HwEnv × Int)) :
    ∀ (s : NvDrmRenderer), 0 < s.last_render_time.tv_sec → 0 ≤ s.last_render_time.tv_nsec →
      s.last_render_time.tv_nsec < 1000000000 → s.render_time_nsec < 1000000000 →
      (∀ c ∈ cs, (acquireFB c.1 s c.2).1 ≠ none) →
      s.last_render_time.tv_sec + cs.length * (s.render_time_sec + 1) < 9223372036854775808 →
      totalNs (presentAll s cs).last_render_time
        = totalNs s.last_render_time
          + cs.length * (s.render_time_sec * 1000000000 + s.render_time_nsec) ∧
      0 ≤ (presentAll s cs).last_render_time.tv_nsec ∧
      (presentAll s cs).last_render_time.tv_nsec < 1000000000 := by
  induction cs with
  | nil =>
    intro s _ h2 h3 _ _ _
    simp [presentAll, h2, h3]
  | cons c cs ih =>
    intro s h1 h2 h3 h4 hacq hfit
    rw [presentAll_cons]
    have hq := renderInternal_frame c.1 c.2 s
    unfold sameQueues at hq
    obtain ⟨-, -, -, -, -, -, q7, q8, -, -, q11, q12⟩ := hq
    have hclk := present_clock c.1 c.2 s (hacq c (List.mem_cons_self _ _))
    rw [pace_armed c.1 s (ne_of_gt h1)] at hclk
    simp only [List.length_cons, Nat.cast_add, Nat.cast_one] at hfit
    have hlen : (0 : Int) ≤ (cs.length : Int) := Int.natCast_nonneg _
    have hmul : (0 : Int) ≤ (cs.length : Int) * ((s.render_time_sec : Int) + 1) :=
      Int.mul_nonneg hlen (by omega)
    have hfit1 : s.last_render_time.tv_sec + s.render_time_sec + 1 < 9223372036854775808 := by
      have : ((cs.length : Int) + 1) * ((s.render_time_sec : Int) + 1)
          = (cs.length : Int) * ((s.render_time_sec : Int) + 1) + ((s.render_time_sec : Int) + 1) := by
        ring
      omega
    obtain ⟨a1, a2, a3, a4, a5⟩ := advanceDeadline_ok s.last_render_time s.render_time_sec
      s.render_time_nsec h1 h2 h3 h4 hfit1
    rw [← hclk] at a1 a2 a3 a4 a5
    have hacq2 : ∀ x ∈ cs, (acquireFB x.1 (renderInternal c.1 c.2 s).2 x.2).1 ≠ none := by
      intro x hx
      rw [acquireFB_congr x.1 s _ x.2 q8 q7]
      exact hacq x (List.mem_cons_of_mem _ hx)
    have hfit2 : (renderInternal c.1 c.2 s).2.last_render_time.tv_sec
        + cs.length * ((renderInternal c.1 c.2 s).2.render_time_sec + 1)
        < 9223372036854775808 := by
      rw [q11]
      have : ((cs.length : Int) + 1) * ((s.render_time_sec : Int) + 1)
          = (cs.length : Int) * ((s.render_time_sec : Int) + 1) + ((s.render_time_sec : Int) + 1) := by
        ring
      omega
    obtain ⟨b1, b2, b3⟩ := ih (renderInternal c.1 c.2 s).2 (by omega) a2 a3 (by rw [q12]; exact h4)
      hacq2 hfit2
    refine ⟨?_, b2, b3⟩
    rw [b1, a1, q11, q12]
    simp only [List.length_cons, Nat.cast_add, Nat.cast_one]
    ring

theorem presentAll_deadline (s : NvDrmRenderer) (c0 : HwEnv × Int) (cs : List (HwEnv × Int))
    (hun : s.last_render_time.tv_sec = 0) (hns : s.render_time_nsec < 1000000000)
    (hacq : ∀ c ∈ c0 :: cs, (acquireFB c.1 s c.2).1 ≠ none)
    (hsec : 0 < c0.1.now.tv_sec) (hu1 : 0 ≤ c0.1.now.tv_usec) (hu2 : c0.1.now.tv_usec < 1000000)
    (hfit : c0.1.now.tv_sec + cs.length * (s.render_time_sec + 1) < 9223372036854775808) :
    totalNs (presentAll s (c0 :: cs)).last_render_time
      = c0.1.now.tv_sec * 1000000000 + c0.1.now.tv_usec * 1000
        + cs.length * (s.render_time_sec * 1000000000 + s.render_time_nsec) ∧
    0 ≤ (presentAll s (c0 :: cs)).last_render_time.tv_nsec ∧
    (presentAll s (c0 :: cs)).last_render_time.tv_nsec < 1000000000 := by
  rw [presentAll_cons]
  have hq := renderInternal_frame c0.1 c0.2 s
  unfold sameQueues at hq
  obtain ⟨-, -, -, -, -, -, q7, q8, -, -, q11, q12⟩ := hq
  have hclk := present_clock c0.1 c0.2 s (hacq c0 (List.mem_cons_self _ _))
  rw [pace_unarmed c0.1 s hun hu1 hu2] at hclk
  have hacq2 : ∀ x ∈ cs, (acquireFB x.1 (renderInternal c0.1 c0.2 s).2 x.2).1 ≠ none := by
    intro x hx
    rw [acquireFB_congr x.1 s _ x.2 q8 q7]
    exact hacq x (List.mem_cons_of_mem _ hx)
  obtain ⟨b1, b2, b3⟩ := presentAll_armed cs (renderInternal c0.1 c0.2 s).2
    (by rw [hclk]; exact hsec) (by rw [hclk]; show 0 ≤ c0.1.now.tv_usec * 1000; omega)
    (by rw [hclk]; show c0.1.now.tv_usec * 1000 < 1000000000; omega) (by rw [q12]; exact hns)
    hacq2 (by rw [hclk, q11]; exact hfit)
  refine ⟨?_, b2, b3⟩
  rw [b1, hclk, q11, q12]
  simp only [totalNs]

/-! ### The deadline clock: main results -/

theorem timespec_eq_of_total (a b : Timespec) (h : totalNs a = totalNs b)
    (ha1 : 0 ≤ a.tv_nsec) (ha2 : a.tv_nsec < 1000000000) (hb1 : 0 ≤ b.tv_nsec)
    (hb2 : b.tv_nsec < 1000000000) : a = b := by
  obtain ⟨as, an⟩ := a
  obtain ⟨bs, bn⟩ := b
  simp only [totalNs] at h
  simp only at ha1 ha2 hb1 hb2
  have h1 : as = bs := by omega
  have h2 : an = bn := by omega
  rw [h1, h2]

/-- C9 (as amended). Drift-free deadline accumulation: the renderer has frame
duration `d = (render_time_sec, render_time_nsec)` with `render_time_nsec < 10^9`
and an unarmed clock; the first presentation `c0` captures the baseline `t0` with
`tv_sec > 0` and `tv_nsec = tv_usec * 1000 < 10^9`; `k` further presentations `cs`
follow and `t0.tv_sec + k * (render_time_sec + 1) < 2^63`.  Then the deadline of
the last one is `t0 + k * d` as a count of nanoseconds, its `tv_nsec` is in
`[0, 10^9)`, and any other `k` presentations `cs2` (other wall-clock readings)
give the same deadline. -/
theorem deadline_accumulation (s : NvDrmRenderer) (c0 : HwEnv × Int)
    (cs cs2 : List (HwEnv × Int))
    (hun : s.last_render_time.tv_sec = 0) (hns : s.render_time_nsec < 1000000000)
    (hacq : ∀ c ∈ c0 :: cs, (acquireFB c.1 s c.2).1 ≠ none)
    (hacq2 : ∀ c ∈ cs2, (acquireFB c.1 s c.2).1 ≠ none) (hlen : cs2.length = cs.length)
    (hsec : 0 < c0.1.now.tv_sec) (hu1 : 0 ≤ c0.1.now.tv_usec) (hu2 : c0.1.now.tv_usec < 1000000)
    (hfit : c0.1.now.tv_sec + cs.length * (s.render_time_sec + 1) < 9223372036854775808) :
    totalNs (presentAll s (c0 :: cs)).last_render_time
      = c0.1.now.tv_sec * 1000000000 + c0.1.now.tv_usec * 1000
        + cs.length * (s.render_time_sec * 1000000000 + s.render_time_nsec) ∧
    0 ≤ (presentAll s (c0 :: cs)).last_render_time.tv_nsec ∧
    (presentAll s (c0 :: cs)).last_render_time.tv_nsec < 1000000000 ∧
    (presentAll s (c0 :: cs2)).last_render_time = (presentAll s (c0 :: cs)).last_render_time := by
  obtain ⟨a1, a2, a3⟩ := presentAll_deadline s c0 cs hun hns hacq hsec hu1 hu2 hfit
  have hacq3 : ∀ c ∈ c0 :: cs2, (acquireFB c.1 s c.2).1 ≠ none := by
    intro c hc
    rcases List.mem_cons.mp hc with h | h
    · rw [h]; exact hacq c0 (List.mem_cons_self _ _)
    · exact hacq2 c h
  obtain ⟨b1, b2, b3⟩ := presentAll_deadline s c0 cs2 hun hns hacq3 hsec hu1 hu2
    (by rw [hlen]; exact hfit)
  refine ⟨a1, a2, a3, ?_⟩
  apply timespec_eq_of_total _ _ _ b2 b3 a2 a3
  rw [a1, b1, hlen]

/-- Witness of C9: baseline 1000 s at 30 frames per second, one further
presentation, made at 1000 s or at 2000.000005 s. -/
theorem deadline_accumulation_witness :
    totalNs (presentAll (init false) [(okEnv 7, 1), (okEnv 8, 2)]).last_render_time
      = (okEnv 7).now.tv_sec * 1000000000 + (okEnv 7).now.tv_usec * 1000
        + ([(okEnv 8, (2 : Int))].length : Int)
          * ((init false).render_time_sec * 1000000000 + (init false).render_time_nsec) ∧
    0 ≤ (presentAll (init false) [(okEnv 7, 1), (okEnv 8, 2)]).last_render_time.tv_nsec ∧
    (presentAll (init false) [(okEnv 7, 1), (okEnv 8, 2)]).last_render_time.tv_nsec
      < 1000000000 ∧
    (presentAll (init false) [(okEnv 7, 1), (okEnvAt 8 2000 5, 2)]).last_render_time
      = (presentAll (init false) [(okEnv 7, 1), (okEnv 8, 2)]).last_render_time :=
  deadline_accumulation (init false) (okEnv 7, 1) [(okEnv 8, 2)] [(okEnvAt 8 2000 5, 2)]
    rfl (by decide)
    (by intro c hc
        simp only [List.mem_cons, List.mem_singleton, List.not_mem_nil, or_false] at hc
        rcases hc with h | h <;> subst h <;> decide)
    (by intro c hc
        simp only [List.mem_singleton] at hc
        subst hc
        decide)
    rfl (by decide) (by decide) (by decide) (by decide)

/-- Counterexample to C9 as stated (baseline `tv_sec != 0`, every `k`), frame
duration one second.  (a) Baseline -1 s: the first further presentation brings
`tv_sec` to 0, so the second one takes the wall clock as a new baseline: its
deadline is the wall-clock reading, not `t0 + 2 d`, and changes with it.
(b) Baseline `2^63 - 1` s: the sum wraps to `-2^63` s.
(c) Baseline with `tv_usec = -1`, hence `tv_nsec = -1000 < 10^9`: the unsigned
division takes `2^64 - 1000` nanoseconds for the carry. -/
theorem deadline_rearm_counterexample :
    (presentAll oneSecond [(okEnvAt 7 (-1) 0, 1)]).last_render_time = ⟨-1, 0⟩ ∧
    (presentAll oneSecond [(okEnvAt 7 (-1) 0, 1), (okEnv 8, 2), (okEnv 9, 3)]).last_render_time
      = ⟨1000, 0⟩ ∧
    totalNs ⟨1000, 0⟩ ≠ totalNs ⟨-1, 0⟩ + 2 * (1 * 1000000000 + 0) ∧
    (presentAll oneSecond
        [(okEnvAt 7 (-1) 0, 1), (okEnv 8, 2), (okEnvAt 9 2000 5, 3)]).last_render_time
      ≠ (presentAll oneSecond
        [(okEnvAt 7 (-1) 0, 1), (okEnv 8, 2), (okEnv 9, 3)]).last_render_time ∧
    (presentAll oneSecond [(okEnvAt 7 9223372036854775807 0, 1)]).last_render_time
      = ⟨9223372036854775807, 0⟩ ∧
    (presentAll oneSecond
        [(okEnvAt 7 9223372036854775807 0, 1), (okEnv 8, 2)]).last_render_time
      = ⟨-9223372036854775808, 0⟩ ∧
    totalNs ⟨-9223372036854775808, 0⟩
      ≠ totalNs ⟨9223372036854775807, 0⟩ + 1 * (1 * 1000000000 + 0) ∧
    (presentAll oneSecond [(okEnvAt 7 1000 (-1), 1)]).last_render_time = ⟨1000, -1000⟩ ∧
    (presentAll oneSecond [(okEnvAt 7 1000 (-1), 1), (okEnv 8, 2)]).last_render_time
      = ⟨18446745074, 709550616⟩ ∧
    totalNs ⟨18446745074, 709550616⟩ ≠ totalNs ⟨1000, -1000⟩ + 1 * (1 * 1000000000 + 0) := by
  refine ⟨by decide, by decide, by decide, by decide, by decide, by decide, by decide,
    by decide, by decide, by decide⟩

theorem setFPS_static (rnd : ℚ → ℚ) (fps : ℚ) (s : NvDrmRenderer) :
    (setFPS rnd fps s).2.last_render_time = s.last_render_time ∧
    (setFPS rnd fps s).2.map_list = s.map_list ∧
    (setFPS rnd fps s).2.is_nvidia_drm = s.is_nvidia_drm := by
  unfold setFPS
  split <;> simp

theorem setFPS_presentAll (rnd : ℚ → ℚ) (R : ℚ) (s : NvDrmRenderer) (c0 : HwEnv × Int)
    (cs : List (HwEnv × Int)) (hR : R ≠ 0) (h0 : 0 ≤ rnd (1000000 / R))
    (hfitR : rnd (1000000 / R) < 18446744073709551616)
    (hun : s.last_render_time.tv_sec = 0)
    (hacq : ∀ c ∈ c0 :: cs, (acquireFB c.1 s c.2).1 ≠ none)
    (hsec : 0 < c0.1.now.tv_sec) (hu1 : 0 ≤ c0.1.now.tv_usec) (hu2 : c0.1.now.tv_usec < 1000000)
    (hfit : c0.1.now.tv_sec
        + cs.length * ((Int.toNat (Int.floor (rnd (1000000 / R))) / 1000000 : Nat) + 1)
        < 9223372036854775808) :
    totalNs (presentAll (setFPS rnd R s).2 (c0 :: cs)).last_render_time
      = c0.1.now.tv_sec * 1000000000 + c0.1.now.tv_usec * 1000
        + cs.length * ((Int.toNat (Int.floor (rnd (1000000 / R))) : Int) * 1000) := by
  obtain ⟨f1, f2⟩ := setFPS_fields rnd R s hR h0 hfitR
  obtain ⟨g1, g2, g3⟩ := setFPS_static rnd R s
  have hns : (setFPS rnd R s).2.render_time_nsec < 1000000000 := by
    rw [f2]; omega
  have hacq1 : ∀ c ∈ c0 :: cs, (acquireFB c.1 (setFPS rnd R s).2 c.2).1 ≠ none := by
    intro c hc
    rw [acquireFB_congr c.1 s _ c.2 g2 g3]
    exact hacq c hc
  obtain ⟨a1, -, -⟩ := presentAll_deadline (setFPS rnd R s).2 c0 cs (by rw [g1]; exact hun) hns
    hacq1 hsec hu1 hu2 (by rw [f1]; exact hfit)
  rw [a1, f1, f2]
  have : ((Int.toNat (Int.floor (rnd (1000000 / R))) / 1000000 : Nat) : Int) * 1000000000
      + ((Int.toNat (Int.floor (rnd (1000000 / R))) % 1000000 * 1000 : Nat) : Int)
      = (Int.toNat (Int.floor (rnd (1000000 / R))) : Int) * 1000 := by
    omega
  rw [this]

/-- C10 (as amended). Pacing bound: after `setFPS(R)` with a `float` rate `R > 0`
whose rounded quotient fits the 64-bit variable, starting with an unarmed clock,
the first presentation captures a baseline with `tv_sec > 0` and `N - 1`
presentations follow (without overflow of the seconds).  The deadline of the
`N`-th presentation is the baseline plus `(N - 1) * u` microseconds, where `u`
is the integer part of the `float` quotient `1000000 / R`: at least
`(N - 1) * ((1 - 2^-24) / R - 10^-6)` seconds and at most
`(N - 1) * (1 + 2^-24) / R` seconds after the baseline. -/
theorem pacing_bound (R : ℚ) (s : NvDrmRenderer) (c0 : HwEnv × Int)
    (cs : List (HwEnv × Int)) (hF : isF32 R) (hR : 0 < R)
    (hfitR : roundF32 (1000000 / R) < 18446744073709551616)
    (hun : s.last_render_time.tv_sec = 0)
    (hacq : ∀ c ∈ c0 :: cs, (acquireFB c.1 s c.2).1 ≠ none)
    (hsec : 0 < c0.1.now.tv_sec) (hu1 : 0 ≤ c0.1.now.tv_usec) (hu2 : c0.1.now.tv_usec < 1000000)
    (hfit : c0.1.now.tv_sec
        + cs.length * ((Int.toNat (Int.floor (roundF32 (1000000 / R))) / 1000000 : Nat) + 1)
        < 9223372036854775808) :
    totalNs (presentAll (setFPS roundF32 R s).2 (c0 :: cs)).last_render_time
      = c0.1.now.tv_sec * 1000000000 + c0.1.now.tv_usec * 1000
        + cs.length * ((Int.toNat (Int.floor (roundF32 (1000000 / R))) : Int) * 1000) ∧
    ((totalNs (presentAll (setFPS roundF32 R s).2 (c0 :: cs)).last_render_time : ℚ)
      ≤ (c0.1.now.tv_sec * 1000000000 + c0.1.now.tv_usec * 1000 : Int)
        + cs.length * (1000000000 / R * (1 + 1 / 2 ^ 24))) ∧
    (((c0.1.now.tv_sec * 1000000000 + c0.1.now.tv_usec * 1000 : Int) : ℚ)
        + cs.length * (1000000000 / R * (1 - 1 / 2 ^ 24) - 1000)
      ≤ totalNs (presentAll (setFPS roundF32 R s).2 (c0 :: cs)).last_render_time) := by
  obtain ⟨h0, b1, b2⟩ := quotient_bounds R hF hR hfitR
  have key := setFPS_presentAll roundF32 R s c0 cs (ne_of_gt hR) h0 hfitR hun hacq hsec hu1 hu2
    hfit
  have hdiv : (1000000000 / R : ℚ) = 1000000 / R * 1000 := by ring
  have hlen : (0 : ℚ) ≤ (cs.length : ℚ) := Nat.cast_nonneg _
  refine ⟨key, ?_, ?_⟩
  · rw [key, hdiv]
    push_cast
    have : ((Int.toNat (Int.floor (roundF32 (1000000 / R))) : Nat) : ℚ) * 1000
        ≤ 1000000 / R * 1000 * (1 + 1 / 2 ^ 24) := by linarith
    have := mul_le_mul_of_nonneg_left this hlen
    linarith
  · rw [key, hdiv]
    push_cast
    have : (1000000 / R * 1000 * (1 - 1 / 2 ^ 24) - 1000 : ℚ)
        ≤ ((Int.toNat (Int.floor (roundF32 (1000000 / R))) : Nat) : ℚ) * 1000 := by
      linarith
    have := mul_le_mul_of_nonneg_left this hlen
    linarith

theorem init_setFPS (nv : Bool) : (setFPS roundF32 30 (init nv)).2 = init nv := by
  have hne : (30 : ℚ) ≠ 0 := by norm_num
  have hu : floatToU64 (roundF32 (1000000 / 30)) = 33333 := by
    rw [floatToU64_exact _ (by rw [roundF32_thirty]; norm_num)
      (by rw [roundF32_thirty]; norm_num), floor_thirty]
    rfl
  unfold setFPS
  rw [if_neg hne]
  simp only [hu]
  rfl

/-- Witness of C10: 30 frames per second, baseline 1000 s, two presentations. -/
theorem pacing_bound_witness :
    totalNs (presentAll (setFPS roundF32 30 (init false)).2
        [(okEnv 7, 1), (okEnv 8, 2)]).last_render_time
      = (okEnv 7).now.tv_sec * 1000000000 + (okEnv 7).now.tv_usec * 1000
        + ([(okEnv 8, (2 : Int))].length : Int)
          * ((Int.toNat (Int.floor (roundF32 (1000000 / 30))) : Int) * 1000) ∧
    ((totalNs (presentAll (setFPS roundF32 30 (init false)).2
        [(okEnv 7, 1), (okEnv 8, 2)]).last_render_time : ℚ)
      ≤ ((okEnv 7).now.tv_sec * 1000000000 + (okEnv 7).now.tv_usec * 1000 : Int)
        + ([(okEnv 8, (2 : Int))].length : ℚ) * (1000000000 / 30 * (1 + 1 / 2 ^ 24))) ∧
    ((((okEnv 7).now.tv_sec * 1000000000 + (okEnv 7).now.tv_usec * 1000 : Int) : ℚ)
        + ([(okEnv 8, (2 : Int))].length : ℚ) * (1000000000 / 30 * (1 - 1 / 2 ^ 24) - 1000)
      ≤ totalNs (presentAll (setFPS roundF32 30 (init false)).2
          [(okEnv 7, 1), (okEnv 8, 2)]).last_render_time) :=
  pacing_bound 30 (init false) (okEnv 7, 1) [(okEnv 8, 2)] isF32_thirty (by norm_num)
    (by rw [roundF32_thirty]; norm_num) rfl
    (by intro c hc
        simp only [List.mem_cons, List.mem_singleton, List.not_mem_nil, or_false] at hc
        rcases hc with h | h <;> subst h <;> decide)
    (by decide) (by decide) (by decide)
    (by rw [floor_thirty]; decide)

/-- Counterexample to C10 as stated: at `R = 30` and `N = 2`, baseline 1000 s, the
deadline of the second presentation is 33333000 ns after the baseline, less
than `(N - 1) / R` seconds, which is 33333333.33 ns. -/
theorem pacing_bound_counterexample :
    isF32 30 ∧
    totalNs (presentAll (setFPS roundF32 30 (init false)).2
        [(okEnv 7, 1), (okEnv 8, 2)]).last_render_time = 1000033333000 ∧
    ((1000033333000 : ℚ) < 1000000000000 + (2 - 1) * (1000000000 / 30)) := by
  refine ⟨isF32_thirty, ?_, by norm_num⟩
  have key := setFPS_presentAll roundF32 30 (init false) (okEnv 7, 1) [(okEnv 8, 2)]
    (by norm_num) (by rw [roundF32_thirty]; norm_num) (by rw [roundF32_thirty]; norm_num) rfl
    (by intro c hc
        simp only [List.mem_cons, List.mem_singleton, List.not_mem_nil, or_false] at hc
        rcases hc with h | h <;> subst h <;> decide)
    (by decide) (by decide) (by decide) (by rw [floor_thirty]; decide)
  rw [key, floor_thirty]
  decide

/-! ### Presentations that succeed -/

theorem importPlanes_ok (env : HwEnv) (nv : Bool) (fd : Int) (h1 : ∀ i, env.primeRet i = 0)
    (h2 : ∀ i, 0 ≤ env.tilingRet i) :
    ∀ (k i : Nat) (bo : List Nat) (evs : List Event),
      (importPlanes env nv fd k i bo evs).1 = true := by
  intro k
  induction k with
  | zero => intro i bo evs; rfl
  | succ k ih =>
    intro i bo evs
    unfold importPlanes
    have hp : ¬ env.primeRet i ≠ 0 := by simp [h1 i]
    have ht : ¬ env.tilingRet i < 0 := not_lt.mpr (h2 i)
    simp only [if_neg hp, if_neg ht]
    cases nv with
    | true => simp only [if_true]; exact ih _ _ _
    | false => simp only [Bool.false_eq_true, if_false]; exact ih _ _ _

theorem NvBufGetDrmParams_some (surf : NvBufSurface) (d : NvBufDrmParams) :
    (NvBufGetDrmParams (some surf) (some d)).2 ≠ none := by
  unfold NvBufGetDrmParams
  simp only
  split <;> simp

theorem acquireFB_ok (env : HwEnv) (s : NvDrmRenderer) (fd : Int) (hok : env.succeedsOn fd)
    (hmap : s.map_list = []) : (acquireFB env s fd).1 ≠ none := by
  obtain ⟨⟨surf, hsurf, hret⟩, hprime, htile, hadd, hplane, -, -⟩ := hok
  have himp := importPlanes_ok env s.is_nvidia_drm fd hprime htile
  unfold acquireFB
  rw [hmap]
  simp only [List.lookup, hsurf]
  have hsome := NvBufGetDrmParams_some surf ⟨0, [], [], none⟩
  rcases hg : NvBufGetDrmParams (some surf) (some ⟨0, [], [], none⟩) with ⟨ret, _ | dParams⟩
  · rw [hg] at hsome
    exact absurd rfl hsome
  · rw [hg] at hret
    simp only at hret
    have hr : ¬ ret < 0 := by omega
    simp only [if_neg hr]
    have hi := himp dParams.num_planes 0 [0, 0, 0, 0] []
    rcases hip : importPlanes env s.is_nvidia_drm fd dParams.num_planes 0 [0, 0, 0, 0] []
      with ⟨ok, bo, evs⟩
    rw [hip] at hi
    simp only at hi
    subst hi
    have ha : ¬ env.addFbRet ≠ 0 := by simp [hadd]
    have hpl : ¬ (setPlane env 0 env.addFbId).1 ≠ 0 := by simp [hplane]
    simp only [if_neg ha, if_neg hpl]
    simp

theorem renderInternal_ok (env : HwEnv) (fd : Int) (s : NvDrmRenderer)
    (hok : env.succeedsOn fd) (hmap : s.map_list = []) (hnv : s.is_nvidia_drm = false) :
    (renderInternal env fd s).1 = 0 ∧
    (renderInternal env fd s).2.flippedFd = fd ∧
    (renderInternal env fd s).2.flipPending = true ∧
    (renderInternal env fd s).2.inFlight = s.inFlight + 1 ∧
    rendered (renderInternal env fd s).2.trace = rendered s.trace ++ [fd] ∧
    activeSeq (renderInternal env fd s).2.trace = activeSeq s.trace := by
  obtain ⟨hr, ha, ho⟩ := renderInternal_outcome env fd s
  have hacq := acquireFB_ok env s fd hok hmap
  have hflip : env.flipRet = 0 := hok.2.2.2.2.2.1
  rcases ho with ⟨-, o2, -⟩ | ⟨-, o2, -, -, ⟨-, -, o3, -⟩ | ⟨o1, o3, o4, -⟩⟩
  · exact absurd o2 hacq
  · exact absurd hflip o3
  · refine ⟨o1, o2, o3, ?_, hr, ha⟩
    rw [o4, hnv]
    simp

theorem prefix_of_snoc_prefix {a hs : List Int} {b e : Int}
    (h : (a ++ [b]) <+: (hs ++ [e])) : a <+: hs := by
  have h1 : a <+: hs ++ [e] := (List.prefix_append a [b]).trans h
  have h2 : hs <+: hs ++ [e] := List.prefix_append hs [e]
  have hl := h.length_le
  simp only [List.length_append, List.length_singleton] at hl
  exact List.prefix_of_prefix_length_le h1 h2 (by omega)

theorem snoc_prefix_of_ne {a hs : List Int} {b e : Int}
    (h : (a ++ [b]) <+: (hs ++ [e])) (hne : b ≠ e) : (a ++ [b]) <+: hs := by
  have h2 : hs <+: hs ++ [e] := List.prefix_append hs [e]
  have hl := h.length_le
  simp only [List.length_append, List.length_singleton] at hl
  by_cases hlen : a.length + 1 ≤ hs.length
  · exact List.prefix_of_prefix_length_le h h2 (by simpa using hlen)
  · have heq : a ++ [b] = hs ++ [e] :=
      h.eq_of_length (by simp only [List.length_append, List.length_singleton]; omega)
    have hla : a.length = hs.length := by omega
    have := (List.append_inj heq hla).2
    simp only [List.cons.injEq, and_true] at this
    exact absurd this hne

theorem eq_of_snoc_prefix {a hs : List Int} {e : Int}
    (h : (a ++ [e]) <+: (hs ++ [e])) (hmem : e ∉ hs) : a = hs := by
  have h1 : a <+: hs := prefix_of_snoc_prefix h
  have h2 : hs <+: hs ++ [e] := List.prefix_append hs [e]
  by_cases hlen : a.length + 1 ≤ hs.length
  · have h3 : (a ++ [e]) <+: hs :=
      List.prefix_of_prefix_length_le h h2 (by simpa using hlen)
    have : e ∈ hs := h3.subset (by simp)
    exact absurd this hmem
  · have hl := h1.length_le
    exact h1.eq_of_length (by omega)

theorem nil_of_sentinel_prefix {a rest hs : List Int} {e : Int}
    (h : (a ++ e :: rest) <+: (hs ++ [e])) (hmem : e ∉ hs) : rest = [] ∧ a = hs := by
  have h0 : (a ++ [e]) <+: (a ++ e :: rest) := by
    have : a ++ e :: rest = (a ++ [e]) ++ rest := by simp
    rw [this]
    exact List.prefix_append _ _
  have ha : a = hs := eq_of_snoc_prefix (h0.trans h) hmem
  have hl := h.length_le
  rw [ha] at hl
  simp only [List.length_append, List.length_cons, List.length_nil] at hl
  have : rest.length = 0 := by omega
  exact ⟨List.length_eq_zero.mp this, ha⟩

theorem InvDrain_enque (hs sub : List Int) (env : HwEnv) (fd : Int) (s : NvDrmRenderer)
    (hsent : (-1 : Int) ∉ hs) (hinv : InvDrain hs sub s)
    (hpre : (sub ++ [fd]) <+: (hs ++ [-1])) (hcrtc : env.setCrtcRet = 0)
    (hok : ∀ h ∈ hs, env.succeedsOn h) :
    InvDrain hs (sub ++ [fd]) (enqueBuffer env fd s).2 := by
  obtain ⟨hnv, hmap, herr, hcase⟩ := hinv
  rcases hcase with ⟨w1, w2, w3, w4, w5, w6, w7, w8, w9, w10⟩ |
    ⟨pre, x, a1, a2, a3, a4, a5, a6, a7, a8, a9, a10, a11, a12⟩ |
    ⟨pre, x, b1, b2, b3, b4, b5, b6, b7, b8, b9, b10, b11, b12, b13⟩ |
    ⟨pre, x, c1, c2, c3, c4, c5, c6, c7, c8, c9, c10⟩
  · have hq : ¬ (s.renderingStarted = true ∧ s.flipPending = false) := by
      rw [w9]; simp
    rw [enque_queued env fd s herr hq]
    refine ⟨hnv, hmap, herr, Or.inl ⟨w1, ?_, w3, w4, w5, w6, w7, w8, w9, w10⟩⟩
    show s.pendingBuffers ++ [fd] = sub ++ [fd]
    rw [w2]
  · have hq : ¬ (s.renderingStarted = true ∧ s.flipPending = false) := by
      rw [a5]; simp
    rw [enque_queued env fd s herr hq]
    refine ⟨hnv, hmap, herr, Or.inr (Or.inl ⟨pre, x, a1, a2, a3, a4, a5, a6, a7, ?_, a9, a10,
      a11, a12⟩)⟩
    show sub ++ [fd] = pre ++ [x] ++ (s.pendingBuffers ++ [fd])
    rw [a8]
    simp
  · have hq : s.pendingBuffers ++ [fd] = fd :: [] := by rw [b6]; rfl
    have hx : x ∈ hs := b8.subset (by simp)
    have hxne : x ≠ -1 := fun h => hsent (h ▸ hx)
    by_cases hfd : fd = -1
    · subst hfd
      rw [enque_eos env (-1) s [] herr b2 b5 hq]
      have hc : ¬ env.setCrtcRet ≠ 0 := by simp [hcrtc]
      rw [if_neg hc]
      refine ⟨hnv, hmap, herr, Or.inr (Or.inr (Or.inr ⟨pre, x, b1, rfl, b4, rfl, ?_, b8, ?_, ?_,
        ?_, ?_⟩))⟩
      · show rendered (s.trace ++ [Event.setCrtcZero env.setCrtcRet]) = pre ++ [x]
        rw [(blank_seqs s.trace env.setCrtcRet).1, b7]
      · rw [b9]
      · show activeSeq (s.trace ++ [Event.setCrtcZero env.setCrtcRet]) = pre ++ [x]
        rw [(blank_seqs s.trace env.setCrtcRet).2.2, b11]
      · show (if s.activeFd ≠ -1 then s.freeBuffers ++ [s.activeFd] else s.freeBuffers)
          = pre ++ [x]
        rw [b13, if_pos hxne, b12]
      · show (s.trace ++ [Event.setCrtcZero env.setCrtcRet]).getLast? = some (Event.setCrtcZero 0)
        rw [hcrtc]
        simp
    · rw [enque_render env fd s fd [] herr b2 b5 hq hfd]
      have hpf : (pre ++ [x] ++ [fd]) <+: hs := by
        rw [b9] at hpre
        exact snoc_prefix_of_ne hpre hfd
      have hfdmem : fd ∈ hs := hpf.subset (by simp)
      have hq2 := renderInternal_frame env fd { s with pendingBuffers := [] }
      unfold sameQueues at hq2
      obtain ⟨q1, q2, q3, q4, q5, q6, q7, q8, q9, -⟩ := hq2
      obtain ⟨r1, r2, r3, r4, r5, r6⟩ :=
        renderInternal_ok env fd { s with pendingBuffers := [] } (hok fd hfdmem) hmap hnv
      generalize renderInternal env fd { s with pendingBuffers := [] } = r at *
      refine ⟨q7.trans hnv, q8.trans hmap, q6.trans herr,
        Or.inr (Or.inl ⟨pre ++ [x], fd, q9.trans b1, q4.trans b2, q5.trans b3, ?_, r3, ?_, hpf, ?_,
          r2, ?_, ?_, ?_⟩)⟩
      · rw [r4]
        show s.inFlight + 1 = 1
        rw [b4]
      · rw [r5]
        show rendered s.trace ++ [fd] = pre ++ [x] ++ [fd]
        rw [b7]
      · rw [q1, b9]
        simp
      · rw [r6]
        exact b11
      · rw [q2]
        show s.freeBuffers = (pre ++ [x]).dropLast
        rw [b12]
        simp
      · rw [q3]
        show s.activeFd = (pre ++ [x]).getLastD (-1)
        rw [b13]
        simp
  · exfalso
    have h1 : sub <+: hs := prefix_of_snoc_prefix hpre
    have : (-1 : Int) ∈ sub := by rw [c7]; simp
    exact hsent (h1.subset this)

theorem InvDrain_handler (hs sub : List Int) (env : HwEnv) (t : NvDrmRenderer)
    (pre : List Int) (x : Int) (hsent : (-1 : Int) ∉ hs)
    (hnv : t.is_nvidia_drm = false) (hmap : t.map_list = []) (herr : t.is_in_error = false)
    (a1 : t.thread = ThreadPhase.running) (a2 : t.renderingStarted = true)
    (a3 : t.stop_thread = false) (a4 : t.inFlight = 0)
    (a6 : rendered t.trace = pre ++ [x]) (a7 : (pre ++ [x]) <+: hs)
    (a8 : sub = pre ++ [x] ++ t.pendingBuffers) (a9 : t.flippedFd = x)
    (a10 : activeSeq t.trace = pre) (a11 : t.freeBuffers = pre.dropLast)
    (a12 : t.activeFd = pre.getLastD (-1))
    (hpre : sub <+: (hs ++ [-1])) (hcrtc : env.setCrtcRet = 0)
    (hok : ∀ h ∈ hs, env.succeedsOn h) :
    InvDrain hs sub (page_flip_handler env t) := by
  obtain ⟨f1, f2, f3, f4, f5, f6, f7, f8, f9, f10, f11, f12, f13⟩ :=
    retireActive_fields t
  obtain ⟨g1, g2, g3⟩ := retireActive_seqs t
  have hx : x ∈ hs := a7.subset (by simp)
  have hfree : (retireActive t).freeBuffers = pre := by
    rw [f2, a11, a12]
    rcases List.eq_nil_or_concat pre with hp | ⟨p, y, hp⟩
    · subst hp
      simp
    · subst hp
      have hy : y ∈ hs := a7.subset (by simp)
      have hyne : y ≠ -1 := fun h => hsent (h ▸ hy)
      simp [hyne]
  have hin : (retireActive t).inFlight = 0 := by
    rw [f11, a4]
  have hact : activeSeq (retireActive t).trace
      = pre ++ [x] := by
    rw [g3, a10, a9]
  have hrend : rendered (retireActive t).trace
      = pre ++ [x] := by
    rw [g1, a6]
  cases hp : t.pendingBuffers with
  | nil =>
    rw [handler_empty env _ hp]
    refine ⟨f9.trans hnv, f10.trans hmap, f8.trans herr,
      Or.inr (Or.inr (Or.inl ⟨pre, x, f12.trans a1, f6.trans a2, f7.trans a3, hin, rfl,
        f1.trans hp, hrend, a7, ?_, f4.trans a9, hact, hfree, f3.trans a9⟩))⟩
    rw [a8, hp]
    simp
  | cons fd rest =>
    by_cases hfd : fd = -1
    · subst hfd
      rw [handler_eos env _ rest hp]
      have hc : ¬ env.setCrtcRet ≠ 0 := by simp [hcrtc]
      rw [if_neg hc]
      have hrest : rest = [] := by
        rw [a8, hp] at hpre
        rw [List.append_assoc] at hpre
        have := nil_of_sentinel_prefix (a := pre ++ [x]) (by simpa using hpre) hsent
        exact this.1
      refine ⟨f9.trans hnv, f10.trans hmap, f8.trans herr,
        Or.inr (Or.inr (Or.inr ⟨pre, x, f12.trans a1, rfl, hin, hrest, ?_, a7, ?_, ?_, ?_, ?_⟩))⟩
      · show rendered ((retireActive t).trace
          ++ [Event.setCrtcZero env.setCrtcRet]) = pre ++ [x]
        rw [(blank_seqs _ env.setCrtcRet).1, hrend]
      · rw [a8, hp, hrest]
      · show activeSeq ((retireActive t).trace
          ++ [Event.setCrtcZero env.setCrtcRet]) = pre ++ [x]
        rw [(blank_seqs _ env.setCrtcRet).2.2, hact]
      · show (retireActive t).freeBuffers
          ++ [(retireActive t).activeFd] = pre ++ [x]
        rw [hfree, f3, a9]
      · show ((retireActive t).trace
          ++ [Event.setCrtcZero env.setCrtcRet]).getLast? = some (Event.setCrtcZero 0)
        rw [hcrtc]
        simp
    · rw [handler_render env _ fd rest hp hfd]
      have hpf : (pre ++ [x] ++ [fd]) <+: hs := by
        rw [a8, hp] at hpre
        have h1 : (pre ++ [x] ++ [fd]) <+: (pre ++ [x] ++ fd :: rest) := by
          have : pre ++ [x] ++ fd :: rest = (pre ++ [x] ++ [fd]) ++ rest := by simp
          rw [this]
          exact List.prefix_append _ _
        exact snoc_prefix_of_ne (h1.trans hpre) hfd
      have hfdmem : fd ∈ hs := hpf.subset (by simp)
      have hq2 := renderInternal_frame env fd
        { retireActive t with pendingBuffers := rest }
      unfold sameQueues at hq2
      obtain ⟨q1, q2, q3, q4, q5, q6, q7, q8, q9, -⟩ := hq2
      obtain ⟨r1, r2, r3, r4, r5, r6⟩ := renderInternal_ok env fd
        { retireActive t with pendingBuffers := rest }
        (hok fd hfdmem) (f10.trans hmap) (f9.trans hnv)
      generalize renderInternal env fd
        { retireActive t with pendingBuffers := rest }
        = r at *
      refine ⟨q7.trans (f9.trans hnv), q8.trans (f10.trans hmap), q6.trans (f8.trans herr),
        Or.inr (Or.inl ⟨pre ++ [x], fd, q9.trans (f12.trans a1), q4.trans (f6.trans a2),
          q5.trans (f7.trans a3), ?_, r3, ?_, hpf, ?_, r2, ?_, ?_, ?_⟩)⟩
      · rw [r4]
        show (retireActive t).inFlight + 1 = 1
        rw [hin]
      · rw [r5]
        show rendered (retireActive t).trace ++ [fd]
          = pre ++ [x] ++ [fd]
        rw [hrend]
      · rw [q1, a8, hp]
        simp
      · rw [r6]
        exact hact
      · rw [q2]
        show (retireActive t).freeBuffers
          = (pre ++ [x]).dropLast
        rw [hfree]
        simp
      · rw [q3]
        show (retireActive t).activeFd
          = (pre ++ [x]).getLastD (-1)
        rw [f3, a9]
        simp

theorem InvDrain_fetch (hs sub : List Int) (env : HwEnv) (s s1 : NvDrmRenderer)
    (hinv : InvDrain hs sub s) (hw : s.thread = ThreadPhase.waiting)
    (hpre : sub <+: (hs ++ [-1])) (hne : hs ≠ [])
    (hok : ∀ h ∈ hs, env.succeedsOn h) (hst : renderThreadFetch env s = some s1) :
    InvDrain hs sub s1 := by
  obtain ⟨hnv, hmap, herr, hcase⟩ := hinv
  rcases hcase with ⟨w1, w2, w3, w4, w5, w6, w7, w8, w9, w10⟩ |
    ⟨pre, x, a1, -⟩ | ⟨pre, x, b1, -⟩ | ⟨pre, x, c1, -⟩
  · cases hp : s.pendingBuffers with
    | nil => rw [fetch_none env s hp] at hst; exact absurd hst (by simp)
    | cons fd rest =>
      rw [fetch_eq env s fd rest hp] at hst
      have hsub : sub = fd :: rest := by rw [← w2, hp]
      obtain ⟨h0, hs', hhs⟩ := List.exists_cons_of_ne_nil hne
      have hfd0 : fd = h0 := by
        rw [hsub, hhs] at hpre
        simp only [List.cons_append] at hpre
        exact (List.cons_prefix_cons.mp hpre).1
      have hfdmem : fd ∈ hs := by rw [hhs, hfd0]; simp
      have hpf : ([] ++ [fd]) <+: hs := by
        rw [hhs, hfd0]
        simp only [List.nil_append]
        exact List.cons_prefix_cons.mpr ⟨rfl, List.nil_prefix⟩
      have hq2 := renderInternal_frame env fd { s with pendingBuffers := rest }
      unfold sameQueues at hq2
      obtain ⟨q1, q2, q3, q4, q5, q6, q7, q8, q9, -⟩ := hq2
      obtain ⟨r1, r2, r3, r4, r5, r6⟩ :=
        renderInternal_ok env fd { s with pendingBuffers := rest } (hok fd hfdmem) hmap hnv
      generalize renderInternal env fd { s with pendingBuffers := rest } = r at *
      have hr : ¬ r.1 < 0 := by rw [r1]; decide
      rw [if_neg hr] at hst
      simp only [Option.some.injEq] at hst
      rw [← hst]
      refine ⟨q7.trans hnv, q8.trans hmap, q6.trans herr,
        Or.inr (Or.inl ⟨[], fd, rfl, rfl, q5.trans w10, ?_, r3, ?_, hpf, ?_, r2, ?_, ?_, ?_⟩)⟩
      · show r.2.inFlight = 1
        rw [r4]
        show s.inFlight + 1 = 1
        rw [w8]
      · show rendered r.2.trace = [] ++ [fd]
        rw [r5]
        show rendered s.trace ++ [fd] = [] ++ [fd]
        rw [w3]
      · show sub = [] ++ [fd] ++ r.2.pendingBuffers
        rw [q1, hsub]
        rfl
      · show activeSeq r.2.trace = []
        rw [r6]
        exact w4
      · show r.2.freeBuffers = [].dropLast
        rw [q2]
        exact w5
      · show r.2.activeFd = [].getLastD (-1)
        rw [q3]
        exact w6
  · rw [a1] at hw; exact absurd hw (by decide)
  · rw [b1] at hw; exact absurd hw (by decide)
  · rw [c1] at hw; exact absurd hw (by decide)

theorem submitted_cons (a : Action) (as : List Action) :
    submitted (a :: as) = submitted [a] ++ submitted as := by
  cases a <;> simp [submitted]

theorem InvDrain_step (hs sub : List Int) (s s1 : NvDrmRenderer) (a : Action)
    (hne : hs ≠ []) (hsent : (-1 : Int) ∉ hs) (hinv : InvDrain hs sub s)
    (hpre : (sub ++ submitted [a]) <+: (hs ++ [-1]))
    (hok : ∀ h ∈ hs, a.env.succeedsOn h) (hst : step s a = some s1) :
    InvDrain hs (sub ++ submitted [a]) s1 := by
  obtain ⟨h0, hs', hhs⟩ := List.exists_cons_of_ne_nil hne
  have hcrtc : a.env.setCrtcRet = 0 := (hok h0 (by rw [hhs]; simp)).2.2.2.2.2.2
  cases a with
  | enque fd env =>
    simp only [step, Option.some.injEq] at hst
    rw [← hst]
    exact InvDrain_enque hs sub env fd s hsent hinv hpre hcrtc hok
  | fetch env =>
    have hsub : sub ++ submitted [Action.fetch env] = sub := by simp [submitted]
    rw [hsub] at hpre ⊢
    simp only [step] at hst
    split at hst
    · rename_i hw
      exact InvDrain_fetch hs sub env s s1 hinv hw hpre hne hok hst
    · exact absurd hst (by simp)
  | flipDone env =>
    have hsub : sub ++ submitted [Action.flipDone env] = sub := by simp [submitted]
    rw [hsub] at hpre ⊢
    simp only [step] at hst
    obtain ⟨hnv, hmap, herr, hcase⟩ := hinv
    split at hst
    · have hn : ¬ s.is_nvidia_drm = true := by rw [hnv]; simp
      rw [if_neg hn] at hst
      split at hst
      · rename_i hpos
        simp only [Option.some.injEq] at hst
        rw [← hst]
        rcases hcase with ⟨-, -, -, -, -, -, -, w8, -⟩ |
          ⟨pre, x, a1, a2, a3, a4, a5, a6, a7, a8, a9, a10, a11, a12⟩ |
          ⟨pre, x, -, -, -, b4, -⟩ | ⟨pre, x, -, -, c3, -⟩
        · omega
        · exact InvDrain_handler hs sub env { s with inFlight := s.inFlight - 1 } pre x hsent
            hnv hmap herr a1 a2 a3 (by show s.inFlight - 1 = 0; omega) a6 a7 a8 a9 a10 a11 a12
            hpre hcrtc hok
        · omega
        · omega
      · exact absurd hst (by simp)
    · exact absurd hst (by simp)

theorem InvDrain_run (hs : List Int) (hne : hs ≠ []) (hsent : (-1 : Int) ∉ hs)
    (acts : List Action) :
    ∀ (sub : List Int) (s s1 : NvDrmRenderer), InvDrain hs sub s →
      (sub ++ submitted acts) <+: (hs ++ [-1]) →
      (∀ a ∈ acts, ∀ h ∈ hs, a.env.succeedsOn h) → run s acts = some s1 →
      InvDrain hs (sub ++ submitted acts) s1 := by
  induction acts with
  | nil =>
    intro sub s s1 h _ _ hr
    simp only [run, Option.some.injEq] at hr
    rw [← hr]
    simpa [submitted] using h
  | cons a as ih =>
    intro sub s s1 h hpre hok hr
    simp only [run] at hr
    cases hst : step s a with
    | none => rw [hst] at hr; exact absurd hr (by simp)
    | some s2 =>
      rw [hst] at hr
      rw [submitted_cons, ← List.append_assoc] at hpre ⊢
      have hpre1 : (sub ++ submitted [a]) <+: (hs ++ [-1]) :=
        (List.prefix_append _ _).trans hpre
      have h2 := InvDrain_step hs sub s s2 a hne hsent h hpre1
        (hok a (List.mem_cons_self _ _)) hst
      exact ih (sub ++ submitted [a]) s2 s1 h2 hpre
        (fun b hb => hok b (List.mem_cons_of_mem _ hb)) hr

theorem InvDrain_init (hs : List Int) : InvDrain hs [] (init false) := by
  refine ⟨rfl, rfl, rfl, Or.inl ⟨rfl, rfl, rfl, rfl, rfl, rfl, rfl, rfl, rfl, rfl⟩⟩

/-- C1 (as amended). FIFO presentation: in every run of `enqueBuffer`, first-fetch and
`page_flip_handler` steps from the constructed renderer, in either mode, with no
-1 submitted, the handles passed to `renderInternal` are a prefix of the handles
submitted, in submission order; the values of `flippedFd` are a subsequence of
them in the same order (a handle whose presentation fails before the flip is left
out; all of them, hence a prefix of the submissions, when every presentation
reaches its flip), and with page-flip events the values of `activeFd` are a
subsequence of those.  With page-flip events and every request succeeding on the
submitted handles, the values of `flippedFd` and of `activeFd` are prefixes of
the submissions as well. -/
theorem fifo_presentation (nv : Bool) (acts : List Action) (s : NvDrmRenderer)
    (hsub : ∀ h ∈ submitted acts, h ≠ -1) (hr : run (init nv) acts = some s) :
    rendered s.trace <+: submitted acts ∧
    (rendered s.trace ++ s.pendingBuffers) <+: submitted acts ∧
    (flippedSeq s.trace).Sublist (rendered s.trace) ∧
    ((flippedSeq s.trace).length = (rendered s.trace).length →
        flippedSeq s.trace <+: submitted acts) ∧
    (nv = false → (activeSeq s.trace).Sublist (flippedSeq s.trace)) ∧
    (nv = false → (∀ a ∈ acts, ∀ h ∈ submitted acts, a.env.succeedsOn h) →
        flippedSeq s.trace <+: submitted acts ∧ activeSeq s.trace <+: submitted acts) := by
  have hfifo := InvFifo_run acts [] (init nv) s (InvFifo_init nv) hsub hr
  have hflight := InvFlight_run acts (init nv) s (InvFlight_init nv) hr
  have horder := InvOrder_run acts (init nv) s (InvFlight_init nv) (InvOrder_init nv) hr
  have hnv : s.is_nvidia_drm = nv := (run_static acts (init nv) s hr).1
  simp only [List.nil_append] at hfifo
  have hpre : rendered s.trace <+: submitted acts :=
    (List.prefix_append _ _).trans hfifo.1
  have hact : nv = false → (activeSeq s.trace).Sublist (flippedSeq s.trace) := by
    intro hn
    rw [← hnv] at hn
    obtain ⟨h0, h1⟩ := horder.2 hn
    have hle := hflight.1
    by_cases hz : s.inFlight = 0
    · exact h0 hz
    · obtain ⟨pre, hpre2, hs2⟩ := h1 (by omega)
      rw [hpre2]
      exact hs2.trans (List.sublist_append_left _ _)
  refine ⟨hpre, hfifo.1, horder.1, ?_, hact, ?_⟩
  · intro hlen
    rw [horder.1.eq_of_length hlen]
    exact hpre
  · intro hn hok
    subst hn
    have hsent : (-1 : Int) ∉ submitted acts := fun hm => hsub _ hm rfl
    by_cases hem : submitted acts = []
    · have hr0 : rendered s.trace = [] := by
        rw [hem] at hpre
        exact List.prefix_nil.mp hpre
      have hf0 : flippedSeq s.trace = [] := by
        have := horder.1
        rw [hr0] at this
        exact List.sublist_nil.mp this
      have ha0 : activeSeq s.trace = [] := by
        have := hact rfl
        rw [hf0] at this
        exact List.sublist_nil.mp this
      rw [hf0, ha0]
      exact ⟨List.nil_prefix, List.nil_prefix⟩
    · have hinv := InvDrain_run (submitted acts) hem hsent acts [] (init false) s
        (InvDrain_init _) (by rw [List.nil_append]; exact List.prefix_append _ _) hok hr
      rw [List.nil_append] at hinv
      obtain ⟨hev, -, -, hcase⟩ := hinv
      rcases hcase with ⟨-, -, w3, w4, -⟩ |
        ⟨pre, x, -, -, -, a4, -, a6, a7, -, -, a10, -⟩ |
        ⟨pre, x, -, -, -, b4, -, -, b7, b8, -, -, b11, -⟩ |
        ⟨pre, x, -, -, -, -, -, -, c7, -⟩
      · have hf0 : flippedSeq s.trace = [] := by
          have := horder.1
          rw [w3] at this
          exact List.sublist_nil.mp this
        rw [hf0, w4]
        exact ⟨List.nil_prefix, List.nil_prefix⟩
      · obtain ⟨pre2, hp2, hs2⟩ := (horder.2 hev).2 a4
        have hsubl := horder.1
        have hl1 := hs2.length_le
        have hl2 := hsubl.length_le
        rw [a10] at hl1
        rw [hp2, a6] at hl2
        simp only [List.length_append, List.length_singleton] at hl2
        have hlen : (flippedSeq s.trace).length = (rendered s.trace).length := by
          rw [hp2, a6]
          simp only [List.length_append, List.length_singleton]
          omega
        rw [hsubl.eq_of_length hlen, a10]
        refine ⟨hpre, ?_⟩
        exact (List.prefix_append pre [x]).trans a7
      · have hs1 := (horder.2 hev).1 b4
        have hsubl := horder.1
        have hl1 := hs1.length_le
        have hl2 := hsubl.length_le
        have hlen : (flippedSeq s.trace).length = (rendered s.trace).length := by
          rw [b11] at hl1
          rw [b7] at hl2 ⊢
          omega
        rw [hsubl.eq_of_length hlen, b11, ← b7]
        exact ⟨hpre, hpre⟩
      · exfalso
        have : (-1 : Int) ∈ submitted acts := by rw [c7]; simp
        exact hsent this

/-- Witness of C1 on the sample run. -/
theorem fifo_presentation_witness :
    (rendered demoState.trace <+: submitted demoRun ∧
    (rendered demoState.trace ++ demoState.pendingBuffers) <+: submitted demoRun ∧
    (flippedSeq demoState.trace).Sublist (rendered demoState.trace) ∧
    ((flippedSeq demoState.trace).length = (rendered demoState.trace).length →
        flippedSeq demoState.trace <+: submitted demoRun) ∧
    (false = false → (activeSeq demoState.trace).Sublist (flippedSeq demoState.trace)) ∧
    (false = false → (∀ a ∈ demoRun, ∀ h ∈ submitted demoRun, a.env.succeedsOn h) →
        flippedSeq demoState.trace <+: submitted demoRun ∧
        activeSeq demoState.trace <+: submitted demoRun)) ∧
    submitted demoRun = [1, 2] ∧ rendered demoState.trace = [1, 2] ∧
    flippedSeq demoState.trace = [1, 2] ∧ activeSeq demoState.trace = [1] :=
  ⟨fifo_presentation false demoRun demoState (by decide) demoRun_eq,
    by decide, by decide, by decide, by decide⟩

/-- C1, counterexample.  Handle 13, submitted between 1 and 2, has no surface behind
it: its presentation fails before `flippedFd` is written, and handle 2 is shown
next.  The handles passed to `renderInternal` are the submissions 1, 13, 2, but
the values of `flippedFd` and of `activeFd` are 1, 2, which is not a prefix of
the submissions. -/
theorem fifo_skipped_handle_counterexample :
    run (init false) skipRun = some skipState ∧
    submitted skipRun = [1, 13, 2] ∧
    rendered skipState.trace = [1, 13, 2] ∧
    flippedSeq skipState.trace = [1, 2] ∧
    activeSeq skipState.trace = [1, 2] ∧
    ¬ (flippedSeq skipState.trace <+: submitted skipRun) ∧
    ¬ (activeSeq skipState.trace <+: submitted skipRun) := by
  refine ⟨rfl, by decide, by decide, by decide, by decide, by decide, by decide⟩

/-! ### Runs on which the code departs from the specification -/

/-- C3 (code evaluated at the failing input). With `renderThreadOrin` the handler runs
without any flip: handle 1 is presented once, stays the active handle, and is
pushed onto `freeBuffers` by the second and by the third turn of the loop. -/
theorem polling_reclaims_active_twice :
    run (init true) pollRun = some pollState ∧
    rendered pollState.trace = [1] ∧ pollState.activeFd = 1 ∧
    pollState.stop_thread = false ∧ pollState.freeBuffers = [1, 1] ∧
    (run (init true) (pollRun.take 4)).map (fun s => (s.activeFd, s.freeBuffers))
      = some (1, [1]) := by
  refine ⟨rfl, by decide, by decide, by decide, by decide, by decide⟩

/-- C5 (code evaluated at the failing input). After the end-of-stream handle has been
processed (`stop_thread` set, display blanked), `enqueBuffer(9)` returns 0, passes
9 to `renderInternal` and requests its flip. -/
theorem enque_after_eos_presents :
    run (init false) eosRun = some eosState ∧ eosState.stop_thread = true ∧
    eosState.trace.getLast? = some (Event.setCrtcZero 0) ∧
    rendered eosState.trace = [1] ∧
    (enqueBuffer (okEnv 8) 9 eosState).1 = 0 ∧
    rendered (enqueBuffer (okEnv 8) 9 eosState).2.trace = [1, 9] ∧
    (enqueBuffer (okEnv 8) 9 eosState).2.flippedFd = 9 ∧
    Event.pageFlip 8 0 ∈ (enqueBuffer (okEnv 8) 9 eosState).2.trace := by
  refine ⟨rfl, by decide, by decide, by decide, by decide, by decide, by decide, by decide⟩

/-! ### NvBufGetDrmParams -/

theorem NvBufGetDrmParams_null (pd : Option NvBufDrmParams) :
    NvBufGetDrmParams none pd = (-1, pd) := by
  cases pd <;> rfl

theorem NvBufGetDrmParams_fields (surf : NvBufSurface) (d : NvBufDrmParams) :
    ((NvBufGetDrmParams (some surf) (some d)).1 = 0 ∨
      (NvBufGetDrmParams (some surf) (some d)).1 = -1) ∧
    ((NvBufGetDrmParams (some surf) (some d)).1 = 0 ↔ drmFormatOf surf.colorFormat ≠ none) ∧
    ∃ r, (NvBufGetDrmParams (some surf) (some d)).2 = some r ∧
      r.num_planes = surf.num_planes ∧
      r.pitch = (List.range 4).map (fun i => if i < surf.num_planes then arr surf.pitch i else 0) ∧
      r.offset
        = (List.range 4).map (fun i => if i < surf.num_planes then arr surf.offset i else 0) ∧
      r.pixel_format = drmFormatOf surf.colorFormat := by
  unfold NvBufGetDrmParams
  simp only
  cases hc : surf.colorFormat <;> simp [drmFormatOf]

theorem arr_range_map (f : Nat → Nat) (i : Nat) (hi : i < 4) :
    arr ((List.range 4).map f) i = f i := by
  have h : List.range 4 = [0, 1, 2, 3] := rfl
  rw [h]
  have : i = 0 ∨ i = 1 ∨ i = 2 ∨ i = 3 := by omega
  rcases this with h | h | h | h <;> subst h <;> rfl

/-- C18. Pixel-layout translation: for a surface with `num_planes <= 4`,
`NvBufGetDrmParams` returns 0 exactly when both pointers are non-null and the
colour format is one of the eight listed, and -1 otherwise (so for
`NVBUF_COLOR_FORMAT_INVALID` and every other format); on success the result has
the `num_planes` of the surface, its `pitch[i]` and `offset[i]` for `i < num_planes`,
0 for the other entries of the four-element arrays, and the DRM format that
matches the colour format. -/
theorem NvBufGetDrmParams_spec (ps : Option NvBufSurface) (pd : Option NvBufDrmParams)
    (hp : ∀ surf, ps = some surf → surf.num_planes ≤ 4) :
    ((NvBufGetDrmParams ps pd).1 = 0 ↔
      ∃ surf d, ps = some surf ∧ pd = some d ∧ surf.colorFormat ∈ supportedColorFormats) ∧
    ((NvBufGetDrmParams ps pd).1 ≠ 0 → (NvBufGetDrmParams ps pd).1 = -1) ∧
    (∀ surf, ps = some surf → (NvBufGetDrmParams ps pd).1 = 0 →
      ∃ r fmt, (NvBufGetDrmParams ps pd).2 = some r ∧
        r.num_planes = surf.num_planes ∧
        drmFormatOf surf.colorFormat = some fmt ∧ r.pixel_format = some fmt ∧
        r.pitch.length = 4 ∧ r.offset.length = 4 ∧
        (∀ i, i < surf.num_planes → arr r.pitch i = arr surf.pitch i ∧
            arr r.offset i = arr surf.offset i) ∧
        (∀ i, surf.num_planes ≤ i → arr r.pitch i = 0 ∧ arr r.offset i = 0)) ∧
    (∀ surf, ps = some surf →
      surf.colorFormat = NvBufSurfaceColorFormat.NVBUF_COLOR_FORMAT_INVALID ∨
        (∃ tag, surf.colorFormat = NvBufSurfaceColorFormat.other tag) →
      (NvBufGetDrmParams ps pd).1 = -1) := by
  have hsup : ∀ c : NvBufSurfaceColorFormat,
      c ∈ supportedColorFormats ↔ drmFormatOf c ≠ none := by
    intro c
    cases c <;> simp [supportedColorFormats, drmFormatOf]
  cases ps with
  | none =>
    rw [NvBufGetDrmParams_null]
    refine ⟨?_, fun _ => rfl, ?_, ?_⟩
    · simp
    · intro surf h; exact absurd h (by simp)
    · intro surf h; exact absurd h (by simp)
  | some surf =>
    cases pd with
    | none =>
      have h1 : NvBufGetDrmParams (some surf) none = (-1, none) := rfl
      rw [h1]
      refine ⟨?_, fun _ => rfl, ?_, fun _ _ _ => rfl⟩
      · simp
      · intro s1 _ h; exact absurd h (by decide)
    | some d =>
      have hle := hp surf rfl
      obtain ⟨h01, hiff, r, hr, hn, hpitch, hoff, hfmt⟩ := NvBufGetDrmParams_fields surf d
      refine ⟨?_, ?_, ?_, ?_⟩
      · rw [hiff]
        constructor
        · intro h
          exact ⟨surf, d, rfl, rfl, (hsup _).mpr h⟩
        · rintro ⟨s1, d1, hs1, -, hmem⟩
          cases hs1
          exact (hsup _).mp hmem
      · intro hne
        rcases h01 with h | h
        · exact absurd h hne
        · exact h
      · intro s1 hs1 h0
        cases hs1
        have hsome := hiff.mp h0
        obtain ⟨fmt, hf⟩ := Option.ne_none_iff_exists'.mp hsome
        refine ⟨r, fmt, hr, hn, hf, by rw [hfmt, hf], by rw [hpitch]; simp,
          by rw [hoff]; simp, ?_, ?_⟩
        · intro i hi
          have hi4 : i < 4 := by omega
          rw [hpitch, hoff, arr_range_map _ i hi4, arr_range_map _ i hi4]
          simp [hi]
        · intro i hi
          by_cases hi4 : i < 4
          · rw [hpitch, hoff, arr_range_map _ i hi4, arr_range_map _ i hi4]
            have : ¬ i < surf.num_planes := by omega
            simp [this]
          · rw [hpitch, hoff]
            unfold arr
            constructor <;>
              exact List.getD_eq_default _ _ (by simp; omega)
      · intro s1 hs1 hbad
        cases hs1
        rcases h01 with h | h
        · exfalso
          have hsome := hiff.mp h
          rcases hbad with hb | ⟨tag, hb⟩
          · rw [hb] at hsome; exact hsome rfl
          · rw [hb] at hsome; exact hsome rfl
        · exact h

/-- Witness of C18: a two-plane NV12 surface. -/
theorem NvBufGetDrmParams_spec_witness :
    ((NvBufGetDrmParams (some ⟨2, [1920, 1920], [0, 2073600], .NVBUF_COLOR_FORMAT_NV12⟩)
        (some ⟨0, [], [], none⟩)).1 = 0 ↔
      ∃ surf d, some (⟨2, [1920, 1920], [0, 2073600], .NVBUF_COLOR_FORMAT_NV12⟩ : NvBufSurface)
          = some surf ∧ some (⟨0, [], [], none⟩ : NvBufDrmParams) = some d ∧
        surf.colorFormat ∈ supportedColorFormats) ∧
    NvBufGetDrmParams (some ⟨2, [1920, 1920], [0, 2073600], .NVBUF_COLOR_FORMAT_NV12⟩)
        (some ⟨0, [], [], none⟩)
      = (0, some ⟨2, [1920, 1920, 0, 0], [0, 2073600, 0, 0], some .DRM_FORMAT_NV12⟩) :=
  ⟨(NvBufGetDrmParams_spec (some ⟨2, [1920, 1920], [0, 2073600], .NVBUF_COLOR_FORMAT_NV12⟩)
      (some ⟨0, [], [], none⟩)
      (by intro surf h; cases h; decide)).1, by decide⟩

/-! ### getPlaneIndex -/

theorem crtcBitSet_eq (plane : DrmPlane) (crtc_index : Nat) (h : crtc_index < 32) :
    crtcBitSet plane crtc_index = plane.possible_crtcs.testBit crtc_index := by
  unfold crtcBitSet
  rw [Nat.mod_eq_of_lt h, Nat.one_shiftLeft]
  by_cases hb : plane.possible_crtcs.testBit crtc_index = true
  · rw [hb]
    have : (plane.possible_crtcs &&& 2 ^ crtc_index).testBit crtc_index = true := by
      rw [Nat.testBit_and, hb, Nat.testBit_two_pow_self]
      rfl
    have hne : plane.possible_crtcs &&& 2 ^ crtc_index ≠ 0 := by
      intro h0
      rw [h0, Nat.zero_testBit] at this
      exact absurd this (by decide)
    simp [hne]
  · have hbf : plane.possible_crtcs.testBit crtc_index = false := by simpa using hb
    rw [hbf]
    have : plane.possible_crtcs &&& 2 ^ crtc_index = 0 := by
      by_contra hne
      obtain ⟨i, hi⟩ := Nat.ne_zero_implies_bit_true hne
      rw [Nat.testBit_and, Nat.testBit_two_pow] at hi
      simp only [Bool.and_eq_true, decide_eq_true_eq] at hi
      rw [← hi.2, hbf] at hi
      exact absurd hi.1 (by decide)
    simp [this]

theorem planeLoop_spec (crtc : Nat) :
    ∀ (ps : List (Option DrmPlane)) (i count : Nat) (idx : List Int) (m : List Nat),
      count = m.length → m.length ≤ i → i + ps.length ≤ idx.length →
      (∀ (j : Nat) (v : Nat), m[j]? = some v → idx[j]? = some (toI32 v)) →
      (∀ (j : Nat), m.length ≤ j → j < i → idx[j]? = some (-1)) →
      (planeLoop crtc ps i count idx).1 = (m ++ matchFrom crtc ps i).length ∧
      (planeLoop crtc ps i count idx).2.length = idx.length ∧
      (∀ (j : Nat) (v : Nat), (m ++ matchFrom crtc ps i)[j]? = some v →
          ((planeLoop crtc ps i count idx).2)[j]? = some (toI32 v)) ∧
      (∀ (j : Nat), (m ++ matchFrom crtc ps i).length ≤ j → j < i + ps.length →
          ((planeLoop crtc ps i count idx).2)[j]? = some (-1)) ∧
      (∀ (j : Nat), i + ps.length ≤ j → ((planeLoop crtc ps i count idx).2)[j]? = idx[j]?) := by
  intro ps
  induction ps with
  | nil =>
    intro i count idx m hc _ _ h1 h2
    refine ⟨?_, rfl, ?_, ?_, fun _ _ => rfl⟩
    · simpa [planeLoop, matchFrom] using hc
    · simpa [planeLoop, matchFrom] using h1
    · simpa [planeLoop, matchFrom] using h2
  | cons p ps ih =>
    intro i count idx m hc hmi hlen h1 h2
    simp only [List.length_cons] at hlen
    have hi : i < idx.length := by omega
    have hkeep : ∀ (j : Nat) (v : Nat), m[j]? = some v → (idx.set i (-1))[j]? = some (toI32 v) := by
      intro j v hv
      have hj : j < m.length := by
        by_contra hge
        rw [List.getElem?_eq_none (by omega)] at hv
        exact absurd hv (by simp)
      rw [List.getElem?_set_ne (by omega)]
      exact h1 j v hv
    have hblank : ∀ (j : Nat), m.length ≤ j → j < i + 1 → (idx.set i (-1))[j]? = some (-1) := by
      intro j hj1 hj2
      by_cases hji : j = i
      · subst hji
        exact List.getElem?_set_self hi
      · rw [List.getElem?_set_ne (fun h => hji h.symm)]
        exact h2 j hj1 (by omega)
    have skip : (planeLoop crtc ps (i + 1) count (idx.set i (-1))).1
          = (m ++ matchFrom crtc ps (i + 1)).length ∧
        (planeLoop crtc ps (i + 1) count (idx.set i (-1))).2.length = idx.length ∧
        (∀ (j : Nat) (v : Nat), (m ++ matchFrom crtc ps (i + 1))[j]? = some v →
            (planeLoop crtc ps (i + 1) count (idx.set i (-1))).2[j]? = some (toI32 v)) ∧
        (∀ (j : Nat), (m ++ matchFrom crtc ps (i + 1)).length ≤ j → j < i + (ps.length + 1) →
            (planeLoop crtc ps (i + 1) count (idx.set i (-1))).2[j]? = some (-1)) ∧
        (∀ (j : Nat), i + (ps.length + 1) ≤ j →
            (planeLoop crtc ps (i + 1) count (idx.set i (-1))).2[j]? = idx[j]?) := by
      obtain ⟨r1, r2, r3, r4, r5⟩ := ih (i + 1) count (idx.set i (-1)) m hc (by omega)
        (by rw [List.length_set]; omega) hkeep hblank
      refine ⟨r1, by rw [r2, List.length_set], r3, ?_, ?_⟩
      · intro j hj1 hj2
        exact r4 j hj1 (by omega)
      · intro j hj
        rw [r5 j (by omega), List.getElem?_set_ne (by omega)]
    cases p with
    | none =>
      simp only [planeLoop, matchFrom, List.length_cons]
      exact skip
    | some plane =>
      by_cases hb : crtcBitSet plane crtc = true
      · simp only [planeLoop, matchFrom, hb, if_true, List.length_cons]
        have hcl : count < (idx.set i (-1)).length := by rw [List.length_set]; omega
        have hkeep2 : ∀ (j : Nat) (v : Nat), (m ++ [i])[j]? = some v →
            ((idx.set i (-1)).set count (toI32 i))[j]? = some (toI32 v) := by
          intro j v hv
          by_cases hj : j < m.length
          · rw [List.getElem?_append_left hj] at hv
            rw [List.getElem?_set_ne (by omega)]
            exact hkeep j v hv
          · by_cases hj2 : j = m.length
            · subst hj2
              rw [List.getElem?_append_right (le_refl _)] at hv
              simp only [Nat.sub_self, List.getElem?_cons_zero, Option.some.injEq] at hv
              subst hv
              rw [← hc]
              exact List.getElem?_set_self hcl
            · rw [List.getElem?_eq_none (by simp; omega)] at hv
              exact absurd hv (by simp)
        have hblank2 : ∀ (j : Nat), (m ++ [i]).length ≤ j → j < i + 1 →
            ((idx.set i (-1)).set count (toI32 i))[j]? = some (-1) := by
          intro j hj1 hj2
          simp only [List.length_append, List.length_singleton] at hj1
          rw [List.getElem?_set_ne (by omega)]
          exact hblank j (by omega) hj2
        obtain ⟨r1, r2, r3, r4, r5⟩ := ih (i + 1) (count + 1)
          ((idx.set i (-1)).set count (toI32 i)) (m ++ [i]) (by simp [hc])
          (by simp only [List.length_append, List.length_singleton]; omega)
          (by rw [List.length_set, List.length_set]; omega) hkeep2 hblank2
        have hassoc : m ++ [i] ++ matchFrom crtc ps (i + 1)
            = m ++ i :: matchFrom crtc ps (i + 1) := by simp
        rw [hassoc] at r1 r3 r4
        refine ⟨r1, by rw [r2, List.length_set, List.length_set], r3, ?_, ?_⟩
        · intro j hj1 hj2
          exact r4 j hj1 (by omega)
        · intro j hj
          rw [r5 j (by omega), List.getElem?_set_ne (by omega),
            List.getElem?_set_ne (by omega)]
      · simp only [planeLoop, matchFrom, hb, Bool.false_eq_true, if_false, List.length_cons]
        exact skip

theorem matchFrom_mem (crtc : Nat) :
    ∀ (ps : List (Option DrmPlane)) (i x : Nat),
      x ∈ matchFrom crtc ps i ↔
        i ≤ x ∧ ∃ plane, ps[x - i]? = some (some plane) ∧ crtcBitSet plane crtc = true := by
  intro ps
  induction ps with
  | nil =>
    intro i x
    simp [matchFrom]
  | cons p ps ih =>
    intro i x
    have hshift : ∀ y, i + 1 ≤ y → (p :: ps)[y - i]? = ps[y - (i + 1)]? := by
      intro y hy
      have : y - i = (y - (i + 1)) + 1 := by omega
      rw [this, List.getElem?_cons_succ]
    have hrec : x ∈ matchFrom crtc ps (i + 1) ↔
        i ≤ x ∧ x ≠ i ∧ ∃ plane, (p :: ps)[x - i]? = some (some plane) ∧
          crtcBitSet plane crtc = true := by
      rw [ih (i + 1) x]
      constructor
      · rintro ⟨h1, h2⟩
        rw [← hshift x h1] at h2
        exact ⟨by omega, by omega, h2⟩
      · rintro ⟨h1, h2, h3⟩
        have h4 : i + 1 ≤ x := by omega
        rw [hshift x h4] at h3
        exact ⟨h4, h3⟩
    have hzero : (p :: ps)[i - i]? = some p := by simp
    cases p with
    | none =>
      simp only [matchFrom]
      rw [hrec]
      constructor
      · rintro ⟨h1, -, h3⟩
        exact ⟨h1, h3⟩
      · rintro ⟨h1, h3⟩
        refine ⟨h1, ?_, h3⟩
        intro hx
        subst hx
        obtain ⟨pl, hpl, -⟩ := h3
        rw [hzero] at hpl
        exact absurd hpl (by simp)
    | some plane =>
      by_cases hb : crtcBitSet plane crtc = true
      · simp only [matchFrom, hb, if_true, List.mem_cons]
        rw [hrec]
        constructor
        · rintro (hx | ⟨h1, -, h3⟩)
          · subst hx
            exact ⟨le_refl _, plane, hzero, hb⟩
          · exact ⟨h1, h3⟩
        · rintro ⟨h1, h3⟩
          by_cases hx : x = i
          · exact Or.inl hx
          · exact Or.inr ⟨h1, hx, h3⟩
      · simp only [matchFrom, hb, Bool.false_eq_true, if_false]
        rw [hrec]
        constructor
        · rintro ⟨h1, -, h3⟩
          exact ⟨h1, h3⟩
        · rintro ⟨h1, h3⟩
          refine ⟨h1, ?_, h3⟩
          intro hx
          subst hx
          obtain ⟨pl, hpl, hbit⟩ := h3
          rw [hzero] at hpl
          simp only [Option.some.injEq] at hpl
          subst hpl
          exact hb hbit

theorem matchFrom_sorted (crtc : Nat) :
    ∀ (ps : List (Option DrmPlane)) (i : Nat), (matchFrom crtc ps i).Pairwise (· < ·) := by
  intro ps
  induction ps with
  | nil => intro i; simp [matchFrom]
  | cons p ps ih =>
    intro i
    cases p with
    | none => simp only [matchFrom]; exact ih (i + 1)
    | some plane =>
      by_cases hb : crtcBitSet plane crtc = true
      · simp only [matchFrom, hb, if_true, List.pairwise_cons]
        refine ⟨?_, ih (i + 1)⟩
        intro x hx
        have := ((matchFrom_mem crtc ps (i + 1) x).mp hx).1
        omega
      · simp only [matchFrom, hb, Bool.false_eq_true, if_false]
        exact ih (i + 1)

theorem getPlaneIndex_eq (env : HwEnv) (planes : List (Option DrmPlane)) (crtc : Nat)
    (idx : List Int) (h : env.planeRes = some planes) :
    getPlaneIndex env crtc (some idx)
      = (toI32 (planeLoop crtc planes 0 0 idx).1, some (planeLoop crtc planes 0 0 idx).2) := by
  unfold getPlaneIndex
  simp only [h]

theorem toI32_small (n : Nat) (h : n < 2147483648) : toI32 n = (n : Int) := by
  unfold toI32
  split <;> omega

theorem planeServes_iff (planes : List (Option DrmPlane)) (crtc i : Nat) :
    planeServes planes crtc i = true ↔
      ∃ plane, planes[i]? = some (some plane) ∧ plane.possible_crtcs.testBit crtc = true := by
  unfold planeServes
  rw [List.getD_eq_getElem?_getD]
  cases h : planes[i]? with
  | none => simp
  | some p =>
    cases p with
    | none => simp
    | some plane => simp

/-- C19 (as amended). Result layout of `getPlaneIndex` for a list of `n < 2^31`
planes, `crtc_index < 32` and an array `plane_index` of length at least `n`: the
function returns the number `c` of planes whose lookup succeeds and whose
`possible_crtcs` has bit `crtc_index` set; `plane_index[0..c)` holds the indices
of exactly those planes in strictly ascending order, `plane_index[c..n)` is all
-1, the entries from `n` on are untouched; with a null `plane_index` it returns 0
and writes nothing. -/
theorem getPlaneIndex_layout (env : HwEnv) (planes : List (Option DrmPlane)) (crtc : Nat)
    (idx : List Int) (hres : env.planeRes = some planes) (hc : crtc < 32)
    (hlen : planes.length ≤ idx.length) (hn : planes.length < 2147483648) :
    (∃ (m : List Nat) (idx1 : List Int),
      getPlaneIndex env crtc (some idx) = ((m.length : Int), some idx1) ∧
      m.Pairwise (· < ·) ∧
      (∀ i, i ∈ m ↔ i < planes.length ∧ planeServes planes crtc i = true) ∧
      idx1.length = idx.length ∧
      (∀ (j : Nat) (v : Nat), m[j]? = some v → idx1[j]? = some (v : Int)) ∧
      (∀ (j : Nat), m.length ≤ j → j < planes.length → idx1[j]? = some (-1)) ∧
      (∀ (j : Nat), planes.length ≤ j → idx1[j]? = idx[j]?)) ∧
    getPlaneIndex env crtc none = (0, none) := by
  refine ⟨?_, rfl⟩
  obtain ⟨r1, r2, r3, r4, r5⟩ := planeLoop_spec crtc planes 0 0 idx [] rfl (le_refl _)
    (by simpa using hlen) (by intro j v h; exact absurd h (by simp))
    (by intro j _ h; exact absurd h (by omega))
  simp only [List.nil_append, Nat.zero_add] at r1 r3 r4 r5
  have hmem : ∀ i, i ∈ matchFrom crtc planes 0 ↔
      i < planes.length ∧ planeServes planes crtc i = true := by
    intro i
    rw [matchFrom_mem, planeServes_iff]
    simp only [Nat.zero_le, Nat.sub_zero, true_and]
    constructor
    · rintro ⟨plane, h1, h2⟩
      have hi : i < planes.length := by
        by_contra hge
        rw [List.getElem?_eq_none (by omega)] at h1
        exact absurd h1 (by simp)
      exact ⟨hi, plane, h1, by rw [← crtcBitSet_eq plane crtc hc]; exact h2⟩
    · rintro ⟨-, plane, h1, h2⟩
      exact ⟨plane, h1, by rw [crtcBitSet_eq plane crtc hc]; exact h2⟩
  have hbound : ∀ v, v ∈ matchFrom crtc planes 0 → v < 2147483648 := by
    intro v hv
    have := ((hmem v).mp hv).1
    omega
  have hcount : (matchFrom crtc planes 0).length ≤ planes.length := by
    have hnd : (matchFrom crtc planes 0).Nodup :=
      (matchFrom_sorted crtc planes 0).imp (fun h => Nat.ne_of_lt h)
    have hsub : matchFrom crtc planes 0 ⊆ List.range planes.length := by
      intro v hv
      exact List.mem_range.mpr ((hmem v).mp hv).1
    have := (List.subperm_of_subset hnd hsub).length_le
    simpa using this
  refine ⟨matchFrom crtc planes 0, (planeLoop crtc planes 0 0 idx).2, ?_,
    matchFrom_sorted crtc planes 0, hmem, r2, ?_, r4, r5⟩
  · rw [getPlaneIndex_eq env planes crtc idx hres, r1, toI32_small _ (by omega)]
  · intro j v hv
    rw [r3 j v hv, toI32_small v (hbound v (List.getElem?_mem hv))]

/-- Witness of C19: three planes, the second lookup fails, crtc 1. -/
theorem getPlaneIndex_layout_witness :
    ((∃ (m : List Nat) (idx1 : List Int),
      getPlaneIndex (okEnvPlanes threePlanes) 1 (some [9, 9, 9, 9])
        = ((m.length : Int), some idx1) ∧
      m.Pairwise (· < ·) ∧
      (∀ i, i ∈ m ↔ i < threePlanes.length ∧ planeServes threePlanes 1 i = true) ∧
      idx1.length = [(9 : Int), 9, 9, 9].length ∧
      (∀ (j : Nat) (v : Nat), m[j]? = some v → idx1[j]? = some (v : Int)) ∧
      (∀ (j : Nat), m.length ≤ j → j < threePlanes.length → idx1[j]? = some (-1)) ∧
      (∀ (j : Nat), threePlanes.length ≤ j → idx1[j]? = [(9 : Int), 9, 9, 9][j]?)) ∧
    getPlaneIndex (okEnvPlanes threePlanes) 1 none = (0, none)) ∧
    getPlaneIndex (okEnvPlanes threePlanes) 1 (some [9, 9, 9, 9]) = (2, some [0, 2, -1, 9]) :=
  ⟨getPlaneIndex_layout (okEnvPlanes threePlanes) threePlanes 1 [9, 9, 9, 9] rfl (by decide)
    (by decide) (by decide), by decide⟩

theorem matchFrom_replicate_none (crtc : Nat) (rest : List (Option DrmPlane)) :
    ∀ (k i : Nat), matchFrom crtc (List.replicate k none ++ rest) i
      = matchFrom crtc rest (i + k) := by
  intro k
  induction k with
  | zero => intro i; rfl
  | succ k ih =>
    intro i
    rw [List.replicate_succ, List.cons_append]
    show matchFrom crtc (List.replicate k none ++ rest) (i + 1) = _
    rw [ih (i + 1)]
    congr 1
    omega

/-- Counterexample to C19 as stated: `2^31 + 1` planes of which only the last, at
index `2^31`, can serve crtc 0.  The function returns 1, and the entry
`plane_index[0]` is `-2^31`, which is not the index of a plane: the index does
not fit the `int32_t` entry. -/
theorem getPlaneIndex_wide_counterexample :
    ∃ idx1, getPlaneIndex (okEnvPlanes manyPlanes) 0 (some (List.replicate 2147483649 0))
        = (1, some idx1) ∧
      idx1[0]? = some (-2147483648) := by
  have hlenp : manyPlanes.length = 2147483649 := by
    unfold manyPlanes
    rw [List.length_append, List.length_replicate]
    rfl
  have hleni : (List.replicate 2147483649 (0 : Int)).length = 2147483649 :=
    List.length_replicate _ _
  have hm : matchFrom 0 manyPlanes 0 = [2147483648] := by
    unfold manyPlanes
    rw [matchFrom_replicate_none]
    rfl
  obtain ⟨r1, -, r3, -, -⟩ := planeLoop_spec 0 manyPlanes 0 0 (List.replicate 2147483649 0) []
    rfl (le_refl _) (by rw [hlenp, hleni]) (by intro j v h; exact absurd h (by simp))
    (by intro j _ h; exact absurd h (by omega))
  rw [List.nil_append, hm] at r1 r3
  refine ⟨(planeLoop 0 manyPlanes 0 0 (List.replicate 2147483649 0)).2, ?_, ?_⟩
  · rw [getPlaneIndex_eq (okEnvPlanes manyPlanes) manyPlanes 0 _ rfl, r1]
    rfl
  · rw [r3 0 2147483648 rfl]
    rfl

/-! ### The log of one call of `renderInternal` -/

theorem pace_trace (env : HwEnv) (s : NvDrmRenderer) :
    (pace env s).trace = s.trace ++ paceEvents s := by
  unfold pace paceEvents
  by_cases h : s.last_render_time.tv_sec ≠ 0
  · simp [if_pos h]
  · simp [if_neg h]

theorem flipStage_trace (env : HwEnv) (fd : Int) (fb n : Nat) (bo : List Nat)
    (s : NvDrmRenderer) :
    (flipStage env fd fb n bo s).2.trace
      = s.trace ++ [Event.flipped fd] ++ flipEvents env fb n bo s := by
  unfold flipStage flipEvents closeEvents
  by_cases hnvd : s.is_nvidia_drm = true
  · simp [hnvd]
  · have hnvf : s.is_nvidia_drm = false := by simpa using hnvd
    by_cases hflip : env.flipRet ≠ 0
    · simp [hnvf, hflip]
    · have hflip0 : env.flipRet = 0 := by simpa using hflip
      simp [hnvf, hflip0]

theorem renderInternal_fail_eq (env : HwEnv) (fd : Int) (s : NvDrmRenderer)
    (evs : List Event) (hacq : acquireFB env s fd = (none, evs)) :
    renderInternal env fd s = (-1, s.log (Event.renderCall fd :: evs)) := by
  unfold renderInternal
  rw [hacq]

theorem renderInternal_trace (env : HwEnv) (fd : Int) (s : NvDrmRenderer) (fb n : Nat)
    (bo : List Nat) (evs : List Event) (hacq : acquireFB env s fd = (some (fb, n, bo), evs)) :
    (renderInternal env fd s).2.trace
      = s.trace ++ (Event.renderCall fd :: evs) ++ paceEvents s ++ [Event.flipped fd]
        ++ flipEvents env fb n bo s := by
  unfold renderInternal
  rw [hacq]
  simp only
  rw [flipStage_trace, pace_trace]
  obtain ⟨lq, -, -, -, l4, l5, l6⟩ := log_fields s (Event.renderCall fd :: evs)
  obtain ⟨pq, -, -, -, p4, -⟩ := pace_fields env (s.log (Event.renderCall fd :: evs))
  unfold sameQueues at lq pq
  have h1 : paceEvents (s.log (Event.renderCall fd :: evs)) = paceEvents s := by
    unfold paceEvents
    rw [l5, lq.2.2.2.2.2.2.2.2.2.2.1, lq.2.2.2.2.2.2.2.2.2.2.2]
  have h2 : flipEvents env fb n bo (pace env (s.log (Event.renderCall fd :: evs)))
      = flipEvents env fb n bo s := by
    unfold flipEvents
    rw [pq.2.2.2.2.2.2.1, lq.2.2.2.2.2.2.1, p4, l4]
  rw [h1, h2, l6]

theorem acquireFB_translation (env : HwEnv) (s : NvDrmRenderer) (fd : Int)
    (h : translationFails env s fd) : acquireFB env s fd = (none, []) := by
  obtain ⟨hmap, hfail⟩ := h
  unfold acquireFB
  rw [hmap]
  rcases hfail with hn | ⟨surf, hs, hret⟩
  · simp only [hn]
  · simp only [hs]
    rcases hg : NvBufGetDrmParams (some surf) (some ⟨0, [], [], none⟩) with ⟨ret, _ | dParams⟩
    · rfl
    · rw [hg] at hret
      simp only at hret
      simp only [if_pos hret]

theorem pageFlips_setup (evs : List Event) (h : ∀ e ∈ evs, e.isSetupCall = true) :
    pageFlips evs = [] := by
  unfold pageFlips
  rw [List.filter_eq_nil_iff]
  intro e he
  have := h e he
  cases e <;> simp_all [Event.isSetupCall]

theorem removals_setup (evs : List Event) (h : ∀ e ∈ evs, e.isSetupCall = true) :
    removals evs = [] := by
  unfold removals
  rw [List.filter_eq_nil_iff]
  intro e he
  have := h e he
  cases e <;> simp_all [Event.isSetupCall]

theorem pageFlips_paceEvents (s : NvDrmRenderer) : pageFlips (paceEvents s) = [] := by
  unfold paceEvents pageFlips
  split <;> simp

theorem removals_paceEvents (s : NvDrmRenderer) : removals (paceEvents s) = [] := by
  unfold paceEvents removals
  split <;> simp

/-! ### C12: a rejected flip request -/

theorem pageFlips_append (a b : List Event) : pageFlips (a ++ b) = pageFlips a ++ pageFlips b := by
  unfold pageFlips
  exact List.filter_append a b

theorem removals_append (a b : List Event) : removals (a ++ b) = removals a ++ removals b := by
  unfold removals
  exact List.filter_append a b

theorem flipEvents_rejected (env : HwEnv) (fb n : Nat) (bo : List Nat) (s : NvDrmRenderer)
    (hnv : s.is_nvidia_drm = false) (hrej : env.flipRet ≠ 0) :
    flipEvents env fb n bo s = [Event.pageFlip fb env.flipRet] := by
  unfold flipEvents
  rw [if_pos ⟨hnv, hrej⟩]

/-- C12. In event-driven mode, when `renderInternal` gets as far as the page-flip
request (the framebuffer `fb` for the handle was obtained) and the driver rejects
that request, the call returns -1 with `flipPending` false, the log gains exactly
one flip request, the one for `fb`, and no framebuffer removal, and `last_fb`, the
pending queue, the free pool and the number of flips awaited are as before. -/
theorem flip_request_rejected (env : HwEnv) (fd : Int) (s : NvDrmRenderer) (fb n : Nat)
    (bo : List Nat) (evs : List Event)
    (hnv : s.is_nvidia_drm = false)
    (hacq : acquireFB env s fd = (some (fb, n, bo), evs))
    (hrej : env.flipRet ≠ 0) :
    (renderInternal env fd s).1 = -1 ∧
    (renderInternal env fd s).2.flipPending = false ∧
    pageFlips (renderInternal env fd s).2.trace
      = pageFlips s.trace ++ [Event.pageFlip fb env.flipRet] ∧
    removals (renderInternal env fd s).2.trace = removals s.trace ∧
    (renderInternal env fd s).2.last_fb = s.last_fb ∧
    (renderInternal env fd s).2.pendingBuffers = s.pendingBuffers ∧
    (renderInternal env fd s).2.freeBuffers = s.freeBuffers ∧
    (renderInternal env fd s).2.inFlight = s.inFlight := by
  have hev := acquireFB_events env s fd
  rw [hacq] at hev
  have htr := renderInternal_trace env fd s fb n bo evs hacq
  rw [flipEvents_rejected env fb n bo s hnv hrej] at htr
  have hfr := renderInternal_frame env fd s
  have hout := renderInternal_outcome env fd s
  have hsome : (acquireFB env s fd).1 ≠ none := by rw [hacq]; simp
  obtain ⟨-, -, hcase⟩ := hout
  rcases hcase with ⟨-, hnone, -⟩ | ⟨-, -, -, -, hcase2⟩
  · exact absurd hnone hsome
  · rcases hcase2 with ⟨hret, -, -, hfp, hfl, hlast⟩ | ⟨-, -, -, hok⟩
    · refine ⟨hret, hfp, ?_, ?_, hlast, hfr.1, hfr.2.1, hfl⟩
      · rw [htr]
        simp only [pageFlips_append, pageFlips_paceEvents, List.append_nil]
        have h1 : pageFlips (Event.renderCall fd :: evs) = [] := by
          have := pageFlips_setup evs hev
          unfold pageFlips at this ⊢
          rw [List.filter_cons]
          simpa using this
        rw [h1]
        simp [pageFlips]
      · rw [htr]
        simp only [removals_append, removals_paceEvents, List.append_nil]
        have h1 : removals (Event.renderCall fd :: evs) = [] := by
          have := removals_setup evs hev
          unfold removals at this ⊢
          rw [List.filter_cons]
          simpa using this
        rw [h1]
        simp [removals]
    · exact absurd (hok hnv) hrej

theorem flip_request_rejected_witness :
    (renderInternal (rejectEnv 8) 2 idleState).1 = -1 ∧
    (renderInternal (rejectEnv 8) 2 idleState).2.flipPending = false ∧
    pageFlips (renderInternal (rejectEnv 8) 2 idleState).2.trace
      = pageFlips idleState.trace ++ [Event.pageFlip 8 (rejectEnv 8).flipRet] ∧
    removals (renderInternal (rejectEnv 8) 2 idleState).2.trace = removals idleState.trace ∧
    (renderInternal (rejectEnv 8) 2 idleState).2.last_fb = idleState.last_fb ∧
    (renderInternal (rejectEnv 8) 2 idleState).2.pendingBuffers = idleState.pendingBuffers ∧
    (renderInternal (rejectEnv 8) 2 idleState).2.freeBuffers = idleState.freeBuffers ∧
    (renderInternal (rejectEnv 8) 2 idleState).2.inFlight = idleState.inFlight :=
  flip_request_rejected (rejectEnv 8) 2 idleState 8 2 [100, 101, 0, 0]
    [Event.primeFDToHandle 2 0, Event.setTiling 100 0, Event.primeFDToHandle 2 0,
     Event.setTiling 101 0, Event.addFB2 8 0, Event.setPlane 40 8 0]
    rfl rfl (by decide)

/-! ### C13: what `enqueBuffer` does on the calling thread -/

theorem operations_append (a b : List Event) :
    operations (a ++ b) = operations a ++ operations b := by
  unfold operations
  exact List.filter_append a b

/-- C13 (as amended). `enqueBuffer` with `is_in_error` set returns -1 and changes
nothing.  Otherwise, when rendering has not started or a flip is pending, it
returns 0 and its only effect is the handle appended to the pending queue: no
driver call and no pacing wait.  Otherwise (rendering started, no flip pending) the
calling thread itself takes the front of the queue: a handle other than -1 is
presented by `renderInternal` on that thread, and for -1 the thread issues the
blanking mode-set and no other driver call. -/
theorem enqueBuffer_cases (env : HwEnv) (fd : Int) (s : NvDrmRenderer) :
    (s.is_in_error = true → enqueBuffer env fd s = (-1, s)) ∧
    (s.is_in_error = false → ¬ (s.renderingStarted = true ∧ s.flipPending = false) →
      enqueBuffer env fd s = (0, { s with pendingBuffers := s.pendingBuffers ++ [fd] }) ∧
      operations (enqueBuffer env fd s).2.trace = operations s.trace) ∧
    (s.is_in_error = false → s.renderingStarted = true → s.flipPending = false →
      ∀ tmpFd rest, s.pendingBuffers ++ [fd] = tmpFd :: rest →
        (tmpFd ≠ -1 →
          enqueBuffer env fd s = renderInternal env tmpFd { s with pendingBuffers := rest }) ∧
        (tmpFd = -1 →
          (enqueBuffer env fd s).2.pendingBuffers = rest ∧
          operations (enqueBuffer env fd s).2.trace
            = operations s.trace ++ [Event.setCrtcZero env.setCrtcRet])) := by
  refine ⟨enque_error env fd s, ?_, ?_⟩
  · intro h h2
    have he := enque_queued env fd s h h2
    refine ⟨he, ?_⟩
    rw [he]
  · intro h h2 h3 tmpFd rest hq
    refine ⟨fun hfd => enque_render env fd s tmpFd rest h h2 h3 hq hfd, ?_⟩
    intro hfd
    subst hfd
    rw [enque_eos env fd s rest h h2 h3 hq]
    by_cases hr : env.setCrtcRet ≠ 0
    · rw [if_pos hr]
      simp [NvDrmRenderer.log, operations_append, operations, Event.isOperation]
    · rw [if_neg hr]
      simp [NvDrmRenderer.log, operations_append, operations, Event.isOperation]

/-- C13, counterexample.  Handle 1 has been shown and its flip confirmed; the call
`enqueBuffer(2)` then leaves the pending queue empty and performs, on the calling
thread, the buffer import, a framebuffer creation, a plane set, a pacing wait, a
flip request and a framebuffer removal. -/
theorem enqueBuffer_presents_counterexample :
    idleState.is_in_error = false ∧
    (enqueBuffer (okEnv 8) 2 idleState).2.pendingBuffers = [] ∧
    operations (enqueBuffer (okEnv 8) 2 idleState).2.trace
      = operations idleState.trace ++
        [Event.primeFDToHandle 2 0, Event.setTiling 100 0, Event.primeFDToHandle 2 0,
         Event.setTiling 101 0, Event.addFB2 8 0, Event.setPlane 40 8 0,
         Event.timedWait ⟨1000, 33333000⟩, Event.pageFlip 8 0, Event.closeGemBo 100,
         Event.closeGemBo 101, Event.rmFB 7] := by
  decide

/-! ### C14: one run of `page_flip_handler` -/

theorem retireActive_more (s : NvDrmRenderer) :
    (retireActive s).last_render_time = s.last_render_time ∧
    (retireActive s).last_fb = s.last_fb ∧
    operations (retireActive s).trace = operations s.trace ∧
    rendered (retireActive s).trace = rendered s.trace ∧
    pageFlips (retireActive s).trace = pageFlips s.trace := by
  unfold retireActive
  by_cases h : s.activeFd ≠ -1
  · simp [if_pos h, operations, rendered, pageFlips, Event.isOperation, List.filter_append,
      List.filterMap_append]
  · simp [if_neg h, operations, rendered, pageFlips, Event.isOperation, List.filter_append,
      List.filterMap_append]

/-- C14 (as amended). `page_flip_handler`, for every state: `activeFd` becomes the old
`flippedFd`, and the old `activeFd` is appended to `freeBuffers` exactly when it
is not -1.  With an empty pending queue it then clears `flipPending`, makes no
driver call and leaves the queue, `flippedFd`, `stop_thread` and the deadline
clock as they were.  With a front handle other than -1 it removes exactly that
handle and presents it with `renderInternal`.  With -1 at the front it removes
the -1 and does not present it: it issues the blanking mode-set and no flip, and
when that succeeds it sets `stop_thread`, clears `flipPending` and appends the
new `activeFd` to `freeBuffers` as well. -/
theorem page_flip_handler_cases (env : HwEnv) (s : NvDrmRenderer) :
    (page_flip_handler env s).activeFd = s.flippedFd ∧
    (s.pendingBuffers = [] →
      page_flip_handler env s = { retireActive s with flipPending := false } ∧
      (page_flip_handler env s).freeBuffers
        = (if s.activeFd ≠ -1 then s.freeBuffers ++ [s.activeFd] else s.freeBuffers) ∧
      (page_flip_handler env s).flipPending = false ∧
      operations (page_flip_handler env s).trace = operations s.trace ∧
      (page_flip_handler env s).pendingBuffers = [] ∧
      (page_flip_handler env s).flippedFd = s.flippedFd ∧
      (page_flip_handler env s).stop_thread = s.stop_thread ∧
      (page_flip_handler env s).last_render_time = s.last_render_time) ∧
    (∀ fd rest, s.pendingBuffers = fd :: rest → fd ≠ -1 →
      page_flip_handler env s
        = (renderInternal env fd { retireActive s with pendingBuffers := rest }).2 ∧
      (page_flip_handler env s).pendingBuffers = rest ∧
      (page_flip_handler env s).freeBuffers
        = (if s.activeFd ≠ -1 then s.freeBuffers ++ [s.activeFd] else s.freeBuffers) ∧
      rendered (page_flip_handler env s).trace = rendered s.trace ++ [fd]) ∧
    (∀ rest, s.pendingBuffers = -1 :: rest →
      (page_flip_handler env s).pendingBuffers = rest ∧
      rendered (page_flip_handler env s).trace = rendered s.trace ∧
      operations (page_flip_handler env s).trace
        = operations s.trace ++ [Event.setCrtcZero env.setCrtcRet] ∧
      (env.setCrtcRet = 0 →
        (page_flip_handler env s).stop_thread = true ∧
        (page_flip_handler env s).flipPending = false ∧
        (page_flip_handler env s).freeBuffers
          = (if s.activeFd ≠ -1 then s.freeBuffers ++ [s.activeFd] else s.freeBuffers)
            ++ [s.flippedFd]) ∧
      (env.setCrtcRet ≠ 0 →
        (page_flip_handler env s).stop_thread = s.stop_thread ∧
        (page_flip_handler env s).flipPending = s.flipPending ∧
        (page_flip_handler env s).freeBuffers
          = (if s.activeFd ≠ -1 then s.freeBuffers ++ [s.activeFd] else s.freeBuffers))) := by
  obtain ⟨r1, r2, r3, r4, r5, r6, r7, r8, r9, r10, r11, r12, r13⟩ := retireActive_fields s
  obtain ⟨m1, m2, m3, m4, m5⟩ := retireActive_more s
  refine ⟨?_, ?_, ?_, ?_⟩
  · rcases hp : s.pendingBuffers with _ | ⟨fd, rest⟩
    · rw [handler_empty env s hp]
      exact r3
    · by_cases hfd : fd = -1
      · subst hfd
        rw [handler_eos env s rest hp]
        by_cases hr : env.setCrtcRet ≠ 0
        · rw [if_pos hr]
          simpa [NvDrmRenderer.log] using r3
        · rw [if_neg hr]
          simpa [NvDrmRenderer.log] using r3
      · rw [handler_render env s fd rest hp hfd]
        have hfr := renderInternal_frame env fd { retireActive s with pendingBuffers := rest }
        rw [hfr.2.2.1]
        exact r3
  · intro hp
    rw [handler_empty env s hp]
    refine ⟨rfl, r2, rfl, m3, ?_, r4, r7, m1⟩
    show (retireActive s).pendingBuffers = []
    rw [r1, hp]
  · intro fd rest hp hfd
    rw [handler_render env s fd rest hp hfd]
    have hfr := renderInternal_frame env fd { retireActive s with pendingBuffers := rest }
    have hout := (renderInternal_outcome env fd { retireActive s with pendingBuffers := rest }).1
    refine ⟨rfl, hfr.1, ?_, ?_⟩
    · rw [hfr.2.1]
      exact r2
    · rw [hout]
      show rendered (retireActive s).trace ++ [fd] = _
      rw [m4]
  · intro rest hp
    rw [handler_eos env s rest hp]
    by_cases hr : env.setCrtcRet ≠ 0
    · rw [if_pos hr]
      refine ⟨rfl, ?_, ?_, fun h0 => absurd h0 hr, fun _ => ⟨r7, r5, r2⟩⟩
      · show rendered ((retireActive s).trace ++ [Event.setCrtcZero env.setCrtcRet]) = _
        rw [← m4]
        simp [rendered, List.filterMap_append]
      · show operations ((retireActive s).trace ++ [Event.setCrtcZero env.setCrtcRet]) = _
        rw [operations_append, m3]
        rfl
    · rw [if_neg hr]
      refine ⟨rfl, ?_, ?_, fun _ => ⟨rfl, rfl, ?_⟩, fun h0 => absurd h0 hr⟩
      · show rendered ((retireActive s).trace ++ [Event.setCrtcZero env.setCrtcRet]) = _
        rw [← m4]
        simp [rendered, List.filterMap_append]
      · show operations ((retireActive s).trace ++ [Event.setCrtcZero env.setCrtcRet]) = _
        rw [operations_append, m3]
        rfl
      · show (retireActive s).freeBuffers ++ [(retireActive s).activeFd] = _
        rw [r2, r3]

/-- C14, counterexample.  Handle 1 is being flipped and the end-of-stream handle -1
is at the front of the pending queue: `page_flip_handler` removes the -1 but does
not present it (no call of `renderInternal`, no flip request); it blanks the
display, and the free pool receives handle 1, which has just become active,
although the old `activeFd` was -1. -/
theorem page_flip_handler_sentinel_counterexample :
    eosWaitState.pendingBuffers = [-1] ∧ eosWaitState.activeFd = -1 ∧
    eosWaitState.freeBuffers = [] ∧
    (page_flip_handler (okEnv 8) eosWaitState).pendingBuffers = [] ∧
    rendered (page_flip_handler (okEnv 8) eosWaitState).trace = rendered eosWaitState.trace ∧
    pageFlips (page_flip_handler (okEnv 8) eosWaitState).trace = pageFlips eosWaitState.trace ∧
    operations (page_flip_handler (okEnv 8) eosWaitState).trace
      = operations eosWaitState.trace ++ [Event.setCrtcZero 0] ∧
    (page_flip_handler (okEnv 8) eosWaitState).freeBuffers = [1] := by
  decide

/-! ### C15: the end-of-stream handle at the first fetch -/

/-- C15 (code evaluated at the failing input). The end-of-stream handle -1 is the first
submission.  The first fetch of the thread passes it to `renderInternal`: when no
surface is found for -1 the thread sets `is_in_error` and ends, with no blanking
request, `stop_thread` clear and an empty free pool; when a surface is found the
handle -1 is flipped like a frame. -/
theorem first_fetch_presents_sentinel :
    run (init false) sentinelFirstRun = some sentinelFirstState ∧
    rendered sentinelFirstState.trace = [-1] ∧
    operations sentinelFirstState.trace = [] ∧
    sentinelFirstState.stop_thread = false ∧
    sentinelFirstState.freeBuffers = [] ∧
    sentinelFirstState.is_in_error = true ∧
    sentinelFirstState.thread = ThreadPhase.exited ∧
    run (init false) sentinelShownRun = some sentinelShownState ∧
    rendered sentinelShownState.trace = [-1] ∧
    pageFlips sentinelShownState.trace = [Event.pageFlip 7 0] ∧
    sentinelShownState.flippedFd = -1 ∧
    sentinelShownState.stop_thread = false := by
  refine ⟨rfl, by decide, by decide, by decide, by decide, by decide, by decide, rfl,
    by decide, by decide, by decide, by decide⟩

/-! ### C11: a handle that cannot be turned into a plane layout -/

theorem renderInternal_translation (env : HwEnv) (fd : Int) (s : NvDrmRenderer)
    (h : translationFails env s fd) :
    renderInternal env fd s = (-1, s.log [Event.renderCall fd]) :=
  renderInternal_fail_eq env fd s [] (acquireFB_translation env s fd h)

theorem translationFails_congr (env : HwEnv) (s t : NvDrmRenderer) (fd : Int)
    (hm : t.map_list = s.map_list) (h : translationFails env s fd) :
    translationFails env t fd := by
  unfold translationFails at h ⊢
  rw [hm]
  exact h

/-- The same failure inside `page_flip_handler`: the result of `renderInternal` is not
looked at, so `flipPending` keeps its value although no flip was requested. -/
theorem handler_translation (env : HwEnv) (s : NvDrmRenderer) (fd : Int) (rest : List Int)
    (hp : s.pendingBuffers = fd :: rest) (hfd : fd ≠ -1) (h : translationFails env s fd) :
    page_flip_handler env s
      = ({ retireActive s with pendingBuffers := rest }).log [Event.renderCall fd] ∧
    (page_flip_handler env s).flipPending = s.flipPending ∧
    (page_flip_handler env s).inFlight = s.inFlight ∧
    (page_flip_handler env s).is_in_error = s.is_in_error := by
  obtain ⟨r1, r2, r3, r4, r5, r6, r7, r8, r9, r10, r11, r12, r13⟩ := retireActive_fields s
  have ht : translationFails env { retireActive s with pendingBuffers := rest } fd :=
    translationFails_congr env s _ fd r10 h
  rw [handler_render env s fd rest hp hfd, renderInternal_translation env fd _ ht]
  exact ⟨rfl, r5, r11, r8⟩

/-- C11 (as amended). When presenting `fd` fails in the translation to a plane layout,
`renderInternal` returns -1 and changes nothing but the log.  When the call was
made from `enqueBuffer`, that call returns -1 with the handle removed, the
renderer is not in error and no flip is pending, so that the next `enqueBuffer`
presents the next handle of the queue.  When the call was made by the first
fetch of the thread, `is_in_error` is set and the thread ends; every later
`enqueBuffer` returns -1 and changes nothing. -/
theorem translation_failure (env : HwEnv) (fd : Int) (s : NvDrmRenderer)
    (h : translationFails env s fd) :
    renderInternal env fd s = (-1, s.log [Event.renderCall fd]) ∧
    (∀ h0 rest, s.is_in_error = false → s.renderingStarted = true → s.flipPending = false →
      s.pendingBuffers ++ [h0] = fd :: rest → fd ≠ -1 →
      enqueBuffer env h0 s
        = (-1, ({ s with pendingBuffers := rest }).log [Event.renderCall fd]) ∧
      ∀ env2 h2 tmpFd rest2, rest ++ [h2] = tmpFd :: rest2 → tmpFd ≠ -1 →
        enqueBuffer env2 h2 (enqueBuffer env h0 s).2
          = renderInternal env2 tmpFd
              { (enqueBuffer env h0 s).2 with pendingBuffers := rest2 }) ∧
    (∀ rest, s.pendingBuffers = fd :: rest →
      ∃ s1, renderThreadFetch env s = some s1 ∧ s1.is_in_error = true ∧
        s1.thread = ThreadPhase.exited ∧ s1.pendingBuffers = rest ∧
        rendered s1.trace = rendered s.trace ++ [fd] ∧
        ∀ env2 h2, enqueBuffer env2 h2 s1 = (-1, s1)) := by
  refine ⟨renderInternal_translation env fd s h, ?_, ?_⟩
  · intro h0 rest herr hstart hflip hq hfd
    have ht : translationFails env { s with pendingBuffers := rest } fd :=
      translationFails_congr env s _ fd rfl h
    have he : enqueBuffer env h0 s
        = (-1, ({ s with pendingBuffers := rest }).log [Event.renderCall fd]) := by
      rw [enque_render env h0 s fd rest herr hstart hflip hq hfd,
        renderInternal_translation env fd _ ht]
    refine ⟨he, ?_⟩
    intro env2 h2 tmpFd rest2 hq2 hfd2
    rw [he]
    exact enque_render env2 h2 _ tmpFd rest2 herr hstart hflip hq2 hfd2
  · intro rest hp
    have ht : translationFails env { s with pendingBuffers := rest } fd :=
      translationFails_congr env s _ fd rfl h
    rw [fetch_eq env s fd rest hp, renderInternal_translation env fd _ ht]
    have hneg : ((-1 : Int),
        ({ s with pendingBuffers := rest }).log [Event.renderCall fd]).1 < 0 :=
      show (-1 : Int) < 0 by decide
    rw [if_pos hneg]
    refine ⟨_, rfl, rfl, rfl, rfl, ?_, ?_⟩
    · simp [NvDrmRenderer.log, rendered, List.filterMap_append]
    · intro env2 h2
      exact enque_error env2 h2 _ rfl

theorem translation_failure_witness :
    renderInternal (strictEnv 8) 13 idleState = (-1, idleState.log [Event.renderCall 13]) ∧
    (∀ h0 rest, idleState.is_in_error = false → idleState.renderingStarted = true →
      idleState.flipPending = false →
      idleState.pendingBuffers ++ [h0] = 13 :: rest → (13 : Int) ≠ -1 →
      enqueBuffer (strictEnv 8) h0 idleState
        = (-1, ({ idleState with pendingBuffers := rest }).log [Event.renderCall 13]) ∧
      ∀ env2 h2 tmpFd rest2, rest ++ [h2] = tmpFd :: rest2 → tmpFd ≠ -1 →
        enqueBuffer env2 h2 (enqueBuffer (strictEnv 8) h0 idleState).2
          = renderInternal env2 tmpFd
              { (enqueBuffer (strictEnv 8) h0 idleState).2 with pendingBuffers := rest2 }) ∧
    (∀ rest, idleState.pendingBuffers = 13 :: rest →
      ∃ s1, renderThreadFetch (strictEnv 8) idleState = some s1 ∧ s1.is_in_error = true ∧
        s1.thread = ThreadPhase.exited ∧ s1.pendingBuffers = rest ∧
        rendered s1.trace = rendered idleState.trace ++ [13] ∧
        ∀ env2 h2, enqueBuffer env2 h2 s1 = (-1, s1)) :=
  translation_failure (strictEnv 8) 13 idleState ⟨rfl, Or.inl rfl⟩

/-- C11, counterexample.  Handle 13, the first submission, has no surface behind it:
the first fetch of the thread sets `is_in_error` and the thread ends, and the
handle 2 submitted afterwards is refused: `enqueBuffer` returns -1, does not queue
it, and it is never presented. -/
theorem translation_failure_first_fetch_counterexample :
    run (init false) brokenFirstRun = some brokenFirstState ∧
    translationFails (strictEnv 7) (init false) 13 ∧
    brokenFirstState.is_in_error = true ∧
    brokenFirstState.thread = ThreadPhase.exited ∧
    enqueBuffer (okEnv 8) 2 brokenFirstState = (-1, brokenFirstState) ∧
    rendered (enqueBuffer (okEnv 8) 2 brokenFirstState).2.trace = [13] ∧
    (enqueBuffer (okEnv 8) 2 brokenFirstState).2.pendingBuffers = [] := by
  refine ⟨rfl, ⟨rfl, Or.inl rfl⟩, by decide, by decide, rfl, by decide, by decide⟩

/-- The failure inside `page_flip_handler`, on a run: handle 13 is pending while the
flip of handle 1 is awaited.  After the handler `flipPending` is still set with no
flip awaited, so `enqueBuffer(2)` only queues the handle and no further handler
step is enabled. -/
theorem handler_translation_stalls :
    (step awaitingState (Action.flipDone (strictEnv 8))).map
        (fun s => (s.flipPending, s.inFlight, s.pendingBuffers, rendered s.trace))
      = some (true, 0, [], [1, 13]) ∧
    (run awaitingState [Action.flipDone (strictEnv 8), Action.enque 2 (okEnv 9)]).map
        (fun s => (s.flipPending, s.inFlight, s.pendingBuffers, rendered s.trace))
      = some (true, 0, [2], [1, 13]) ∧
    run awaitingState [Action.flipDone (strictEnv 8), Action.enque 2 (okEnv 9),
      Action.flipDone (okEnv 9)] = none := by
  refine ⟨by decide, by decide, by decide⟩

/-! ### C16: the registry `map_list` and the framebuffer objects -/

theorem creations_append (a b : List Event) :
    creations (a ++ b) = creations a ++ creations b := by
  unfold creations
  exact List.filter_append a b

theorem importPlanes_creations (env : HwEnv) (nv : Bool) (fd : Int) :
    ∀ (k i : Nat) (bo : List Nat) (evs : List Event),
      creations (importPlanes env nv fd k i bo evs).2.2 = creations evs := by
  intro k
  induction k with
  | zero =>
    intro i bo evs
    simp [importPlanes]
  | succ k ih =>
    intro i bo evs
    unfold importPlanes
    simp only []
    by_cases h1 : env.primeRet i ≠ 0
    · simp only [if_pos h1]
      simp [creations_append, creations]
    · simp only [if_neg h1]
      cases nv with
      | true =>
        simp only [if_true]
        rw [ih]
        simp [creations_append, creations]
      | false =>
        simp only [Bool.false_eq_true, if_false]
        by_cases h2 : env.tilingRet i < 0
        · simp only [if_pos h2]
          simp [creations_append, creations]
        · simp only [if_neg h2]
          rw [ih]
          simp [creations_append, creations]

theorem setPlane_creations (env : HwEnv) (i fb : Nat) : creations (setPlane env i fb).2 = [] := by
  unfold setPlane
  split
  · rfl
  · split
    · split
      · simp [creations]
      · rfl
    · rfl

theorem acquireFB_created (env : HwEnv) (s : NvDrmRenderer) (fd : Int) (fb n : Nat)
    (bo : List Nat) (evs : List Event) (hmap : s.map_list.lookup fd = none)
    (hacq : acquireFB env s fd = (some (fb, n, bo), evs)) :
    fb = env.addFbId ∧
    creations evs = [if s.is_nvidia_drm then Event.addFB2WithModifiers env.addFbId 0
                     else Event.addFB2 env.addFbId 0] := by
  have himp := importPlanes_creations env s.is_nvidia_drm fd
  have hsp := setPlane_creations env 0 env.addFbId
  unfold acquireFB at hacq
  rw [hmap] at hacq
  simp only [] at hacq
  split at hacq
  · simp at hacq
  · split at hacq
    · simp at hacq
    · split at hacq
      · simp at hacq
      · split at hacq
        · simp at hacq
        · rename_i bo1 evs1 hi
          have hev : creations evs1 = [] := by
            have h := congrArg (fun r => creations r.2.2) hi
            simp only [himp] at h
            exact h.symm
          by_cases h1 : env.addFbRet ≠ 0
          · simp only [if_pos h1] at hacq
            simp at hacq
          · simp only [if_neg h1] at hacq
            have h0 : env.addFbRet = 0 := by simpa using h1
            by_cases h2 : (setPlane env 0 env.addFbId).1 ≠ 0
            · simp only [if_pos h2] at hacq
              simp at hacq
            · simp only [if_neg h2] at hacq
              simp only [Prod.mk.injEq, Option.some.injEq] at hacq
              obtain ⟨⟨hfb, -, -⟩, hevs⟩ := hacq
              refine ⟨hfb.symm, ?_⟩
              rw [← hevs, creations_append, creations_append, hev, hsp, h0]
              cases s.is_nvidia_drm <;> simp [creations]

theorem flipEvents_creations (env : HwEnv) (fb n : Nat) (bo : List Nat) (s : NvDrmRenderer) :
    creations (flipEvents env fb n bo s) = [] := by
  unfold flipEvents creations closeEvents
  rw [List.filter_eq_nil_iff]
  intro e he
  split at he
  · simp at he
    subst he
    simp
  · simp only [List.mem_append, List.mem_map, List.mem_range] at he
    rcases he with (h | ⟨i, -, h⟩) | h
    · split at h
      · simp at h
      · simp at h
        subst h
        simp
    · subst h
      simp
    · split at h
      · simp at h
        subst h
        simp
      · simp at h

theorem flipEvents_removals (env : HwEnv) (fb n : Nat) (bo : List Nat) (s : NvDrmRenderer)
    (hok : s.is_nvidia_drm = true ∨ env.flipRet = 0) :
    removals (flipEvents env fb n bo s) = if s.last_fb ≠ 0 then [Event.rmFB s.last_fb] else [] := by
  have hc : removals (closeEvents n bo) = [] := by
    unfold removals closeEvents
    rw [List.filter_eq_nil_iff]
    intro e he
    simp only [List.mem_map, List.mem_range] at he
    obtain ⟨i, -, h⟩ := he
    subst h
    simp
  have hneg : ¬ (s.is_nvidia_drm = false ∧ env.flipRet ≠ 0) := by
    rintro ⟨h1, h2⟩
    rcases hok with h | h
    · rw [h] at h1
      exact absurd h1 (by simp)
    · exact h2 h
  unfold flipEvents
  rw [if_neg hneg, removals_append, removals_append, hc]
  have h1 : removals (if s.is_nvidia_drm = true then [] else [Event.pageFlip fb env.flipRet]) = [] := by
    split <;> simp [removals]
  rw [h1]
  split <;> simp [removals]

theorem creations_paceEvents (s : NvDrmRenderer) : creations (paceEvents s) = [] := by
  unfold paceEvents creations
  split <;> simp

theorem renderInternal_success (env : HwEnv) (fd : Int) (s : NvDrmRenderer)
    (hok : (renderInternal env fd s).1 = 0) :
    ∃ fb n bo evs, acquireFB env s fd = (some (fb, n, bo), evs) ∧
      (s.is_nvidia_drm = true ∨ env.flipRet = 0) ∧
      (renderInternal env fd s).2.last_fb = fb := by
  rcases hacq : acquireFB env s fd with ⟨_ | ⟨fb, n, bo⟩, evs⟩
  · rw [renderInternal_fail_eq env fd s evs hacq] at hok
    exact absurd hok (show ¬ ((-1 : Int) = 0) by decide)
  · refine ⟨fb, n, bo, evs, rfl, ?_, ?_⟩
    · obtain ⟨-, -, hcase⟩ := renderInternal_outcome env fd s
      rcases hcase with ⟨h1, -⟩ | ⟨-, -, -, -, hcase2⟩
      · rw [hok] at h1
        exact absurd h1 (by decide)
      · rcases hcase2 with ⟨h1, -⟩ | ⟨-, -, -, h4⟩
        · rw [hok] at h1
          exact absurd h1 (by decide)
        · cases hnv : s.is_nvidia_drm with
          | true => exact Or.inl rfl
          | false => exact Or.inr (h4 hnv)
    · have hfs := flipStage_outcome env fd fb n bo (pace env (s.log (Event.renderCall fd :: evs)))
      have heq : renderInternal env fd s
          = flipStage env fd fb n bo (pace env (s.log (Event.renderCall fd :: evs))) := by
        unfold renderInternal
        rw [hacq]
      rw [heq] at hok ⊢
      obtain ⟨-, -, -, -, -, -, hc⟩ := hfs
      rcases hc with ⟨h1, -⟩ | ⟨-, -, -, h4, -⟩
      · rw [hok] at h1
        exact absurd h1 (by decide)
      · exact h4

/-- C16 (as amended). Nothing is ever entered into `map_list`: in every state reached
from the constructed renderer the registry is empty, and it is still empty after
a successful `renderInternal`, so a lookup of the handle just presented finds
nothing.  Every successful call therefore creates one new framebuffer object,
whatever the handle; that object becomes `last_fb`, and the call removes the
previous `last_fb` when it is not 0. -/
theorem framebuffer_per_call (nv : Bool) (acts : List Action) (s : NvDrmRenderer)
    (env : HwEnv) (fd : Int)
    (hrun : run (init nv) acts = some s)
    (hok : (renderInternal env fd s).1 = 0) :
    s.map_list = [] ∧
    (renderInternal env fd s).2.map_list = [] ∧
    (renderInternal env fd s).2.map_list.lookup fd = none ∧
    creations (renderInternal env fd s).2.trace
      = creations s.trace ++ [if s.is_nvidia_drm then Event.addFB2WithModifiers env.addFbId 0
                              else Event.addFB2 env.addFbId 0] ∧
    (renderInternal env fd s).2.last_fb = env.addFbId ∧
    removals (renderInternal env fd s).2.trace
      = removals s.trace ++ (if s.last_fb ≠ 0 then [Event.rmFB s.last_fb] else []) := by
  have hmap : s.map_list = [] := (run_static acts (init nv) s hrun).2
  have hfr := renderInternal_frame env fd s
  have hmap2 : (renderInternal env fd s).2.map_list = [] := by
    rw [hfr.2.2.2.2.2.2.2.1, hmap]
  obtain ⟨fb, n, bo, evs, hacq, hflip, hlast⟩ := renderInternal_success env fd s hok
  have hlk : s.map_list.lookup fd = none := by rw [hmap]; rfl
  obtain ⟨hfb, hcr⟩ := acquireFB_created env s fd fb n bo evs hlk hacq
  have hev := acquireFB_events env s fd
  rw [hacq] at hev
  have htr := renderInternal_trace env fd s fb n bo evs hacq
  refine ⟨hmap, hmap2, ?_, ?_, ?_, ?_⟩
  · rw [hmap2]; rfl
  · rw [htr]
    simp only [creations_append, creations_paceEvents, flipEvents_creations, List.append_nil]
    have h1 : creations (Event.renderCall fd :: evs) = creations evs := by
      simp [creations]
    have h2 : creations [Event.flipped fd] = [] := by simp [creations]
    rw [h1, h2, hcr, List.append_nil]
  · rw [hlast, hfb]
  · rw [htr]
    simp only [removals_append, removals_paceEvents, List.append_nil]
    have h1 : removals (Event.renderCall fd :: evs) = [] := by
      have := removals_setup evs hev
      unfold removals at this ⊢
      rw [List.filter_cons]
      simpa using this
    have h2 : removals [Event.flipped fd] = [] := by simp [removals]
    rw [h1, h2, flipEvents_removals env fb n bo s hflip, List.append_nil, List.append_nil]

theorem framebuffer_per_call_witness :
    idleState.map_list = [] ∧
    (renderInternal (okEnv 8) 1 idleState).2.map_list = [] ∧
    (renderInternal (okEnv 8) 1 idleState).2.map_list.lookup 1 = none ∧
    creations (renderInternal (okEnv 8) 1 idleState).2.trace
      = creations idleState.trace
        ++ [if idleState.is_nvidia_drm then Event.addFB2WithModifiers (okEnv 8).addFbId 0
            else Event.addFB2 (okEnv 8).addFbId 0] ∧
    (renderInternal (okEnv 8) 1 idleState).2.last_fb = (okEnv 8).addFbId ∧
    removals (renderInternal (okEnv 8) 1 idleState).2.trace
      = removals idleState.trace
        ++ (if idleState.last_fb ≠ 0 then [Event.rmFB idleState.last_fb] else []) :=
  framebuffer_per_call false
    [Action.enque 1 (okEnv 7), Action.fetch (okEnv 7), Action.flipDone (okEnv 7)]
    idleState (okEnv 8) 1 rfl (by decide)

/-- C16, counterexample.  Handle 1 is presented with success twice in a row: after the
first call the registry has no entry for it, and the second call creates a second
framebuffer object (8, after 7) for the same handle. -/
theorem registry_lookup_counterexample :
    (renderInternal (okEnv 7) 1 (init false)).1 = 0 ∧
    (renderInternal (okEnv 7) 1 (init false)).2.map_list.lookup 1 = none ∧
    (renderInternal (okEnv 8) 1 (renderInternal (okEnv 7) 1 (init false)).2).1 = 0 ∧
    creations (renderInternal (okEnv 8) 1 (renderInternal (okEnv 7) 1 (init false)).2).2.trace
      = [Event.addFB2 7 0, Event.addFB2 8 0] := by
  decide

/-! ### C17: when the previous framebuffer is removed -/

theorem removals_call (fd : Int) (evs : List Event) (h : ∀ e ∈ evs, e.isSetupCall = true) :
    removals (Event.renderCall fd :: evs) = [] := by
  have := removals_setup evs h
  unfold removals at this ⊢
  rw [List.filter_cons]
  simpa using this

theorem pageFlips_call (fd : Int) (evs : List Event) (h : ∀ e ∈ evs, e.isSetupCall = true) :
    pageFlips (Event.renderCall fd :: evs) = [] := by
  have := pageFlips_setup evs h
  unfold pageFlips at this ⊢
  rw [List.filter_cons]
  simpa using this

theorem activeSeq_call (fd : Int) (evs : List Event) (h : ∀ e ∈ evs, e.isSetupCall = true) :
    activeSeq (Event.renderCall fd :: evs) = [] := by
  have := activeSeq_setup evs h
  unfold activeSeq at this ⊢
  rw [List.filterMap_cons]
  simpa using this

theorem activeSeq_paceEvents (s : NvDrmRenderer) : activeSeq (paceEvents s) = [] := by
  unfold paceEvents activeSeq
  split <;> simp

/-- C17 (as amended). In event-driven mode a call of `renderInternal` that returns 0
issues its flip request and then, in the same call, releases the imported handles
and removes the framebuffer that was `last_fb` before the call (when that is not
0): the removal follows the request with no confirmation in between, and on
return the flip just requested is still awaited.  A call that does not return 0
removes no framebuffer and leaves `last_fb` as it was. -/
theorem removal_follows_request (env : HwEnv) (fd : Int) (s : NvDrmRenderer)
    (hnv : s.is_nvidia_drm = false) :
    ((renderInternal env fd s).1 = 0 →
      ∃ fb n bo pre,
        (renderInternal env fd s).2.trace
          = s.trace ++ pre ++ [Event.pageFlip fb 0] ++ closeEvents n bo
            ++ (if s.last_fb ≠ 0 then [Event.rmFB s.last_fb] else []) ∧
        removals pre = [] ∧ pageFlips pre = [] ∧ activeSeq pre = [] ∧
        (renderInternal env fd s).2.last_fb = fb ∧
        (renderInternal env fd s).2.inFlight = s.inFlight + 1) ∧
    ((renderInternal env fd s).1 ≠ 0 →
      removals (renderInternal env fd s).2.trace = removals s.trace ∧
      (renderInternal env fd s).2.last_fb = s.last_fb) := by
  have hev := acquireFB_events env s fd
  constructor
  · intro hok
    obtain ⟨fb, n, bo, evs, hacq, hflip, hlast⟩ := renderInternal_success env fd s hok
    rw [hacq] at hev
    have hf0 : env.flipRet = 0 := by
      rcases hflip with h | h
      · rw [hnv] at h
        exact absurd h (by simp)
      · exact h
    have htr := renderInternal_trace env fd s fb n bo evs hacq
    have hfe : flipEvents env fb n bo s
        = [Event.pageFlip fb 0] ++ closeEvents n bo
          ++ (if s.last_fb ≠ 0 then [Event.rmFB s.last_fb] else []) := by
      unfold flipEvents
      rw [if_neg (fun h => h.2 hf0), hnv, hf0]
      simp
    refine ⟨fb, n, bo, (Event.renderCall fd :: evs) ++ paceEvents s ++ [Event.flipped fd],
      ?_, ?_, ?_, ?_, hlast, ?_⟩
    · rw [htr, hfe]
      simp only [List.append_assoc]
    · rw [removals_append, removals_append, removals_call fd evs hev, removals_paceEvents]
      simp [removals]
    · rw [pageFlips_append, pageFlips_append, pageFlips_call fd evs hev, pageFlips_paceEvents]
      simp [pageFlips]
    · have ha : ∀ a b : List Event, activeSeq (a ++ b) = activeSeq a ++ activeSeq b := by
        intro a b
        unfold activeSeq
        exact List.filterMap_append a b _
      rw [ha, ha, activeSeq_call fd evs hev, activeSeq_paceEvents]
      simp [activeSeq]
    · obtain ⟨-, -, hcase⟩ := renderInternal_outcome env fd s
      rcases hcase with ⟨h1, -⟩ | ⟨-, -, -, -, hcase2⟩
      · rw [hok] at h1
        exact absurd h1 (by decide)
      · rcases hcase2 with ⟨h1, -⟩ | ⟨-, -, h3, -⟩
        · rw [hok] at h1
          exact absurd h1 (by decide)
        · rw [h3, hnv]
          simp
  · intro hbad
    rcases hacq : acquireFB env s fd with ⟨_ | ⟨fb, n, bo⟩, evs⟩
    · rw [hacq] at hev
      rw [renderInternal_fail_eq env fd s evs hacq]
      refine ⟨?_, rfl⟩
      show removals (s.trace ++ Event.renderCall fd :: evs) = _
      rw [removals_append, removals_call fd evs hev, List.append_nil]
    · rw [hacq] at hev
      obtain ⟨-, -, hcase⟩ := renderInternal_outcome env fd s
      rcases hcase with ⟨-, hnone, -⟩ | ⟨-, -, -, -, hcase2⟩
      · rw [hacq] at hnone
        exact absurd hnone (by simp)
      · rcases hcase2 with ⟨-, -, hrej, -, -, hlast⟩ | ⟨h0, -⟩
        · refine ⟨?_, hlast⟩
          rw [renderInternal_trace env fd s fb n bo evs hacq,
            flipEvents_rejected env fb n bo s hnv hrej]
          simp only [removals_append, removals_paceEvents, removals_call fd evs hev,
            List.append_nil]
          simp [removals]
        · exact absurd h0 hbad

theorem removal_follows_request_witness :
    ((renderInternal (okEnv 8) 2 idleState).1 = 0 →
      ∃ fb n bo pre,
        (renderInternal (okEnv 8) 2 idleState).2.trace
          = idleState.trace ++ pre ++ [Event.pageFlip fb 0] ++ closeEvents n bo
            ++ (if idleState.last_fb ≠ 0 then [Event.rmFB idleState.last_fb] else []) ∧
        removals pre = [] ∧ pageFlips pre = [] ∧ activeSeq pre = [] ∧
        (renderInternal (okEnv 8) 2 idleState).2.last_fb = fb ∧
        (renderInternal (okEnv 8) 2 idleState).2.inFlight = idleState.inFlight + 1) ∧
    ((renderInternal (okEnv 8) 2 idleState).1 ≠ 0 →
      removals (renderInternal (okEnv 8) 2 idleState).2.trace = removals idleState.trace ∧
      (renderInternal (okEnv 8) 2 idleState).2.last_fb = idleState.last_fb) :=
  removal_follows_request (okEnv 8) 2 idleState rfl

/-- C17, counterexample.  Handles 1 and 2 are submitted, the thread presents 1 and the
confirmation of that flip presents 2: the log ends with the flip request for
framebuffer 8, the release of the imported handles and the removal of
framebuffer 7, while the flip to 8 is still awaited. -/
theorem removal_before_confirmation_counterexample :
    run (init false) demoRun = some demoState ∧
    demoState.is_nvidia_drm = false ∧
    demoState.trace.drop 21
      = [Event.pageFlip 8 0, Event.closeGemBo 100, Event.closeGemBo 101, Event.rmFB 7] ∧
    activeSeq demoState.trace = [1] ∧
    demoState.inFlight = 1 ∧
    removalsAfterConfirm demoState.trace false = false := by
  refine ⟨rfl, by decide, by decide, by decide, by decide, by decide⟩

end NvDrm
